import Mathlib

/-!
# networkd-ipmon: interface state tracking and script dispatch

A shallow embedding of the Go sources

* `ordered/map.go`, `ordered/set.go` : the insertion-ordered map and set,
* `internal/set/set.go`              : the plain set of watched property names,
* `main.go`                          : `LoadInterfaces`, `Listen`, `getByPath`,
                                       `loadRaw`, `runScriptsIfChanged`,
                                       `parsePropertiesChanged`, `ipChanged`,

followed by theorems about them.

Conventions of the embedding.

* A Go builtin `map[K]V` is an association list with pairwise distinct keys
  (`GoMap`); `m[k]` is `GoMap.get`, `m[k] = v` is `GoMap.set`.  A nil map and an
  empty map read alike, so both are `[]`, except where the source tests
  `m == nil` (then the map is an `Option`).
* A Go pointer to a heap cell is an index into an explicit heap (a list of
  cells); the nil pointer is `none`.
* A run of Go code that dereferences a nil pointer panics; a function that can
  panic returns an `Option`, and `none` stands for the panic.
* A Go `error` result is an `Option` of an error value, `none` being `nil`.
-/

set_option autoImplicit false

/-! ## Go builtin maps -/

/-- A Go builtin map, as the list of its key/value pairs. -/
abbrev GoMap (K V : Type) := List (K × V)

namespace GoMap

variable {K V : Type} [DecidableEq K]

/-- The comma-ok read `v, ok := m[k]`: `none` when the key is absent. -/
def get (m : GoMap K V) (k : K) : Option V :=
  List.lookup k m

/-- The assignment `m[k] = v`: the value of an existing key is replaced, a new key
is added. -/
def set : GoMap K V → K → V → GoMap K V
  | [], k, v => [(k, v)]
  | (k1, v1) :: rest, k, v =>
    if k1 = k then (k1, v) :: rest else (k1, v1) :: set rest k v

/-- The keys of the map. -/
def keys (m : GoMap K V) : List K :=
  m.map Prod.fst

end GoMap

/-! ## Package `ordered` -/

namespace ordered

/-- The list node `entry[K, V]` of `ordered/map.go`.  `next` and `prev` are
pointers to other nodes: indices into the heap of the map, or `none` for nil. -/
structure entry (K V : Type) where
  next : Option Nat
  prev : Option Nat
  key : K
  value : V
deriving DecidableEq

/-- The struct `Map[K, V]` of `ordered/map.go`, together with the heap cells its
pointers refer to.  `heap` holds every `entry` allocated by `Set` so far, the
address of a node being its position in `heap`; `m` is the builtin map from keys
to node addresses (`none` while it is the nil map); `head` and `tail` are the
ends of the doubly linked list. -/
structure Map (K V : Type) where
  heap : List (entry K V)
  m : Option (GoMap K Nat)
  head : Option Nat
  tail : Option Nat
deriving DecidableEq

namespace Map

variable {K V : Type} [DecidableEq K]

/-- The zero value `var m ordered.Map[K, V]`. -/
def zero : Map K V :=
  { heap := [], m := none, head := none, tail := none }

/-- The comma-ok read `e, ok := m.m[k]` of the node of a key; reading the nil map
finds nothing. -/
def lookup (m : Map K V) (k : K) : Option Nat :=
  match m.m with
  | none => none
  | some idx => GoMap.get idx k

/-- The builtin map `m.m` once `Set` has made sure that it is not nil. -/
def index (m : Map K V) : GoMap K Nat :=
  match m.m with
  | none => []
  | some idx => idx

/-- The method `Set` of `ordered/map.go`.  The result is the map after the call
and the returned boolean; `none` is a nil-pointer dereference. -/
def Set (m : Map K V) (k : K) (v : V) : Option (Map K V × Bool) :=
  match m.lookup k with
  | some e =>
    -- e.value = v; return false
    match m.heap[e]? with
    | none => none
    | some cell => some ({ m with heap := m.heap.set e { cell with value := v } }, false)
  | none =>
    -- e := &entry[K, V]{key: k, value: v}
    let e : Nat := m.heap.length
    let cell : entry K V := { next := none, prev := none, key := k, value := v }
    -- m.m[k] = e
    let idx := GoMap.set m.index k e
    match m.head with
    | none =>
      some ({ heap := m.heap ++ [cell], m := some idx, head := some e, tail := some e }, true)
    | some h =>
      -- e.prev = m.tail; m.tail.next = e; m.tail = e
      match m.tail with
      | none => none
      | some t =>
        match m.heap[t]? with
        | none => none
        | some last =>
          some ({ heap := m.heap.set t { last with next := some e } ++ [{ cell with prev := some t }],
                  m := some idx, head := some h, tail := some e }, true)

/-- The method `Get` of `ordered/map.go`: the stored value and `true`, or the zero
value of `V` (here `default`) and `false`.  `none` is a dangling pointer. -/
def Get [Inhabited V] (m : Map K V) (k : K) : Option (V × Bool) :=
  match m.lookup k with
  | some e =>
    match m.heap[e]? with
    | none => none
    | some cell => some (cell.value, true)
  | none => some (default, false)

/-- The loop `for e := start; e != nil; e = e.next` of `All`, yielding every pair to
a consumer that never stops early.  Each step uses one unit of `fuel`; `none` is
returned when the fuel runs out before the nil pointer is reached, or on a
dangling pointer. -/
def walk (heap : List (entry K V)) : Nat → Option Nat → Option (List (K × V))
  | _, none => some []
  | 0, some _ => none
  | fuel + 1, some e =>
    match heap[e]? with
    | none => none
    | some cell =>
      match walk heap fuel cell.next with
      | none => none
      | some rest => some ((cell.key, cell.value) :: rest)

/-- The method `All` of `ordered/map.go` run to its end with the given fuel. -/
def AllFuel (fuel : Nat) (m : Map K V) : Option (List (K × V)) :=
  walk m.heap fuel m.head

/-- The method `All` of `ordered/map.go`, collected: the traversal is given as
many steps as there are allocated nodes. -/
def All (m : Map K V) : Option (List (K × V)) :=
  AllFuel m.heap.length m

/-- The method `Len` of `ordered/map.go`: `len(m.m)`. -/
def Len (m : Map K V) : Nat :=
  match m.m with
  | none => 0
  | some idx => idx.length

/-- A sequence of `Set` calls, in order, with the booleans they return. -/
def setMany : Map K V → List (K × V) → Option (Map K V × List Bool)
  | m, [] => some (m, [])
  | m, (k, v) :: rest =>
    match m.Set k v with
    | none => none
    | some (m1, b) =>
      match setMany m1 rest with
      | none => none
      | some (m2, bs) => some (m2, b :: bs)

end Map

/-- The type `Set[E]` of `ordered/set.go`: `Map[E, struct{}]`. -/
abbrev Set (E : Type) := Map E Unit

namespace Set

variable {E : Type} [DecidableEq E]

/-- The method `Add` of `ordered/set.go`. -/
def Add (s : Set E) (el : E) : Option (Set E × Bool) :=
  Map.Set s el ()

/-- The method `All` of `ordered/set.go`, collected. -/
def All (s : Set E) : Option (List E) :=
  match Map.All s with
  | none => none
  | some kvs => some (kvs.map Prod.fst)

/-- A sequence of `Add` calls on a set, in order. -/
def addMany : Set E → List E → Option (Set E)
  | s, [] => some s
  | s, el :: rest =>
    match s.Add el with
    | none => none
    | some (s1, _) => addMany s1 rest

end Set

end ordered

/-- The expression `strings.Join(slices.Collect(s.All()), " ")` of
`runScriptsIfChanged`: the canonical string of an ordered set of strings. -/
def canonical (s : ordered.Set String) : Option String :=
  match s.All with
  | none => none
  | some els => some (String.intercalate " " els)

/-- The list `L` with every occurrence after the first of each element removed,
first-seen order preserved (the wording of the specification). -/
def firstSeen {E : Type} [DecidableEq E] : List E → List E
  | [] => []
  | x :: rest => x :: (firstSeen rest).filter (fun y => decide (y ≠ x))

/-! ## Package `net/netip` of the Go standard library

Only what `runScriptsIfChanged` calls, as of the Go release that has the package `iter`
used by `ordered/map.go`.  An address is its raw bytes. -/

/-- A byte of a Go `[]byte`. -/
abbrev Byte := Fin 256

namespace netip

/-- The type `netip.Addr`: the zero `Addr`, an IPv4 address of four bytes, or an IPv6
address of sixteen bytes (an IPv4-mapped IPv6 address is an IPv6 address). -/
inductive Addr
  | z0
  | z4 (bytes : List Byte)
  | z6 (bytes : List Byte)
deriving DecidableEq

/-- The type `netip.Prefix`. -/
structure Prefix where
  ip : Addr
  bitsPlusOne : Nat
deriving DecidableEq

/-- The function `netip.AddrFromSlice`: defined for slices of length 4 and 16 only. -/
def AddrFromSlice (slice : List Byte) : Option Addr :=
  if slice.length = 4 then some (Addr.z4 slice)
  else if slice.length = 16 then some (Addr.z6 slice)
  else none

namespace Addr

/-- The byte `i` of the address, as a number. -/
def byte : Addr → Nat → Nat
  | z0, _ => 0
  | z4 bytes, i => ((bytes.getD i 0 : Byte) : Nat)
  | z6 bytes, i => ((bytes.getD i 0 : Byte) : Nat)

/-- The method `Is4`. -/
def Is4 : Addr → Bool
  | z4 _ => true
  | _ => false

/-- The method `Is6`. -/
def Is6 : Addr → Bool
  | z6 _ => true
  | _ => false

/-- The method `BitLen`. -/
def BitLen : Addr → Nat
  | z0 => 0
  | z4 _ => 32
  | z6 _ => 128

/-- The sixteen-bit group `i` of an IPv6 address (`v6u16`). -/
def v6u16 (ip : Addr) (i : Nat) : Nat :=
  ip.byte (2 * i) * 256 + ip.byte (2 * i + 1)

/-- The method `Is4In6`: an IPv6 address of the form `::ffff:a.b.c.d`. -/
def Is4In6 (ip : Addr) : Bool :=
  ip.Is6 && (List.range 10).all (fun i => ip.byte i == 0)
    && ip.byte 10 == 255 && ip.byte 11 == 255

/-- The method `Unmap`. -/
def Unmap (ip : Addr) : Addr :=
  match ip with
  | z6 bytes => if ip.Is4In6 then z4 (bytes.drop 12) else ip
  | _ => ip

/-- The method `IsPrivate`: 10/8, 172.16/12, 192.168/16 and fc00::/7. -/
def IsPrivate (ip : Addr) : Bool :=
  let ip := if ip.Is4In6 then ip.Unmap else ip
  if ip.Is4 then
    ip.byte 0 == 10 || (ip.byte 0 == 172 && ip.byte 1 &&& 0xf0 == 16)
      || (ip.byte 0 == 192 && ip.byte 1 == 168)
  else if ip.Is6 then ip.byte 0 &&& 0xfe == 0xfc
  else false

/-- The method `IsLoopback`. -/
def IsLoopback (ip : Addr) : Bool :=
  let ip := if ip.Is4In6 then ip.Unmap else ip
  if ip.Is4 then ip.byte 0 == 127
  else if ip.Is6 then (List.range 15).all (fun i => ip.byte i == 0) && ip.byte 15 == 1
  else false

/-- The method `IsMulticast`. -/
def IsMulticast (ip : Addr) : Bool :=
  let ip := if ip.Is4In6 then ip.Unmap else ip
  if ip.Is4 then ip.byte 0 &&& 0xf0 == 0xe0
  else if ip.Is6 then ip.byte 0 == 0xff
  else false

/-- The method `IsLinkLocalUnicast`. -/
def IsLinkLocalUnicast (ip : Addr) : Bool :=
  let ip := if ip.Is4In6 then ip.Unmap else ip
  if ip.Is4 then ip.byte 0 == 169 && ip.byte 1 == 254
  else if ip.Is6 then ip.v6u16 0 &&& 0xffc0 == 0xfe80
  else false

/-- The method `IsGlobalUnicast`. -/
def IsGlobalUnicast (ip : Addr) : Bool :=
  if ip = z0 then false
  else
    let ip := if ip.Is4In6 then ip.Unmap else ip
    if ip.Is4 && ((List.range 4).all (fun i => ip.byte i == 0)
        || (List.range 4).all (fun i => ip.byte i == 255)) then false
    else
      !(ip.Is6 && (List.range 16).all (fun i => ip.byte i == 0))
        && !ip.IsLoopback && !ip.IsMulticast && !ip.IsLinkLocalUnicast

/-- Lower-case hexadecimal without leading zeros (`appendHex`). -/
def hex (n : Nat) : String :=
  String.mk (Nat.toDigits 16 n)

/-- Dotted decimal form of an IPv4 address (`string4`). -/
def string4 (ip : Addr) : String :=
  toString (ip.byte 0) ++ "." ++ toString (ip.byte 1) ++ "." ++ toString (ip.byte 2)
    ++ "." ++ toString (ip.byte 3)

/-- The end of the run of zero groups that starts at group `i`. -/
def zeroRunEnd (ip : Addr) : Nat → Nat → Nat
  | 0, j => j
  | fuel + 1, j => if j < 8 ∧ ip.v6u16 j = 0 then zeroRunEnd ip fuel (j + 1) else j

/-- The first loop of `appendTo6`: the longest run of at least two zero groups,
the earliest one among equals, as `(zeroStart, zeroEnd)`; `(255, 255)` if none. -/
def zeroRun (ip : Addr) : Nat × Nat :=
  (List.range 8).foldl
    (fun (acc : Nat × Nat) i =>
      let j := zeroRunEnd ip 8 i
      if j - i ≥ 2 ∧ j - i > acc.2 - acc.1 then (i, j) else acc)
    (255, 255)

/-- The second loop of `appendTo6`, from group `i` on. -/
def groups6 (ip : Addr) (zeroStart zeroEnd : Nat) : Nat → Nat → String
  | 0, _ => ""
  | fuel + 1, i =>
    if i ≥ 8 then ""
    else if i = zeroStart then
      if zeroEnd ≥ 8 then "::"
      else "::" ++ hex (ip.v6u16 zeroEnd) ++ groups6 ip zeroStart zeroEnd fuel (zeroEnd + 1)
    else
      (if i > 0 then ":" else "") ++ hex (ip.v6u16 i)
        ++ groups6 ip zeroStart zeroEnd fuel (i + 1)

/-- The text form of an IPv6 address (`string6`). -/
def string6 (ip : Addr) : String :=
  let z := zeroRun ip
  groups6 ip z.1 z.2 8 0

/-- The method `String` of `netip.Addr`. -/
def String (ip : Addr) : String :=
  match ip with
  | z0 => "invalid IP"
  | z4 _ => ip.string4
  | z6 _ => if ip.Is4In6 then "::ffff:" ++ ip.Unmap.string4 else ip.string6

end Addr

/-- The function `netip.PrefixFrom`: an out-of-range length gives an invalid
prefix, whose `Bits()` is -1. -/
def PrefixFrom (ip : Addr) (bits : Int) : Prefix :=
  if ip ≠ Addr.z0 ∧ 0 ≤ bits ∧ bits ≤ (ip.BitLen : Int) then
    { ip := ip, bitsPlusOne := bits.toNat + 1 }
  else
    { ip := ip, bitsPlusOne := 0 }

namespace Prefix

/-- The method `Bits`. -/
def Bits (p : Prefix) : Int :=
  (p.bitsPlusOne : Int) - 1

/-- The method `String` of `netip.Prefix`. -/
def String (p : Prefix) : String :=
  if p.bitsPlusOne = 0 then "invalid Prefix"
  else p.ip.String ++ "/" ++ toString (p.bitsPlusOne - 1)

end Prefix

end netip

/-! ## Package `internal/set` -/

namespace set

/-- The struct `Set[E]` of `internal/set/set.go`: the keys of its builtin map `m`. -/
structure Set (E : Type) where
  m : List E
deriving DecidableEq

namespace Set

variable {E : Type} [DecidableEq E]

/-- The method `Add`. -/
def Add (s : Set E) (el : E) : Set E × Bool :=
  if el ∈ s.m then (s, false) else ({ m := s.m ++ [el] }, true)

/-- The method `AddSlice`. -/
def AddSlice (s : Set E) (els : List E) : Set E :=
  els.foldl (fun acc el => (acc.Add el).1) s

/-- The method `Contains`. -/
def Contains (s : Set E) (v : E) : Bool :=
  decide (v ∈ s.m)

/-- The method `Len`. -/
def Len (s : Set E) : Nat :=
  s.m.length

end Set

end set

/-! ## Package `main` -/

/-- The constant `keyIPv6`. -/
def keyIPv6 : String := "IPV6_ADDRS"

/-- The constant `keyIPv4`. -/
def keyIPv4 : String := "IPV4_ADDRS"

/-- The constant `keyPD`. -/
def keyPD : String := "PD_ADDRS"

/-- The struct `scriptConfig`. -/
structure scriptConfig where
  Interfaces : List String
  Properties : set.Set String
deriving DecidableEq

/-- The struct `script`.  `Config` is a pointer: `none` is nil. -/
structure script where
  Path : String
  Config : Option scriptConfig
deriving DecidableEq

instance : Inhabited script := ⟨{ Path := "", Config := none }⟩

/-- The struct `rawInterface`.  `Path` is a bus object path. -/
structure rawInterface where
  Index : Int
  Name : String
  Path : String
deriving DecidableEq

/-- The struct `Interface`, without its `parent` field (used only to reach the bus
connection). -/
structure Interface where
  raw : rawInterface
  properties : GoMap String String
  scripts : List script
deriving DecidableEq

/-- The struct `Interfaces`, without the bus connection.  The maps `rawByPath`,
`rawByName` and `m` hold pointers in the source; here they hold the records. -/
structure Interfaces where
  rawByPath : GoMap String rawInterface
  rawByName : GoMap String rawInterface
  m : GoMap String Interface
  scripts : GoMap String (List script)
deriving DecidableEq

/-- The errors created in `main.go`, and the one passed on from `json.Unmarshal`. -/
inductive Error
  /-- An error of `json.Unmarshal`. -/
  | json (msg : String)
  /-- The error "invalid IP address from dbus: %s". -/
  | invalidIP (raw : List Byte)
  /-- The error "invalid PD prefix from dbus: %s". -/
  | invalidPD (raw : List Byte)
  /-- The error "invalid PrefixLength from dbus: %d". -/
  | invalidPrefixLength (n : Int)
  /-- The error "unable to find interface with path: " followed by the path. -/
  | notFound (path : String)
  /-- A `dbus.InvalidMessageError` with the given text. -/
  | invalidMessage (msg : String)
  /-- The error "no interface is specified to be watched". -/
  | noInterface
  /-- An error passed on from the bus or from the operating system. -/
  | external (msg : String)
deriving DecidableEq

/-- An element of `Addresses` in the decoded `DescribeLink` reply. -/
structure AddressEntry where
  Address : List Byte
  PrefixLength : Int
deriving DecidableEq

/-- An element of `DHCPv6Client.Prefixes` in the decoded `DescribeLink` reply. -/
structure PrefixEntry where
  Prefix : List Byte
  PrefixLength : Int
deriving DecidableEq

/-- The field `DHCPv6Client` of the decoded `DescribeLink` reply. -/
structure DHCPv6ClientDescription where
  Prefixes : List PrefixEntry
deriving DecidableEq

/-- The anonymous struct `v` that `runScriptsIfChanged` decodes the `DescribeLink`
reply into. -/
structure LinkDescription where
  Addresses : List AddressEntry
  DHCPv6Client : DHCPv6ClientDescription
deriving DecidableEq

/-- The struct `exec.Cmd`, as far as `runScriptsIfChanged` sets it. -/
structure Cmd where
  Path : String
  Args : List String
  Env : List String
deriving DecidableEq

/-- The call `exec.CommandContext(ctx, path)`. -/
def CommandContext (path : String) : Cmd :=
  { Path := path, Args := [path], Env := [] }

/-- The method `loadRaw`, given the reply of the bus call `ListLinks` (an error, or
the links). -/
def loadRaw (ifaces : Interfaces) (reply : Except String (List rawInterface)) :
    Interfaces × Option String :=
  match reply with
  | .error e => (ifaces, some e)
  | .ok v =>
    ({ ifaces with
        rawByPath := v.foldl (fun acc r => GoMap.set acc r.Path r) [],
        rawByName := v.foldl (fun acc r => GoMap.set acc r.Name r) [] }, none)

/-- The method `getByPath`, given the reply `ListLinks` would give if called: the
registry after the call, the returned `*Interface` and the returned error. -/
def getByPath (ifaces : Interfaces) (listLinks : Except String (List rawInterface))
    (path : String) : Interfaces × Option Interface × Option Error :=
  match GoMap.get ifaces.m path with
  | some iface => (ifaces, some iface, none)
  | none =>
    let looked : Interfaces × Option rawInterface :=
      match GoMap.get ifaces.rawByPath path with
      | some raw => (ifaces, some raw)
      | none =>
        let ifaces1 := (loadRaw ifaces listLinks).1
        (ifaces1, GoMap.get ifaces1.rawByPath path)
    match looked with
    | (ifaces1, none) => (ifaces1, none, some (Error.notFound path))
    | (ifaces1, some raw) =>
      match GoMap.get ifaces1.scripts raw.Name with
      | none => (ifaces1, none, none)
      | some scripts =>
        let scripts :=
          match GoMap.get ifaces1.scripts "" with
          | some wildcardScripts => scripts ++ wildcardScripts
          | none => scripts
        let iface : Interface := { raw := raw, scripts := scripts, properties := [] }
        ({ ifaces1 with m := GoMap.set ifaces1.m path iface }, some iface, none)

/-- The first loop of `runScriptsIfChanged`, over `v.Addresses`.  The result is
`none` on a panic, an error when the function returns one, and otherwise the two
sets `ipv6Set` and `ipv4Set`. -/
def addressLoop : List AddressEntry → ordered.Set String → ordered.Set String →
    Option (Except Error (ordered.Set String × ordered.Set String))
  | [], ipv6Set, ipv4Set => some (.ok (ipv6Set, ipv4Set))
  | rawAddr :: rest, ipv6Set, ipv4Set =>
    match netip.AddrFromSlice rawAddr.Address with
    | none => some (.error (Error.invalidIP rawAddr.Address))
    | some addr =>
      if addr.IsPrivate || !addr.IsGlobalUnicast then
        addressLoop rest ipv6Set ipv4Set
      else
        let pfx := netip.PrefixFrom addr rawAddr.PrefixLength
        if pfx.Bits = -1 then
          some (.error (Error.invalidPrefixLength rawAddr.PrefixLength))
        else if addr.Is6 then
          match ipv6Set.Add pfx.String with
          | none => none
          | some (s, _) => addressLoop rest s ipv4Set
        else
          match ipv4Set.Add pfx.String with
          | none => none
          | some (s, _) => addressLoop rest ipv6Set s

/-- The second loop of `runScriptsIfChanged`, over `v.DHCPv6Client.Prefixes`. -/
def prefixLoop : List PrefixEntry → ordered.Set String →
    Option (Except Error (ordered.Set String))
  | [], pdSet => some (.ok pdSet)
  | rawPrefix :: rest, pdSet =>
    match netip.AddrFromSlice rawPrefix.Prefix with
    | none => some (.error (Error.invalidPD rawPrefix.Prefix))
    | some addr =>
      let pfx := netip.PrefixFrom addr rawPrefix.PrefixLength
      if pfx.Bits = -1 then
        some (.error (Error.invalidPrefixLength rawPrefix.PrefixLength))
      else
        match pdSet.Add pfx.String with
        | none => none
        | some (s, _) => prefixLoop rest s

/-- The environment entries one script gets for one changed category:
`"OLD_"+key+"="+old` when there was a stored value, then `key+"="+new`. -/
def envEntries (key : String) (old : Option String) (new : String) : List String :=
  (match old with
    | some o => ["OLD_" ++ key ++ "=" ++ o]
    | none => []) ++ [key ++ "=" ++ new]

/-- The loop `for _, script := range iface.scripts` inside the block of one
changed category.  `none` is the panic of `script.Config.Properties` on a nil
`Config`. -/
def envLoop (key : String) (old : Option String) (new : String) :
    List script → ordered.Map String (List String) → Option (ordered.Map String (List String))
  | [], envs => some envs
  | sc :: rest, envs =>
    match sc.Config with
    | none => none
    | some config =>
      if config.Properties.Contains key then
        match envs.Get sc.Path with
        | none => none
        | some (env, _) =>
          match envs.Set sc.Path (env ++ envEntries key old new) with
          | none => none
          | some (envs1, _) => envLoop key old new rest envs1
      else envLoop key old new rest envs

/-- One of the three blocks
`if old, hasOld := iface.properties[key]; !hasOld || old != new` of
`runScriptsIfChanged` (they differ in the key and the new string only), on the
properties and the pending environments. -/
def updateCategory (key new : String) (scripts : List script)
    (properties : GoMap String String) (envs : ordered.Map String (List String)) :
    Option (GoMap String String × ordered.Map String (List String)) :=
  let old := GoMap.get properties key
  if old = none ∨ old ≠ some new then
    match envLoop key old new scripts envs with
    | none => none
    | some envs1 => some (GoMap.set properties key new, envs1)
  else some (properties, envs)

/-- The last loop of `runScriptsIfChanged`, over `envs.All()`: the commands run, in
order, and those whose `cmd.Run()` gave an error (which is logged).  `run` is the
outcome of running a command, `none` for success. -/
def dispatch (run : Cmd → Option String) : List (String × List String) → List Cmd × List Cmd
  | [] => ([], [])
  | (path, env) :: rest =>
    let cmd := CommandContext path
    let cmd := { cmd with Env := cmd.Env ++ env }
    let later := dispatch run rest
    match run cmd with
    | some _ => (cmd :: later.1, cmd :: later.2)
    | none => (cmd :: later.1, later.2)

/-- What one call of `runScriptsIfChanged` did: the `Interface` after the call, the
commands it ran, those that failed, and the error it returned. -/
structure Pass where
  iface : Interface
  launched : List Cmd
  failed : List Cmd
  err : Option Error
deriving DecidableEq

/-- The decoding part of `runScriptsIfChanged` (the two loops and the three
`strings.Join`): the canonical strings of IPV6_ADDRS, IPV4_ADDRS and PD_ADDRS. -/
def decodeLink (v : LinkDescription) : Option (Except Error (String × String × String)) :=
  match addressLoop v.Addresses ordered.Map.zero ordered.Map.zero with
  | none => none
  | some (.error e) => some (.error e)
  | some (.ok (ipv6Set, ipv4Set)) =>
    match prefixLoop v.DHCPv6Client.Prefixes ordered.Map.zero with
    | none => none
    | some (.error e) => some (.error e)
    | some (.ok pdSet) =>
      match canonical ipv6Set, canonical ipv4Set, canonical pdSet with
      | some ipv6, some ipv4, some pd => some (.ok (ipv6, ipv4, pd))
      | _, _, _ => none

/-- The method `runScriptsIfChanged`.  `reply` is the outcome of `json.Unmarshal` on
the `DescribeLink` reply, `run` the outcome of running a command.  `none` is a
panic. -/
def runScriptsIfChanged (run : Cmd → Option String) (iface : Interface)
    (reply : Except String LinkDescription) : Option Pass :=
  match reply with
  | .error e => some { iface := iface, launched := [], failed := [], err := some (Error.json e) }
  | .ok v =>
    match decodeLink v with
    | none => none
    | some (.error e) => some { iface := iface, launched := [], failed := [], err := some e }
    | some (.ok (ipv6, ipv4, pd)) =>
      match updateCategory keyIPv6 ipv6 iface.scripts iface.properties ordered.Map.zero with
      | none => none
      | some (props1, envs1) =>
        match updateCategory keyIPv4 ipv4 iface.scripts props1 envs1 with
        | none => none
        | some (props2, envs2) =>
          match updateCategory keyPD pd iface.scripts props2 envs2 with
          | none => none
          | some (props3, envs3) =>
            match envs3.All with
            | none => none
            | some all =>
              let ran := dispatch run all
              some { iface := { iface with properties := props3 },
                     launched := ran.1, failed := ran.2, err := none }

/-! ### Property-change notifications -/

/-- A Go value of type `any` as a `dbus.Variant` of a signal holds it. -/
inductive Any
  | str (s : String)
  | bool (b : Bool)
  | int (n : Int)
  | strs (l : List String)
  | other (tag : Nat)
deriving DecidableEq

/-- The struct `dbus.Variant`, as its value. -/
structure Variant where
  value : Any
deriving DecidableEq

/-- The struct `propertiesChanged`.  `Changes` lists the pairs of the Go map in the
order in which a `range` over it yields them. -/
structure propertiesChanged where
  Interface : String
  Changes : GoMap String Variant
  InvalidatedProperties : List String
deriving DecidableEq

/-- The loop of `ipChanged` in the case "org.freedesktop.network1.Link": whether it
returns `true, nil`. -/
def linkLoop : List (String × Variant) → Bool
  | [] => false
  | (prop, _) :: rest =>
    if prop = "IPv4AddressState" ∨ prop = "IPv6AddressState" then true else linkLoop rest

/-- The loop of `ipChanged` in the case "org.freedesktop.network1.DHCPv6Client":
whether it returns `true, nil`. -/
def dhcpLoop : List (String × Variant) → Bool
  | [] => false
  | (prop, value) :: rest =>
    if prop = "State" then
      match value.value with
      | Any.str s => if s = "bound" ∨ s = "stopped" then true else dhcpLoop rest
      | _ => dhcpLoop rest
    else dhcpLoop rest

/-- The method `ipChanged`: the returned boolean and error. -/
def ipChanged (pc : propertiesChanged) : Bool × Option Error :=
  if pc.Interface = "org.freedesktop.network1.Link" then
    if linkLoop pc.Changes then (true, none) else (false, none)
  else if pc.Interface = "org.freedesktop.network1.DHCPv6Client" then
    if dhcpLoop pc.Changes then (true, none) else (false, none)
  else (false, none)

/-! ## Representation invariant of `ordered.Map` -/

namespace ordered

/-- The list node at position `i` of a well-formed map with `n` entries that holds
the pair `kv`: it is linked to its two neighbours. -/
def cellAt {K V : Type} (n i : Nat) (kv : K × V) : entry K V :=
  { next := if i + 1 < n then some (i + 1) else none,
    prev := if i = 0 then none else some (i - 1),
    key := kv.1,
    value := kv.2 }

/-- The map `m` represents the sequence `l` of key/value pairs: the keys of `l` are
pairwise distinct, the heap holds exactly the nodes of `l` in order, each linked to
its neighbours, `head` and `tail` point to the two ends, and the builtin map sends
every key to the address of its node. -/
def Rep {K V : Type} (m : Map K V) (l : List (K × V)) : Prop :=
  (l.map Prod.fst).Nodup ∧
  (∀ i : Nat, m.heap[i]? = (l[i]?).map (cellAt l.length i)) ∧
  m.head = (if l.length = 0 then none else some 0) ∧
  m.tail = (if l.length = 0 then none else some (l.length - 1)) ∧
  (match m.m with
    | none => l = []
    | some idx => ∀ i : Nat, idx[i]? = (l[i]?).map (fun (kv : K × V) => (kv.1, i)))

end ordered

/-! ## Sequences behind the ordered containers of one pass -/

/-- Whether `script.Config.Properties.Contains(key)` holds; `false` for a script
without configuration. -/
def watches (sc : script) (key : String) : Bool :=
  match sc.Config with
  | some config => config.Properties.Contains key
  | none => false

/-- The pending environments after a run of `envs.Get` / `append` / `envs.Set` steps,
one for each pair of a script path and the entries appended for it, as a sequence
of (path, environment) pairs. -/
def accumulate (events : List (String × List String)) (l : GoMap String (List String)) :
    GoMap String (List String) :=
  events.foldl (fun acc ev => GoMap.set acc ev.1 ((GoMap.get acc ev.1).getD [] ++ ev.2)) l

/-- The steps one category contributes: none if the stored value equals the new
string, else one for every script of the list that watches the category. -/
def categoryEvents (key new : String) (scripts : List script)
    (properties : GoMap String String) : List (String × List String) :=
  if GoMap.get properties key = some new then []
  else (scripts.filter (fun sc => watches sc key)).map
    (fun sc => (sc.Path, envEntries key (GoMap.get properties key) new))

/-- The steps of the three categories of one pass, in the order of the source. -/
def passEvents (iface : Interface) (ipv6 ipv4 pd : String) : List (String × List String) :=
  categoryEvents keyIPv6 ipv6 iface.scripts iface.properties
    ++ categoryEvents keyIPv4 ipv4 iface.scripts iface.properties
    ++ categoryEvents keyPD pd iface.scripts iface.properties

/-- The stored properties after a pass that decoded the three canonical strings. -/
def passProperties (properties : GoMap String String) (ipv6 ipv4 pd : String) :
    GoMap String String :=
  let p1 := if GoMap.get properties keyIPv6 = some ipv6 then properties
    else GoMap.set properties keyIPv6 ipv6
  let p2 := if GoMap.get p1 keyIPv4 = some ipv4 then p1 else GoMap.set p1 keyIPv4 ipv4
  if GoMap.get p2 keyPD = some pd then p2 else GoMap.set p2 keyPD pd

/-- The CIDR strings the first loop adds to `ipv6Set` and to `ipv4Set`, in order and
with repetitions, or the error it returns. -/
def addressScan : List AddressEntry → Except Error (List String × List String)
  | [] => .ok ([], [])
  | rawAddr :: rest =>
    match netip.AddrFromSlice rawAddr.Address with
    | none => .error (Error.invalidIP rawAddr.Address)
    | some addr =>
      if addr.IsPrivate || !addr.IsGlobalUnicast then addressScan rest
      else if (netip.PrefixFrom addr rawAddr.PrefixLength).Bits = -1 then
        .error (Error.invalidPrefixLength rawAddr.PrefixLength)
      else
        match addressScan rest with
        | .error e => .error e
        | .ok (v6, v4) =>
          if addr.Is6 then
            .ok ((netip.PrefixFrom addr rawAddr.PrefixLength).String :: v6, v4)
          else .ok (v6, (netip.PrefixFrom addr rawAddr.PrefixLength).String :: v4)

/-- The CIDR strings the second loop adds to `pdSet`, in order and with repetitions,
or the error it returns. -/
def prefixScan : List PrefixEntry → Except Error (List String)
  | [] => .ok []
  | rawPrefix :: rest =>
    match netip.AddrFromSlice rawPrefix.Prefix with
    | none => .error (Error.invalidPD rawPrefix.Prefix)
    | some addr =>
      if (netip.PrefixFrom addr rawPrefix.PrefixLength).Bits = -1 then
        .error (Error.invalidPrefixLength rawPrefix.PrefixLength)
      else
        match prefixScan rest with
        | .error e => .error e
        | .ok pds => .ok ((netip.PrefixFrom addr rawPrefix.PrefixLength).String :: pds)

/-- The three canonical strings in terms of the scanned lists: each list without its
repetitions, joined by single spaces. -/
def decodeScan (v : LinkDescription) : Except Error (String × String × String) :=
  match addressScan v.Addresses with
  | .error e => .error e
  | .ok (v6, v4) =>
    match prefixScan v.DHCPv6Client.Prefixes with
    | .error e => .error e
    | .ok pds =>
      .ok (String.intercalate " " (firstSeen v6), String.intercalate " " (firstSeen v4),
        String.intercalate " " (firstSeen pds))

/-- The paths of the scripts that watch the category `key`, in the order of the
applicable list, when the category changed (the stored value is not `new`); no path
otherwise. -/
def changedWatchers (iface : Interface) (key new : String) : List String :=
  if GoMap.get iface.properties key = some new then []
  else (iface.scripts.filter (fun sc => watches sc key)).map script.Path

/-! ## Malformed entries of a reply -/

/-- A byte slice that is no address: its length is neither 4 nor 16. -/
def badLength (b : List Byte) : Bool :=
  decide (b.length ≠ 4 ∧ b.length ≠ 16)

/-- A prefix length out of range for the family of the address: negative, above 32 for
an address of four bytes, above 128 for one of sixteen bytes. -/
def outOfRange (b : List Byte) (n : Int) : Bool :=
  decide (n < 0 ∨ (b.length = 4 ∧ n > 32) ∨ (b.length = 16 ∧ n > 128))

/-- An address that the first loop skips: private-range or not global unicast. -/
def skippedAddress (b : List Byte) : Bool :=
  match netip.AddrFromSlice b with
  | some addr => addr.IsPrivate || !addr.IsGlobalUnicast
  | none => false

/-! ## Sample inputs -/

namespace Sample

/-- A script that watches IPV6_ADDRS only. -/
def scriptA : script :=
  { Path := "/etc/ipmon/a",
    Config := some { Interfaces := ["eth0"], Properties := { m := ["IPV6_ADDRS"] } } }

/-- A script that watches PD_ADDRS only. -/
def scriptB : script :=
  { Path := "/etc/ipmon/b",
    Config := some { Interfaces := ["eth0"], Properties := { m := ["PD_ADDRS"] } } }

/-- A script that watches IPV4_ADDRS only. -/
def scriptC : script :=
  { Path := "/etc/ipmon/c",
    Config := some { Interfaces := ["eth0"], Properties := { m := ["IPV4_ADDRS"] } } }

/-- A script registered for every interface, watching IPV4_ADDRS and IPV6_ADDRS. -/
def scriptW : script :=
  { Path := "/etc/ipmon/w",
    Config := some { Interfaces := [""], Properties := { m := ["IPV4_ADDRS", "IPV6_ADDRS"] } } }

/-- The link `eth0`. -/
def eth0 : rawInterface :=
  { Index := 2, Name := "eth0", Path := "/org/freedesktop/network1/link/_32" }

/-- The global unicast address 2001:db8::1. -/
def addr6 : List Byte := [0x20, 0x01, 0x0d, 0xb8, 0, 0, 0, 0, 0, 0, 0, 0, 0, 0, 0, 1]

/-- The prefix 2001:db8:1::. -/
def addrPD : List Byte := [0x20, 0x01, 0x0d, 0xb8, 0, 1, 0, 0, 0, 0, 0, 0, 0, 0, 0, 0]

/-- A reply with one global IPv4 address, one global IPv6 address and one delegated
prefix. -/
def reply : LinkDescription :=
  { Addresses := [{ Address := [203, 0, 113, 5], PrefixLength := 24 },
                  { Address := addr6, PrefixLength := 64 }],
    DHCPv6Client := { Prefixes := [{ Prefix := addrPD, PrefixLength := 48 }] } }

/-- A reply in which an address of three bytes follows a valid address. -/
def replyBadLength : LinkDescription :=
  { Addresses := [{ Address := [203, 0, 113, 5], PrefixLength := 24 },
                  { Address := [203, 0, 113], PrefixLength := 24 }],
    DHCPv6Client := { Prefixes := [] } }

/-- A reply whose only address is private and carries the prefix length 99. -/
def replyPrivateBadPrefix : LinkDescription :=
  { Addresses := [{ Address := [10, 0, 0, 1], PrefixLength := 99 }],
    DHCPv6Client := { Prefixes := [] } }

/-- An interface state for `eth0` that has stored nothing yet. -/
def fresh (scripts : List script) : Interface :=
  { raw := eth0, properties := [], scripts := scripts }

/-- An interface state for `eth0` after a pass on `reply`, except that the stored
delegated prefix is an older one. -/
def tracked (scripts : List script) : Interface :=
  { raw := eth0,
    properties := [("IPV6_ADDRS", "2001:db8::1/64"), ("IPV4_ADDRS", "203.0.113.5/24"),
                   ("PD_ADDRS", "2001:db8:ffff::/48")],
    scripts := scripts }

/-- Every command succeeds. -/
def allSucceed : Cmd → Option String := fun _ => none


/-- A registry whose only script is registered for every interface, with the link
`eth0` in the link cache and no interface state yet. -/
def registryWildcardOnly : Interfaces :=
  { rawByPath := [(eth0.Path, eth0)],
    rawByName := [(eth0.Name, eth0)],
    m := [],
    scripts := [("", [scriptW])] }

/-- A registry with a script for `eth0` and a script for every interface. -/
def registryNamedAndWildcard : Interfaces :=
  { rawByPath := [(eth0.Path, eth0)],
    rawByName := [(eth0.Name, eth0)],
    m := [],
    scripts := [("eth0", [scriptA]), ("", [scriptW])] }

end Sample

/-! ## Parsing a signal body -/

/-- An element of a signal body, a Go `any` told apart by its dynamic type: a `string`,
a `map[string]dbus.Variant`, a `[]string`, or a value of any other type. -/
inductive BodyValue
  | string (s : String)
  | variantMap (m : GoMap String Variant)
  | stringSlice (l : List String)
  | other (tag : Nat)
deriving DecidableEq

/-- The struct `dbus.Signal`, as far as `Listen` reads it. -/
structure Signal where
  Path : String
  Body : List BodyValue
deriving DecidableEq

/-- The function `parsePropertiesChanged`: the returned struct and error. -/
def parsePropertiesChanged (body : List BodyValue) : propertiesChanged × Option Error :=
  let pc : propertiesChanged := { Interface := "", Changes := [], InvalidatedProperties := [] }
  if body.length ≠ 3 then
    (pc, some (Error.invalidMessage "invalid body length for PropertiesChanged"))
  else
    match body[0]? with
    | some (BodyValue.string iface) =>
      match body[1]? with
      | some (BodyValue.variantMap changes) =>
        match body[2]? with
        | some (BodyValue.stringSlice ips) =>
          ({ Interface := iface, Changes := changes, InvalidatedProperties := ips }, none)
        | _ =>
          (pc, some (Error.invalidMessage
            "invallid invalidated_properties from PropertiesChanged signal"))
      | _ =>
        (pc, some (Error.invalidMessage "invalid changed_properties from PropertiesChanged signal"))
    | _ => (pc, some (Error.invalidMessage "invalid interface_name from PropertiesChanged signal"))

/-! ## The method `Listen` -/

/-- What the bus and the operating system answer at one moment: the outcome of
`AddMatchSignal`, the reply of `ListLinks`, the decoded reply of `DescribeLink` for a
link index, and the outcome of running a command. -/
structure World where
  addMatchSignal : Option String
  listLinks : Except String (List rawInterface)
  describeLink : Int → Except String LinkDescription
  run : Cmd → Option String

/-- The call `iface.runScriptsIfChanged()` on the interface state that `getByPath`
returned for `path`: the pass, and the registry in which the state stored under `path`
is the one after the pass (the source changes it through the pointer). -/
def reevaluate (w : World) (ifaces : Interfaces) (path : String) (iface : Interface) :
    Option (Interfaces × Pass) :=
  match runScriptsIfChanged w.run iface (w.describeLink iface.raw.Index) with
  | none => none
  | some p => some ({ ifaces with m := GoMap.set ifaces.m path p.iface }, p)

/-- The loop `for ifname := range ifaces.scripts` of `Listen`, over the names in the
order in which the map yields them: the registry after it, the commands run, and the
error with which `Listen` returns, if any. -/
def startupLoop (w : World) : List String → Interfaces →
    Option (Interfaces × List Cmd × Option Error)
  | [], ifaces => some (ifaces, [], none)
  | ifname :: rest, ifaces =>
    match GoMap.get ifaces.rawByName ifname with
    | none => startupLoop w rest ifaces
    | some raw =>
      match getByPath ifaces w.listLinks raw.Path with
      | (ifaces1, _, some err) => some (ifaces1, [], some err)
      | (ifaces1, none, none) => startupLoop w rest ifaces1
      | (ifaces1, some iface, none) =>
        match reevaluate w ifaces1 raw.Path iface with
        | none => none
        | some (ifaces2, p) =>
          match p.err with
          | some err => some (ifaces2, p.launched, some err)
          | none =>
            match startupLoop w rest ifaces2 with
            | none => none
            | some (ifaces3, launched, err) => some (ifaces3, p.launched ++ launched, err)

/-- The part of `Listen` before the signal loop: `AddMatchSignal`, `loadRaw` and the
startup loop. -/
def listenStart (w : World) (ifaces : Interfaces) :
    Option (Interfaces × List Cmd × Option Error) :=
  match w.addMatchSignal with
  | some e => some (ifaces, [], some (Error.external e))
  | none =>
    match loadRaw ifaces w.listLinks with
    | (ifaces1, some e) => some (ifaces1, [], some (Error.external e))
    | (ifaces1, none) => startupLoop w (GoMap.keys ifaces1.scripts) ifaces1

/-- The body of the loop `for signal := range signals` of `Listen` for one signal: the
registry after it, the commands run, and the error that is logged, if any. -/
def handleSignal (w : World) (ifaces : Interfaces) (signal : Signal) :
    Option (Interfaces × List Cmd × Option Error) :=
  match parsePropertiesChanged signal.Body with
  | (_, some err) => some (ifaces, [], some err)
  | (pc, none) =>
    match ipChanged pc with
    | (_, some err) => some (ifaces, [], some err)
    | (false, none) => some (ifaces, [], none)
    | (true, none) =>
      match getByPath ifaces w.listLinks signal.Path with
      | (ifaces1, _, some err) => some (ifaces1, [], some err)
      | (ifaces1, none, none) => some (ifaces1, [], none)
      | (ifaces1, some iface, none) =>
        match reevaluate w ifaces1 signal.Path iface with
        | none => none
        | some (ifaces2, p) => some (ifaces2, p.launched, p.err)

/-- The signal loop of `Listen`, each signal with the world at the time it is handled:
the registry at the end, the commands run and the errors logged, in order. -/
def signalLoop : List (World × Signal) → Interfaces →
    Option (Interfaces × List Cmd × List Error)
  | [], ifaces => some (ifaces, [], [])
  | (w, signal) :: rest, ifaces =>
    match handleSignal w ifaces signal with
    | none => none
    | some (ifaces1, launched, logged) =>
      match signalLoop rest ifaces1 with
      | none => none
      | some (ifaces2, launched2, logged2) =>
        some (ifaces2, launched ++ launched2,
          (match logged with
            | some err => [err]
            | none => []) ++ logged2)

/-- The method `Listen`, for a finite stream of signals: the registry at the end, the
commands run, the errors logged and the returned error. -/
def Listen (w : World) (ifaces : Interfaces) (signals : List (World × Signal)) :
    Option (Interfaces × List Cmd × List Error × Option Error) :=
  match listenStart w ifaces with
  | none => none
  | some (ifaces1, launched, some err) => some (ifaces1, launched, [], some err)
  | some (ifaces1, launched, none) =>
    match signalLoop signals ifaces1 with
    | none => none
    | some (ifaces2, launched2, logged) => some (ifaces2, launched ++ launched2, logged, none)

/-! ## The environment of a launched command (package `os/exec`) -/

/-- The position of the first "=" of an environment entry (`strings.Index`). -/
def indexEq (cs : List Char) : Option Nat :=
  if cs.indexOf '=' < cs.length then some (cs.indexOf '=') else none

/-- The key under which `dedupEnv` files an entry; `none` for an entry that is not of
the form key=value.  A leading "=" is taken as part of the key. -/
def envKey (kv : String) : Option String :=
  match indexEq kv.data with
  | none => none
  | some 0 =>
    match indexEq (kv.data.drop 1) with
    | some j => some (String.mk (kv.data.take (j + 1)))
    | none => some ""
  | some i => some (String.mk (kv.data.take i))

/-- The loop of `dedupEnv`, over the entries from the last to the first: the entries
kept, in the order of the loop, and whether an entry with a NUL byte was met. -/
def dedupLoop : List String → List String → List String × Bool
  | [], _ => ([], false)
  | kv :: rest, saw =>
    if kv.data.contains (Char.ofNat 0) then ((dedupLoop rest saw).1, true)
    else
      match envKey kv with
      | none =>
        if kv ≠ "" then (kv :: (dedupLoop rest saw).1, (dedupLoop rest saw).2)
        else dedupLoop rest saw
      | some k =>
        if k ∈ saw then dedupLoop rest saw
        else (kv :: (dedupLoop rest (k :: saw)).1, (dedupLoop rest (k :: saw)).2)

/-- The function `dedupEnv` of `os/exec`: of several entries for one key the last one
is kept, the order of the kept entries is unchanged. -/
def dedupEnv (env : List String) : List String × Bool :=
  ((dedupLoop env.reverse []).1.reverse, (dedupLoop env.reverse []).2)

/-- The method `environ` of `exec.Cmd` outside Windows: the environment handed to the
launched executable, and whether starting fails on a NUL byte.  A nil `Env` stands for
the environment `inherited` from the process; `Env` is nil exactly when it is empty,
as `runScriptsIfChanged` only ever appends to the nil `Env` of a new command. -/
def Cmd.environ (inherited : List String) (cmd : Cmd) : List String × Bool :=
  dedupEnv (if cmd.Env = [] then inherited else cmd.Env)

/-! ## The function `LoadInterfaces` -/

/-- The result of `os.Stat`, as far as `LoadInterfaces` reads it: whether the file is
regular, and the mode bits of which `mode&0100` is tested. -/
structure FileInfo where
  IsRegular : Bool
  Mode : Nat
deriving DecidableEq

/-- The JSON document of a configuration file: its arrays `interfaces` and
`properties`. -/
structure ConfigFile where
  interfaces : List String
  properties : List String
deriving DecidableEq

/-- An entry of the scanned directory with what the operating system answers for it:
its name, the outcome of `os.Stat`, and the outcome of decoding it as JSON. -/
structure DirEntry where
  Name : String
  Stat : Except String FileInfo
  Json : Except String ConfigFile

/-- The `scriptConfig` that `ReadJSON` fills from a document: `Properties` is built by
`UnmarshalJSON` of `internal/set`, which calls `AddSlice`. -/
def decodeConfig (doc : ConfigFile) : scriptConfig :=
  { Interfaces := doc.interfaces,
    Properties := set.Set.AddSlice { m := [] } doc.properties }

/-- The elements of a path between its separators "/". -/
def splitSlash : List Char → List (List Char)
  | [] => [[]]
  | c :: rest =>
    if c = '/' then [] :: splitSlash rest
    else
      match splitSlash rest with
      | [] => [[c]]
      | h :: t => (c :: h) :: t

/-- One element in the scan of `filepath.Clean`, on the elements kept so far (last one
first): an empty element and "." are dropped, ".." removes the element before it, is
dropped at the root, and is kept where nothing but ".." precedes it. -/
def cleanStep (rooted : Bool) (kept : List (List Char)) (el : List Char) : List (List Char) :=
  if el = [] ∨ el = ['.'] then kept
  else if el = ['.', '.'] then
    match kept with
    | [] => if rooted then [] else [el]
    | top :: below => if top = ['.', '.'] then el :: kept else below
  else el :: kept

/-- The function `filepath.Clean` with "/" as the separator; the empty result is ".". -/
def cleanPath (path : String) : String :=
  let rooted := path.data.head? = some '/'
  let kept := ((splitSlash path.data).foldl (cleanStep rooted) []).reverse
  let body := String.intercalate "/" (kept.map String.mk)
  if rooted then "/" ++ body
  else if body = "" then "." else body

/-- The call `filepath.Join(dir, name)` for a file name, which is not empty: an empty
`dir` is ignored, and the joined path is cleaned. -/
def joinPath (dir name : String) : String :=
  if dir = "" then cleanPath name else cleanPath (dir ++ "/" ++ name)

/-- Whether `filepath.Ext(name)` is ".json", for a file name: the name ends in
".json". -/
def hasJsonExt (name : String) : Bool :=
  (".json".data).isSuffixOf name.data

/-- The call `strings.TrimSuffix(path, ".json")`. -/
def trimJson (path : String) : String :=
  if (".json".data).isSuffixOf path.data then String.mk (path.data.take (path.data.length - 5))
  else path

/-- The switch of `LoadInterfaces` over the watched values: whether every one is one of
the three keys. -/
def validProperties (config : scriptConfig) : Bool :=
  config.Properties.m.all (fun val => val = keyIPv6 ∨ val = keyIPv4 ∨ val = keyPD)

/-- The first loop of `LoadInterfaces`, over the files of the directory, on the ordered
map `scripts`.  `none` is a panic; an error is the error returned. -/
def scanLoop (dir : String) : List DirEntry → ordered.Map String script →
    Option (Except Error (ordered.Map String script))
  | [], scripts => some (.ok scripts)
  | file :: rest, scripts =>
    match file.Stat with
    | .error e => some (.error (Error.external e))
    | .ok info =>
      if !info.IsRegular then scanLoop dir rest scripts
      else if info.Mode &&& 0o100 ≠ 0 then
        match scripts.Get (joinPath dir file.Name) with
        | none => none
        | some (sc, _) =>
          match scripts.Set (joinPath dir file.Name) { sc with Path := joinPath dir file.Name } with
          | none => none
          | some (scripts1, _) => scanLoop dir rest scripts1
      else if !hasJsonExt file.Name then scanLoop dir rest scripts
      else
        match file.Json with
        | .error e => some (.error (Error.external e))
        | .ok doc =>
          if (decodeConfig doc).Properties.Len = 0 then scanLoop dir rest scripts
          else if !validProperties (decodeConfig doc) then scanLoop dir rest scripts
          else
            match scripts.Get (trimJson (joinPath dir file.Name)) with
            | none => none
            | some (sc, _) =>
              match scripts.Set (trimJson (joinPath dir file.Name))
                  { sc with Config := some (decodeConfig doc) } with
              | none => none
              | some (scripts1, _) => scanLoop dir rest scripts1

/-- The loop `for _, ifname := range script.Config.Interfaces` of `LoadInterfaces`. -/
def registerScript (sc : script) : List String → GoMap String (List script) →
    GoMap String (List script)
  | [], index => index
  | ifname :: rest, index =>
    registerScript sc rest (GoMap.set index ifname ((GoMap.get index ifname).getD [] ++ [sc]))

/-- The second loop of `LoadInterfaces`, over `scripts.All()`. -/
def registerLoop : List (String × script) → GoMap String (List script) →
    GoMap String (List script)
  | [], index => index
  | (_, sc) :: rest, index =>
    if sc.Path = "" then registerLoop rest index
    else
      match sc.Config with
      | none => registerLoop rest index
      | some config =>
        if config.Interfaces.length = 0 then registerLoop rest index
        else registerLoop rest (registerScript sc config.Interfaces index)

/-- The function `LoadInterfaces`, given the outcome of `os.ReadDir` with what the
operating system answers for every entry.  `none` is a panic. -/
def LoadInterfaces (dir : String) (listing : Except String (List DirEntry)) :
    Option (Except Error Interfaces) :=
  match listing with
  | .error e => some (.error (Error.external e))
  | .ok files =>
    match scanLoop dir files ordered.Map.zero with
    | none => none
    | some (.error e) => some (.error e)
    | some (.ok scripts) =>
      if scripts.Len = 0 then some (.error Error.noInterface)
      else
        match scripts.All with
        | none => none
        | some all =>
          some (.ok { rawByPath := [], rawByName := [], m := [],
                      scripts := registerLoop all [] })

/-! ## The CIDR form of a reply entry -/

/-- The string `netip.PrefixFrom(addr, length).String()` for the address of the given
bytes. -/
def cidr (bytes : List Byte) (length : Int) : String :=
  match netip.AddrFromSlice bytes with
  | some addr => (netip.PrefixFrom addr length).String
  | none => ""

/-! ## More sample inputs -/

namespace Sample

/-- A reply without addresses and without delegated prefixes. -/
def replyEmpty : LinkDescription :=
  { Addresses := [], DHCPv6Client := { Prefixes := [] } }

/-- A reply whose only address is 203.0.113.5/24. -/
def replyV4 : LinkDescription :=
  { Addresses := [{ Address := [203, 0, 113, 5], PrefixLength := 24 }],
    DHCPv6Client := { Prefixes := [] } }

/-- A reply with a global and a private address of each family, and a delegated
prefix. -/
def replyMixed : LinkDescription :=
  { Addresses := [{ Address := [203, 0, 113, 5], PrefixLength := 24 },
                  { Address := [192, 168, 1, 7], PrefixLength := 24 },
                  { Address := addr6, PrefixLength := 64 },
                  { Address := [0xfd, 0, 0, 0, 0, 0, 0, 0, 0, 0, 0, 0, 0, 0, 0, 1],
                    PrefixLength := 64 }],
    DHCPv6Client := { Prefixes := [{ Prefix := addrPD, PrefixLength := 48 }] } }

/-- The registry that `LoadInterfaces` builds for one script watching IPV4_ADDRS on
`eth0`. -/
def registryEth0 : Interfaces :=
  { rawByPath := [], rawByName := [], m := [], scripts := [("eth0", [scriptC])] }

/-- A world in which `eth0` is the only link and has no address. -/
def worldNoAddress : World :=
  { addMatchSignal := none,
    listLinks := .ok [eth0],
    describeLink := fun _ => .ok replyEmpty,
    run := allSucceed }

/-- A world in which `eth0` is the only link and has the address 203.0.113.5/24. -/
def worldV4 : World :=
  { addMatchSignal := none,
    listLinks := .ok [eth0],
    describeLink := fun _ => .ok replyV4,
    run := allSucceed }

/-- A notification for `eth0` that `IPv4AddressState` changed. -/
def signalV4 : Signal :=
  { Path := eth0.Path,
    Body := [BodyValue.string "org.freedesktop.network1.Link",
             BodyValue.variantMap [("IPv4AddressState", { value := Any.str "routable" })],
             BodyValue.stringSlice []] }

/-- A regular executable file. -/
def executable (name : String) : DirEntry :=
  { Name := name, Stat := .ok { IsRegular := true, Mode := 0o755 },
    Json := .error "invalid character" }

/-- A regular configuration file with the given document. -/
def configuration (name : String) (interfaces properties : List String) : DirEntry :=
  { Name := name, Stat := .ok { IsRegular := true, Mode := 0o644 },
    Json := .ok { interfaces := interfaces, properties := properties } }


/-- A registry with a script for `eth0` whose link cache is empty. -/
def registryNoCache : Interfaces :=
  { rawByPath := [], rawByName := [], m := [], scripts := [("eth0", [scriptC])] }

/-- The link `wlan0`. -/
def wlan0 : rawInterface :=
  { Index := 3, Name := "wlan0", Path := "/org/freedesktop/network1/link/_33" }


/-- A directory with a complete pair `a`, an executable `b` without configuration, a
configuration `c.json` without executable, and a pair `d` whose configuration names
an unknown property. -/
def directory : List DirEntry :=
  [executable "a", configuration "a.json" ["eth0", ""] ["IPV4_ADDRS"],
   executable "b",
   configuration "c.json" ["eth0"] ["IPV6_ADDRS"],
   executable "d", configuration "d.json" ["eth0"] ["IPV6_ADDRS", "FOO"]]

/-- The descriptor of the pair `a` of `directory`. -/
def descriptorA : script :=
  { Path := "/etc/ipmon/a",
    Config := some { Interfaces := ["eth0", ""], Properties := { m := ["IPV4_ADDRS"] } } }

end Sample

/-! # Theorems -/

set_option linter.unusedSectionVars false

open ordered

namespace GoMap

variable {K V : Type} [DecidableEq K]

theorem get_cons (k1 : K) (v1 : V) (rest : GoMap K V) (k : K) :
    get ((k1, v1) :: rest) k = if k1 = k then some v1 else get rest k := by
  unfold get
  by_cases h : k1 = k
  · subst h; simp [List.lookup]
  · have h2 : (k == k1) = false := by simpa using fun e => h e.symm
    simp [List.lookup, h2, h]

theorem get_set_self (m : GoMap K V) (k : K) (v : V) : get (set m k v) k = some v := by
  induction m with
  | nil => simp [set, get_cons]
  | cons p rest ih =>
    obtain ⟨k1, v1⟩ := p
    by_cases h : k1 = k
    · simp [set, h, get_cons]
    · simp [set, h, get_cons, ih]

theorem get_set_ne (m : GoMap K V) {k k2 : K} (v : V) (h : k2 ≠ k) :
    get (set m k v) k2 = get m k2 := by
  induction m with
  | nil => simp [set, get_cons, get, Ne.symm h, h]
  | cons p rest ih =>
    obtain ⟨k1, v1⟩ := p
    by_cases h1 : k1 = k
    · subst h1
      simp [set, get_cons, Ne.symm h]
    · simp [set, h1, get_cons, ih]

theorem get_eq_none_iff (m : GoMap K V) (k : K) : get m k = none ↔ k ∉ keys m := by
  induction m with
  | nil => simp [get, keys]
  | cons p rest ih =>
    obtain ⟨k1, v1⟩ := p
    by_cases h : k1 = k
    · simp [get_cons, h, keys]
    · have h2 : ¬ k = k1 := fun e => h e.symm
      simp only [get_cons, h, if_false, ih]
      simp [keys, h2]

theorem mem_of_get {m : GoMap K V} {k : K} {v : V} (h : get m k = some v) : (k, v) ∈ m := by
  induction m with
  | nil => simp [get] at h
  | cons p rest ih =>
    obtain ⟨k1, v1⟩ := p
    by_cases h1 : k1 = k
    · simp [get_cons, h1] at h
      simp [h1, h]
    · simp only [get_cons, h1, if_false] at h
      exact List.mem_cons_of_mem _ (ih h)

theorem get_of_mem {m : GoMap K V} {k : K} {v : V} (nd : (keys m).Nodup) (h : (k, v) ∈ m) :
    get m k = some v := by
  induction m with
  | nil => simp at h
  | cons p rest ih =>
    obtain ⟨k1, v1⟩ := p
    simp only [keys, List.map_cons, List.nodup_cons] at nd
    rcases List.mem_cons.1 h with h1 | h1
    · cases h1; simp [get_cons]
    · have : k1 ≠ k := by
        intro e; subst e
        exact nd.1 (List.mem_map.2 ⟨(k1, v), h1, rfl⟩)
      simp only [get_cons, this, if_false]
      exact ih nd.2 h1

theorem set_of_not_mem {m : GoMap K V} {k : K} (v : V) (h : k ∉ keys m) :
    set m k v = m ++ [(k, v)] := by
  induction m with
  | nil => rfl
  | cons p rest ih =>
    obtain ⟨k1, v1⟩ := p
    simp only [keys, List.map_cons, List.mem_cons, not_or] at h
    have h1 : ¬ k1 = k := fun e => h.1 e.symm
    simp [set, h1, ih h.2]

theorem set_of_getElem {m : GoMap K V} {k : K} {v0 : V} (v : V) {e : Nat}
    (nd : (keys m).Nodup) (h : m[e]? = some (k, v0)) : set m k v = List.set m e (k, v) := by
  induction m generalizing e with
  | nil => simp at h
  | cons p rest ih =>
    obtain ⟨k1, v1⟩ := p
    simp only [keys, List.map_cons, List.nodup_cons] at nd
    cases e with
    | zero =>
      simp at h
      simp [set, h.1]
    | succ e =>
      simp at h
      have : k1 ≠ k := by
        intro e1; subst e1
        exact nd.1 (List.mem_map.2 ⟨(k1, v0), List.mem_iff_getElem?.2 ⟨e, h⟩, rfl⟩)
      simp [set, this, ih nd.2 h]

theorem keys_set (m : GoMap K V) (k : K) (v : V) :
    keys (set m k v) = if k ∈ keys m then keys m else keys m ++ [k] := by
  induction m with
  | nil => simp [set, keys]
  | cons p rest ih =>
    obtain ⟨k1, v1⟩ := p
    by_cases h : k1 = k
    · simp [set, h, keys]
    · have h2 : ¬ k = k1 := fun e => h e.symm
      have ih2 := ih
      simp only [keys] at ih2
      simp only [set, h, if_false, keys, List.map_cons, List.mem_cons, h2, false_or, ih2]
      split <;> simp

theorem nodup_keys_set {m : GoMap K V} (k : K) (v : V) (nd : (keys m).Nodup) :
    (keys (set m k v)).Nodup := by
  rw [keys_set]
  split
  · exact nd
  · rename_i h
    exact List.Nodup.append nd (List.nodup_singleton k) (by simpa using h)

end GoMap

namespace ordered

variable {K V : Type} [DecidableEq K]

theorem rep_zero : Rep (Map.zero : Map K V) [] := by
  simp [Rep, Map.zero]

theorem idx_keys {idx : GoMap K Nat} {l : List (K × V)}
    (h : ∀ i : Nat, idx[i]? = (l[i]?).map (fun (kv : K × V) => (kv.1, i))) :
    GoMap.keys idx = GoMap.keys l := by
  apply List.ext_getElem?
  intro i
  simp only [GoMap.keys, List.getElem?_map, h i]
  cases l[i]? <;> rfl

theorem idx_get_some {idx : GoMap K Nat} {l : List (K × V)}
    (h : ∀ i : Nat, idx[i]? = (l[i]?).map (fun (kv : K × V) => (kv.1, i)))
    {k : K} {e : Nat} (hg : GoMap.get idx k = some e) : ∃ v0, l[e]? = some (k, v0) := by
  obtain ⟨j, hj⟩ := List.mem_iff_getElem?.1 (GoMap.mem_of_get hg)
  rw [h j] at hj
  cases hl : l[j]? with
  | none => simp [hl] at hj
  | some kv =>
    simp only [hl, Option.map_some', Option.some.injEq, Prod.mk.injEq] at hj
    obtain ⟨h1, h2⟩ := hj
    subst h2
    exact ⟨kv.2, by rw [← h1]; exact hl⟩

/-- The lookup `m.m[k]` finds the node of `k`, or nothing when `k` is not a key. -/
theorem rep_found {m : Map K V} {l : List (K × V)} (hr : Rep m l) (k : K) :
    (∃ e v0, m.lookup k = some e ∧ l[e]? = some (k, v0)) ∨
    (m.lookup k = none ∧ k ∉ GoMap.keys l) := by
  obtain ⟨_, _, _, _, hidx⟩ := hr
  unfold Map.lookup
  cases hm : m.m with
  | none =>
    rw [hm] at hidx
    right
    simp only at hidx
    simp [hidx, GoMap.keys]
  | some idx =>
    rw [hm] at hidx
    simp only at hidx ⊢
    cases hg : GoMap.get idx k with
    | none =>
      right
      refine ⟨rfl, ?_⟩
      rw [← idx_keys hidx]
      exact (GoMap.get_eq_none_iff idx k).1 hg
    | some e =>
      left
      obtain ⟨v0, hv⟩ := idx_get_some hidx hg
      exact ⟨e, v0, rfl, hv⟩

theorem rep_length {m : Map K V} {l : List (K × V)} (hr : Rep m l) :
    m.heap.length = l.length := by
  obtain ⟨_, hheap, _⟩ := hr
  apply le_antisymm
  · by_contra hlt
    push_neg at hlt
    have h1 := hheap l.length
    rw [List.getElem?_eq_none (le_refl _)] at h1
    simp only [Option.map_none'] at h1
    rw [List.getElem?_eq_none_iff] at h1
    omega
  · by_contra hlt
    push_neg at hlt
    have h1 := hheap m.heap.length
    rw [List.getElem?_eq_none (le_refl _)] at h1
    have h2 : l[m.heap.length]? = none := by
      cases h3 : l[m.heap.length]? with
      | none => rfl
      | some x => rw [h3] at h1; simp at h1
    rw [List.getElem?_eq_none_iff] at h2
    omega

/-- Overwriting the value of a key that is present. -/
theorem rep_Set_present {m : Map K V} {l : List (K × V)} (hr : Rep m l) {k : K} (v : V)
    (hk : k ∈ GoMap.keys l) :
    ∃ m1, m.Set k v = some (m1, false) ∧ Rep m1 (GoMap.set l k v) := by
  rcases rep_found hr k with ⟨e, v0, hf, he⟩ | ⟨_, hn⟩
  swap
  · exact absurd hk hn
  obtain ⟨hnd, hheap, hhead, htail, hidx⟩ := hr
  have hcell := hheap e
  rw [he] at hcell
  simp only [Option.map_some'] at hcell
  refine ⟨{ m with heap := m.heap.set e { cellAt l.length e (k, v0) with value := v } }, ?_, ?_⟩
  · unfold Map.Set
    simp only [hf, hcell]
  · have hset : GoMap.set l k v = List.set l e (k, v) := GoMap.set_of_getElem v hnd he
    have hlt : e < l.length := by
      rcases Nat.lt_or_ge e l.length with h | h
      · exact h
      · rw [List.getElem?_eq_none h] at he; cases he
    have hkeys : (List.set l e (k, v)).map Prod.fst = l.map Prod.fst := by
      apply List.ext_getElem?
      intro i
      simp only [List.getElem?_map, List.getElem?_set]
      by_cases hi : e = i
      · subst hi; simp [hlt, he]
      · simp [hi]
    rw [hset]
    refine ⟨by rw [hkeys]; exact hnd, ?_, ?_, ?_, ?_⟩
    · intro i
      simp only [List.getElem?_set, List.length_set]
      by_cases hi : e = i
      · subst hi
        have hlt2 : e < m.heap.length := by
          rcases Nat.lt_or_ge e m.heap.length with h | h
          · exact h
          · rw [List.getElem?_eq_none h] at hcell; cases hcell
        simp [hlt, hlt2, cellAt]
      · simp only [hi, if_false]
        exact hheap i
    · rw [List.length_set]; exact hhead
    · rw [List.length_set]; exact htail
    · cases hm : m.m with
      | none => rw [hm] at hidx; simp only at hidx; subst hidx; simp at he
      | some idx =>
        rw [hm] at hidx
        simp only at hidx ⊢
        intro i
        rw [hidx i]
        simp only [List.getElem?_set]
        by_cases hi : e = i
        · subst hi; simp [hlt, he]
        · simp [hi]

/-- Setting a key that is not present yet appends a node. -/
theorem rep_Set_absent {m : Map K V} {l : List (K × V)} (hr : Rep m l) {k : K} (v : V)
    (hk : k ∉ GoMap.keys l) :
    ∃ m1, m.Set k v = some (m1, true) ∧ Rep m1 (GoMap.set l k v) := by
  have hlen := rep_length hr
  rcases rep_found hr k with ⟨e, v0, _, he⟩ | ⟨hf, _⟩
  · exact absurd (List.mem_map.2 ⟨(k, v0), List.mem_iff_getElem?.2 ⟨e, he⟩, rfl⟩) hk
  obtain ⟨hnd, hheap, hhead, htail, hidx⟩ := hr
  have hset : GoMap.set l k v = l ++ [(k, v)] := GoMap.set_of_not_mem v hk
  have hnd2 : ((l ++ [(k, v)]).map Prod.fst).Nodup := by
    rw [← hset]; exact GoMap.nodup_keys_set k v hnd
  have hidx2 : ∀ i : Nat, (GoMap.set m.index k
      m.heap.length)[i]? = ((l ++ [(k, v)])[i]?).map (fun (kv : K × V) => (kv.1, i)) := by
    have hold : ∀ i : Nat, m.index[i]?
        = (l[i]?).map (fun (kv : K × V) => (kv.1, i)) := by
      unfold Map.index
      cases hm : m.m with
      | none => rw [hm] at hidx; simp only at hidx; subst hidx; intro i; simp
      | some idx => rw [hm] at hidx; exact hidx
    have hkeys := idx_keys hold
    have hlen2 : m.index.length = l.length := by
      have := congrArg List.length hkeys
      simpa [GoMap.keys] using this
    rw [GoMap.set_of_not_mem _ (by rw [hkeys]; exact hk)]
    intro i
    rw [List.getElem?_append, List.getElem?_append, hlen2, hold i, hlen]
    by_cases hi : i < l.length
    · simp [hi]
    · simp only [hi, if_false]
      by_cases hi2 : i - l.length = 0
      · have : i = l.length := by omega
        subst this; simp
      · obtain ⟨j, hj⟩ := Nat.exists_eq_succ_of_ne_zero hi2
        simp [hj]
  by_cases hl : l.length = 0
  · have hl0 : l = [] := List.length_eq_zero.1 hl
    subst hl0
    simp only [List.length_nil, if_true] at hhead htail
    have hh0 : m.heap = [] := List.length_eq_zero.1 (by simpa using hlen)
    refine ⟨{ heap := m.heap ++ [{ next := none, prev := none, key := k, value := v }],
              m := some (GoMap.set m.index k m.heap.length),
              head := some m.heap.length, tail := some m.heap.length }, ?_, ?_⟩
    · unfold Map.Set
      simp only [hf, hhead]
    · rw [hset]
      refine ⟨hnd2, ?_, by simp [hh0], by simp [hh0], hidx2⟩
      intro i
      cases i with
      | zero => simp [hh0, cellAt]
      | succ i => simp [hh0]
  · have hpos : 0 < l.length := Nat.pos_of_ne_zero hl
    simp only [hl, if_false] at hhead htail
    obtain ⟨kv, hkv⟩ : ∃ kv, l[l.length - 1]? = some kv := by
      have : l.length - 1 < l.length := by omega
      exact ⟨l[l.length - 1], List.getElem?_eq_getElem this⟩
    have hlast := hheap (l.length - 1)
    rw [hkv] at hlast
    simp only [Option.map_some'] at hlast
    refine ⟨{ heap := m.heap.set (l.length - 1)
                  { cellAt l.length (l.length - 1) kv with next := some m.heap.length }
                ++ [{ next := none, prev := some (l.length - 1), key := k, value := v }],
              m := some (GoMap.set m.index k m.heap.length),
              head := some 0, tail := some m.heap.length }, ?_, ?_⟩
    · unfold Map.Set
      simp only [hf, hhead, htail, hlast]
    · rw [hset]
      refine ⟨hnd2, ?_, by simp, by simp [hlen], hidx2⟩
      intro i
      simp only [List.length_append, List.length_singleton]
      rw [List.getElem?_append, List.getElem?_append, List.length_set, hlen, List.getElem?_set]
      by_cases hi : i < l.length
      · simp only [hi, if_true]
        by_cases hi2 : l.length - 1 = i
        · subst hi2
          have h3 : l.length - 1 < m.heap.length := by omega
          have h4 : l.length - 1 + 1 = l.length := by omega
          simp [h3, hkv, cellAt, h4]
        · simp only [hi2, if_false]
          rw [hheap i]
          cases hli : l[i]? with
          | none => rfl
          | some x =>
            have h5 : i + 1 < l.length := by omega
            have h6 : i + 1 < l.length + 1 := by omega
            simp [cellAt, h5, h6]
      · simp only [hi, if_false]
        by_cases hi2 : i - l.length = 0
        · have : i = l.length := by omega
          subst this
          simp [cellAt, hl]
        · obtain ⟨j, hj⟩ := Nat.exists_eq_succ_of_ne_zero hi2
          simp [hj]

/-- The method `Set` on a well-formed map: it never panics, it returns `true` exactly
when the key was not present, and the map then represents the updated sequence. -/
theorem rep_Set {m : Map K V} {l : List (K × V)} (hr : Rep m l) (k : K) (v : V) :
    ∃ m1, m.Set k v = some (m1, decide (k ∉ GoMap.keys l)) ∧ Rep m1 (GoMap.set l k v) := by
  by_cases hk : k ∈ GoMap.keys l
  · obtain ⟨m1, h1, h2⟩ := rep_Set_present hr v hk
    exact ⟨m1, by simpa [hk] using h1, h2⟩
  · obtain ⟨m1, h1, h2⟩ := rep_Set_absent hr v hk
    exact ⟨m1, by simpa [hk] using h1, h2⟩

end ordered

namespace ordered

variable {K V : Type} [DecidableEq K]

/-- The method `Get` on a well-formed map reads the represented sequence. -/
theorem rep_Get [Inhabited V] {m : Map K V} {l : List (K × V)} (hr : Rep m l) (k : K) :
    m.Get k = some ((GoMap.get l k).getD default, (GoMap.get l k).isSome) := by
  rcases rep_found hr k with ⟨e, v0, hf, he⟩ | ⟨hf, hn⟩
  · obtain ⟨hnd, hheap, _⟩ := hr
    have hcell := hheap e
    rw [he] at hcell
    have hg : GoMap.get l k = some v0 :=
      GoMap.get_of_mem hnd (List.mem_iff_getElem?.2 ⟨e, he⟩)
    unfold Map.Get
    simp [hf, hcell, hg, cellAt]
  · have hg : GoMap.get l k = none := (GoMap.get_eq_none_iff l k).2 hn
    unfold Map.Get
    simp [hf, hg]

/-- Walking a well-formed heap from the node at position `i` yields the rest of the
represented sequence, given fuel for every remaining node. -/
theorem rep_walk {heap : List (entry K V)} {l : List (K × V)}
    (hheap : ∀ i : Nat, heap[i]? = (l[i]?).map (cellAt l.length i)) :
    ∀ (fuel i : Nat), l.length ≤ fuel + i →
      Map.walk heap fuel (if i < l.length then some i else none) = some (l.drop i) := by
  intro fuel
  induction fuel with
  | zero =>
    intro i hi
    have h1 : ¬ i < l.length := by omega
    have h2 : l.drop i = [] := List.drop_eq_nil_of_le (by omega)
    simp [h1, h2, Map.walk]
  | succ fuel ih =>
    intro i hi
    by_cases h1 : i < l.length
    · have hget : l[i]? = some l[i] := List.getElem?_eq_getElem h1
      have hcell := hheap i
      rw [hget] at hcell
      simp only [Option.map_some'] at hcell
      have hrest := ih (i + 1) (by omega)
      have hdrop : l.drop i = l[i] :: l.drop (i + 1) := List.drop_eq_getElem_cons h1
      simp only [h1, if_true, Map.walk, hcell]
      have hnext : (cellAt l.length i l[i]).next = if i + 1 < l.length then some (i + 1) else none := rfl
      rw [hnext, hrest, hdrop]
      rfl
    · have h2 : l.drop i = [] := List.drop_eq_nil_of_le (by omega)
      simp [h1, h2, Map.walk]

/-- The method `All` on a well-formed map ends and yields the represented sequence,
whenever it is given at least as many steps as there are entries. -/
theorem rep_AllFuel {m : Map K V} {l : List (K × V)} (hr : Rep m l) (fuel : Nat)
    (hf : l.length ≤ fuel) : m.AllFuel fuel = some l := by
  obtain ⟨_, hheap, hhead, _⟩ := hr
  have h := rep_walk hheap fuel 0 (by omega)
  unfold Map.AllFuel
  rw [hhead]
  by_cases hl : l.length = 0
  · have hl0 : l = [] := List.length_eq_zero.1 hl
    subst hl0
    cases fuel <;> simp [Map.walk]
  · have hpos : 0 < l.length := Nat.pos_of_ne_zero hl
    simpa [hl, hpos] using h

theorem rep_All {m : Map K V} {l : List (K × V)} (hr : Rep m l) : m.All = some l := by
  unfold Map.All
  exact rep_AllFuel hr _ (by rw [rep_length hr])

theorem rep_Len {m : Map K V} {l : List (K × V)} (hr : Rep m l) : m.Len = l.length := by
  obtain ⟨_, _, _, _, hidx⟩ := hr
  unfold Map.Len
  cases hm : m.m with
  | none => rw [hm] at hidx; simp only at hidx; subst hidx; rfl
  | some idx =>
    rw [hm] at hidx
    simp only at hidx ⊢
    have := congrArg List.length (idx_keys hidx)
    simpa [GoMap.keys] using this

/-- The sequence that a run of `Set` calls builds, starting from the sequence `l`. -/
theorem rep_setMany {m : Map K V} {l : List (K × V)} (hr : Rep m l) (calls : List (K × V)) :
    ∃ m1 bs, Map.setMany m calls = some (m1, bs) ∧
      Rep m1 (calls.foldl (fun acc (c : K × V) => GoMap.set acc c.1 c.2) l) := by
  induction calls generalizing m l with
  | nil => exact ⟨m, [], rfl, hr⟩
  | cons c rest ih =>
    obtain ⟨k, v⟩ := c
    obtain ⟨m1, h1, hr1⟩ := rep_Set hr k v
    obtain ⟨m2, bs, h2, hr2⟩ := ih hr1
    refine ⟨m2, decide (k ∉ GoMap.keys l) :: bs, ?_, hr2⟩
    simp only [Map.setMany, h1, h2]

end ordered

section FirstSeen

variable {E : Type} [DecidableEq E]

theorem mem_firstSeen (l : List E) (x : E) : x ∈ firstSeen l ↔ x ∈ l := by
  induction l with
  | nil => simp [firstSeen]
  | cons a rest ih =>
    simp only [firstSeen, List.mem_cons, List.mem_filter, ih, decide_eq_true_eq]
    by_cases h : x = a <;> simp [h]

theorem firstSeen_nodup (l : List E) : (firstSeen l).Nodup := by
  induction l with
  | nil => simp [firstSeen]
  | cons a rest ih =>
    simp only [firstSeen, List.nodup_cons, List.mem_filter, decide_eq_true_eq]
    exact ⟨fun h => h.2 rfl, ih.filter _⟩

theorem firstSeen_sublist (l : List E) : (firstSeen l).Sublist l := by
  induction l with
  | nil => simp [firstSeen]
  | cons a rest ih =>
    simp only [firstSeen]
    exact ((List.filter_sublist _).trans ih).cons₂ a

theorem firstSeen_of_nodup {l : List E} (h : l.Nodup) : firstSeen l = l := by
  induction l with
  | nil => rfl
  | cons a rest ih =>
    rw [List.nodup_cons] at h
    simp only [firstSeen, ih h.2]
    congr 1
    rw [List.filter_eq_self]
    intro b hb
    simp only [decide_eq_true_eq]
    intro e
    exact h.1 (e ▸ hb)

theorem firstSeen_idem (l : List E) : firstSeen (firstSeen l) = firstSeen l :=
  firstSeen_of_nodup (firstSeen_nodup l)

theorem firstSeen_snoc (l : List E) (x : E) :
    firstSeen (l ++ [x]) = if x ∈ l then firstSeen l else firstSeen l ++ [x] := by
  induction l with
  | nil => simp [firstSeen]
  | cons a rest ih =>
    rw [List.cons_append]
    simp only [firstSeen]
    rw [ih]
    by_cases h1 : x = a
    · subst h1
      by_cases h2 : x ∈ rest <;> simp [h2, List.filter_append]
    · by_cases h2 : x ∈ rest <;> simp [h1, h2, List.filter_append]

theorem firstSeen_append_left (l r : List E) :
    ∃ t, firstSeen (l ++ r) = firstSeen l ++ t := by
  induction r using List.reverseRecOn with
  | nil => exact ⟨[], by simp⟩
  | append_singleton r x ih =>
    obtain ⟨t, ht⟩ := ih
    rw [← List.append_assoc, firstSeen_snoc, ht]
    split
    · exact ⟨t, rfl⟩
    · exact ⟨t ++ [x], by simp⟩

end FirstSeen

namespace GoMap

variable {K V W : Type} [DecidableEq K]

/-- A run of assignments `m[k] = f(m, step)` on an empty map visits new keys in the
order of their first assignment. -/
theorem keys_foldl_set (f : GoMap K V → K × W → V) (steps : List (K × W)) :
    keys (steps.foldl (fun acc st => set acc st.1 (f acc st)) []) = firstSeen (steps.map Prod.fst) := by
  induction steps using List.reverseRecOn with
  | nil => rfl
  | append_singleton steps st ih =>
    rw [List.foldl_append, List.map_append, List.map_singleton, firstSeen_snoc]
    simp only [List.foldl_cons, List.foldl_nil]
    simp only [keys_set, ih, mem_firstSeen]

theorem nodup_keys_foldl_set (f : GoMap K V → K × W → V) (steps : List (K × W)) :
    (keys (steps.foldl (fun acc st => set acc st.1 (f acc st)) [])).Nodup := by
  rw [keys_foldl_set]; exact firstSeen_nodup _

/-- After a run of plain assignments, a key holds the value of its last assignment. -/
theorem get_foldl_set (steps : List (K × V)) (k : K) :
    get (steps.foldl (fun acc st => set acc st.1 st.2) []) k = get steps.reverse k := by
  induction steps using List.reverseRecOn with
  | nil => rfl
  | append_singleton steps st ih =>
    obtain ⟨k1, v1⟩ := st
    rw [List.foldl_append, List.reverse_append]
    simp only [List.foldl_cons, List.foldl_nil, List.reverse_cons, List.reverse_nil,
      List.nil_append, List.singleton_append, get_cons]
    by_cases h : k1 = k
    · subst h; simp [get_set_self]
    · simp only [h, if_false]
      rw [get_set_ne _ _ (fun e => h e.symm), ih]

end GoMap

/-- The pending environment of a path is the concatenation of everything appended for
it, in the order of the steps. -/
theorem get_accumulate (events : List (String × List String)) (p : String) :
    GoMap.get (accumulate events []) p =
      if p ∈ events.map Prod.fst then
        some (((events.filter (fun ev => decide (ev.1 = p))).map Prod.snd).flatten)
      else none := by
  unfold accumulate
  induction events using List.reverseRecOn with
  | nil => rfl
  | append_singleton events ev ih =>
    obtain ⟨q, e⟩ := ev
    rw [List.foldl_append]
    simp only [List.foldl_cons, List.foldl_nil, List.map_append, List.map_singleton,
      List.mem_append, List.mem_singleton, List.filter_append, List.flatten_append]
    by_cases h : p = q
    · subst h
      rw [GoMap.get_set_self, ih]
      by_cases h2 : p ∈ events.map Prod.fst
      · simp [h2]
      · have h3 : events.filter (fun ev => decide (ev.1 = p)) = [] := by
          rw [List.filter_eq_nil_iff]
          intro ev hev
          simp only [decide_eq_true_eq]
          intro e1
          exact h2 (List.mem_map.2 ⟨ev, hev, e1⟩)
        simp [h2, h3]
    · rw [GoMap.get_set_ne _ _ h, ih]
      have h4 : ¬ q = p := fun e1 => h e1.symm
      have h5 : (p ∈ events.map Prod.fst ∨ p = q) ↔ p ∈ events.map Prod.fst := by
        constructor
        · rintro (h6 | h6)
          · exact h6
          · exact absurd h6 h
        · exact Or.inl
      simp only [h4, decide_False, List.filter_cons_of_neg, Bool.false_eq_true, not_false_eq_true,
        List.filter_nil, List.map_nil, List.flatten_nil, List.append_nil, h5]

theorem keys_accumulate (events : List (String × List String)) :
    GoMap.keys (accumulate events []) = firstSeen (events.map Prod.fst) :=
  GoMap.keys_foldl_set (fun acc ev => (GoMap.get acc ev.1).getD [] ++ ev.2) events

theorem canonical_rep {s : ordered.Set String} {l : List (String × Unit)} (hr : Rep s l) :
    canonical s = some (String.intercalate " " (GoMap.keys l)) := by
  unfold canonical ordered.Set.All
  rw [rep_All hr]
  rfl

theorem keys_addAll (v : List String) :
    GoMap.keys (v.foldl (fun (acc : GoMap String Unit) x => GoMap.set acc x ()) []) = firstSeen v := by
  have h := GoMap.keys_foldl_set (fun (_ : GoMap String Unit) (_ : String × Unit) => ())
    (v.map (fun x => (x, ())))
  rw [List.foldl_map, List.map_map] at h
  have hid : (Prod.fst ∘ fun (x : String) => (x, ())) = id := rfl
  rw [hid, List.map_id] at h
  exact h

theorem addMany_rep {s : ordered.Set String} {l : List (String × Unit)} (hr : Rep s l)
    (xs : List String) :
    ∃ t, ordered.Set.addMany s xs = some t ∧
      Rep t (xs.foldl (fun (acc : GoMap String Unit) x => GoMap.set acc x ()) l) := by
  induction xs generalizing s l with
  | nil => exact ⟨s, rfl, hr⟩
  | cons x rest ih =>
    obtain ⟨s1, h1, hr1⟩ := rep_Set hr x ()
    obtain ⟨t, h2, hr2⟩ := ih hr1
    refine ⟨t, ?_, hr2⟩
    simp only [ordered.Set.addMany, ordered.Set.Add, h1, h2]

/-- The first loop never panics on well-formed sets; it returns the error of the scan
or sets that hold what the scan lists. -/
theorem addressLoop_rep (xs : List AddressEntry) :
    ∀ {s6 s4 : ordered.Set String} {l6 l4 : List (String × Unit)}, Rep s6 l6 → Rep s4 l4 →
      (∀ e, addressScan xs = .error e → addressLoop xs s6 s4 = some (.error e)) ∧
      (∀ v6 v4, addressScan xs = .ok (v6, v4) →
        ∃ t6 t4, addressLoop xs s6 s4 = some (.ok (t6, t4)) ∧
          Rep t6 (v6.foldl (fun (acc : GoMap String Unit) x => GoMap.set acc x ()) l6) ∧
          Rep t4 (v4.foldl (fun (acc : GoMap String Unit) x => GoMap.set acc x ()) l4)) := by
  induction xs with
  | nil =>
    intro s6 s4 l6 l4 h6 h4
    refine ⟨fun e he => ?_, fun v6 v4 hv => ?_⟩
    · simp [addressScan] at he
    · simp only [addressScan, Except.ok.injEq, Prod.mk.injEq] at hv
      obtain ⟨rfl, rfl⟩ := hv
      exact ⟨s6, s4, rfl, h6, h4⟩
  | cons raw rest ih =>
    intro s6 s4 l6 l4 h6 h4
    unfold addressScan addressLoop
    cases hA : netip.AddrFromSlice raw.Address with
    | none =>
      refine ⟨fun e he => ?_, fun v6 v4 hv => ?_⟩
      · simp only [Except.error.injEq] at he
        simp [he]
      · simp at hv
    | some addr =>
      simp only
      cases hF : (addr.IsPrivate || !addr.IsGlobalUnicast) with
      | true =>
        simp only [if_true]
        exact ih h6 h4
      | false =>
        simp only [Bool.false_eq_true, if_false]
        by_cases hB : (netip.PrefixFrom addr raw.PrefixLength).Bits = -1
        · simp only [hB, if_true]
          refine ⟨fun e he => ?_, fun v6 v4 hv => ?_⟩
          · simp only [Except.error.injEq] at he
            simp [he]
          · simp at hv
        · simp only [hB, if_false]
          cases h6b : addr.Is6 with
          | true =>
            simp only [if_true]
            obtain ⟨s1, h1, hr1⟩ := rep_Set h6 (netip.PrefixFrom addr raw.PrefixLength).String ()
            simp only [ordered.Set.Add, h1]
            obtain ⟨ihe, iho⟩ := ih hr1 h4
            refine ⟨fun e he => ?_, fun v6 v4 hv => ?_⟩
            · cases hs : addressScan rest with
              | error e1 =>
                rw [hs] at he
                simp only [Except.error.injEq] at he
                subst he
                exact ihe e1 hs
              | ok p =>
                rw [hs] at he
                simp at he
            · cases hs : addressScan rest with
              | error e1 =>
                rw [hs] at hv
                simp at hv
              | ok p =>
                obtain ⟨w6, w4⟩ := p
                rw [hs] at hv
                simp only [Except.ok.injEq, Prod.mk.injEq] at hv
                obtain ⟨rfl, rfl⟩ := hv
                obtain ⟨t6, t4, ht, hr6, hr4⟩ := iho w6 _ hs
                exact ⟨t6, t4, ht, by simpa using hr6, hr4⟩
          | false =>
            simp only [Bool.false_eq_true, if_false]
            obtain ⟨s1, h1, hr1⟩ := rep_Set h4 (netip.PrefixFrom addr raw.PrefixLength).String ()
            simp only [ordered.Set.Add, h1]
            obtain ⟨ihe, iho⟩ := ih h6 hr1
            refine ⟨fun e he => ?_, fun v6 v4 hv => ?_⟩
            · cases hs : addressScan rest with
              | error e1 =>
                rw [hs] at he
                simp only [Except.error.injEq] at he
                subst he
                exact ihe e1 hs
              | ok p =>
                rw [hs] at he
                simp at he
            · cases hs : addressScan rest with
              | error e1 =>
                rw [hs] at hv
                simp at hv
              | ok p =>
                obtain ⟨w6, w4⟩ := p
                rw [hs] at hv
                simp only [Bool.false_eq_true, if_false, Except.ok.injEq, Prod.mk.injEq] at hv
                obtain ⟨rfl, rfl⟩ := hv
                obtain ⟨t6, t4, ht, hr6, hr4⟩ := iho _ w4 hs
                exact ⟨t6, t4, ht, hr6, by simpa using hr4⟩

/-- The second loop never panics on a well-formed set. -/
theorem prefixLoop_rep (xs : List PrefixEntry) :
    ∀ {s : ordered.Set String} {l : List (String × Unit)}, Rep s l →
      (∀ e, prefixScan xs = .error e → prefixLoop xs s = some (.error e)) ∧
      (∀ pds, prefixScan xs = .ok pds →
        ∃ t, prefixLoop xs s = some (.ok t) ∧
          Rep t (pds.foldl (fun (acc : GoMap String Unit) x => GoMap.set acc x ()) l)) := by
  induction xs with
  | nil =>
    intro s l hr
    refine ⟨fun e he => ?_, fun pds hv => ?_⟩
    · simp [prefixScan] at he
    · simp only [prefixScan, Except.ok.injEq] at hv
      subst hv
      exact ⟨s, rfl, hr⟩
  | cons raw rest ih =>
    intro s l hr
    unfold prefixScan prefixLoop
    cases hA : netip.AddrFromSlice raw.Prefix with
    | none =>
      refine ⟨fun e he => ?_, fun pds hv => ?_⟩
      · simp only [Except.error.injEq] at he
        simp [he]
      · simp at hv
    | some addr =>
      simp only
      by_cases hB : (netip.PrefixFrom addr raw.PrefixLength).Bits = -1
      · simp only [hB, if_true]
        refine ⟨fun e he => ?_, fun pds hv => ?_⟩
        · simp only [Except.error.injEq] at he
          simp [he]
        · simp at hv
      · simp only [hB, if_false]
        obtain ⟨s1, h1, hr1⟩ := rep_Set hr (netip.PrefixFrom addr raw.PrefixLength).String ()
        simp only [ordered.Set.Add, h1]
        obtain ⟨ihe, iho⟩ := ih hr1
        refine ⟨fun e he => ?_, fun pds hv => ?_⟩
        · cases hs : prefixScan rest with
          | error e1 =>
            rw [hs] at he
            simp only [Except.error.injEq] at he
            subst he
            exact ihe e1 hs
          | ok p =>
            rw [hs] at he
            simp at he
        · cases hs : prefixScan rest with
          | error e1 =>
            rw [hs] at hv
            simp at hv
          | ok p =>
            rw [hs] at hv
            simp only [Except.ok.injEq] at hv
            subst hv
            obtain ⟨t, ht, hrt⟩ := iho p hs
            exact ⟨t, ht, by simpa using hrt⟩

/-- The decoding part of `runScriptsIfChanged` never panics, and what it returns is
given by the scan of the reply. -/
theorem decodeLink_eq (v : LinkDescription) : decodeLink v = some (decodeScan v) := by
  unfold decodeLink decodeScan
  obtain ⟨hae, hao⟩ := addressLoop_rep v.Addresses (rep_zero (K := String) (V := Unit))
    (rep_zero (K := String) (V := Unit))
  cases hs : addressScan v.Addresses with
  | error e => simp only [hae e hs]
  | ok p =>
    obtain ⟨v6, v4⟩ := p
    obtain ⟨t6, t4, ht, hr6, hr4⟩ := hao v6 v4 hs
    simp only [ht]
    obtain ⟨hpe, hpo⟩ := prefixLoop_rep v.DHCPv6Client.Prefixes (rep_zero (K := String) (V := Unit))
    cases hp : prefixScan v.DHCPv6Client.Prefixes with
    | error e => simp only [hpe e hp]
    | ok pds =>
      obtain ⟨t, htp, hrp⟩ := hpo pds hp
      simp only [htp, canonical_rep hr6, canonical_rep hr4, canonical_rep hrp, keys_addAll]

theorem accumulate_append (a b : List (String × List String)) (l : GoMap String (List String)) :
    accumulate (a ++ b) l = accumulate b (accumulate a l) := by
  unfold accumulate
  rw [List.foldl_append]

theorem accumulate_cons (ev : String × List String) (evs : List (String × List String))
    (l : GoMap String (List String)) :
    accumulate (ev :: evs) l
      = accumulate evs (GoMap.set l ev.1 ((GoMap.get l ev.1).getD [] ++ ev.2)) := rfl

theorem watches_of_config {sc : script} {config : scriptConfig} (h : sc.Config = some config)
    (key : String) : watches sc key = config.Properties.Contains key := by
  unfold watches
  rw [h]

/-- The loop over the scripts of one changed category never panics when every script
has a configuration, and performs one step for every script that watches the
category. -/
theorem envLoop_rep (key : String) (old : Option String) (new : String) (scripts : List script)
    (hc : ∀ sc ∈ scripts, sc.Config ≠ none) :
    ∀ {envs : ordered.Map String (List String)} {l : List (String × List String)}, Rep envs l →
      ∃ envs1, envLoop key old new scripts envs = some envs1 ∧
        Rep envs1 (accumulate ((scripts.filter (fun sc => watches sc key)).map
          (fun sc => (sc.Path, envEntries key old new))) l) := by
  induction scripts with
  | nil =>
    intro envs l hr
    exact ⟨envs, rfl, hr⟩
  | cons sc rest ih =>
    intro envs l hr
    have hrest : ∀ s ∈ rest, s.Config ≠ none := fun s hs => hc s (List.mem_cons_of_mem _ hs)
    cases hcfg : sc.Config with
    | none => exact absurd hcfg (hc sc (List.mem_cons_self _ _))
    | some config =>
      have hw := watches_of_config hcfg key
      unfold envLoop
      simp only [hcfg]
      cases hcon : config.Properties.Contains key with
      | true =>
        rw [hcon] at hw
        simp only [if_true]
        rw [rep_Get hr sc.Path]
        simp only
        obtain ⟨envs1, h1, hr1⟩ := rep_Set hr sc.Path
          ((GoMap.get l sc.Path).getD default ++ envEntries key old new)
        rw [h1]
        simp only
        obtain ⟨envs2, h2, hr2⟩ := ih hrest hr1
        refine ⟨envs2, h2, ?_⟩
        rw [List.filter_cons_of_pos (by simpa using hw), List.map_cons, accumulate_cons]
        exact hr2
      | false =>
        rw [hcon] at hw
        simp only [Bool.false_eq_true, if_false]
        obtain ⟨envs2, h2, hr2⟩ := ih hrest hr
        refine ⟨envs2, h2, ?_⟩
        rw [List.filter_cons_of_neg (by simpa using hw)]
        exact hr2

/-- One category block never panics when every script has a configuration. -/
theorem updateCategory_rep (key new : String) (scripts : List script)
    (properties : GoMap String String)
    (hc : ∀ sc ∈ scripts, sc.Config ≠ none)
    {envs : ordered.Map String (List String)} {l : List (String × List String)} (hr : Rep envs l) :
    ∃ envs1, updateCategory key new scripts properties envs
        = some (if GoMap.get properties key = some new then properties
                else GoMap.set properties key new, envs1) ∧
      Rep envs1 (accumulate (categoryEvents key new scripts properties) l) := by
  unfold updateCategory categoryEvents
  by_cases h : GoMap.get properties key = some new
  · refine ⟨envs, ?_, ?_⟩
    · simp [h]
    · simp only [h, if_true]
      exact hr
  · obtain ⟨envs1, h1, hr1⟩ := envLoop_rep key (GoMap.get properties key) new scripts hc hr
    refine ⟨envs1, ?_, ?_⟩
    · simp only [h, if_false, h1]
      have h2 : (GoMap.get properties key = none ∨ ¬ GoMap.get properties key = some new) :=
        Or.inr h
      simp [h2]
    · simp only [h, if_false]
      exact hr1

theorem categoryEvents_congr (key new : String) (scripts : List script)
    {p q : GoMap String String} (h : GoMap.get p key = GoMap.get q key) :
    categoryEvents key new scripts p = categoryEvents key new scripts q := by
  unfold categoryEvents
  rw [h]

theorem dispatch_fst (run : Cmd → Option String) (all : List (String × List String)) :
    (dispatch run all).1
      = all.map (fun pe => ({ Path := pe.1, Args := [pe.1], Env := pe.2 } : Cmd)) := by
  induction all with
  | nil => rfl
  | cons pe rest ih =>
    obtain ⟨p, e⟩ := pe
    simp only [dispatch, CommandContext, List.nil_append, List.map_cons]
    split <;> simp [ih]

theorem get_update_ne (properties : GoMap String String) {key key2 : String} (new : String)
    (h : key2 ≠ key) :
    GoMap.get (if GoMap.get properties key = some new then properties
      else GoMap.set properties key new) key2 = GoMap.get properties key2 := by
  split
  · rfl
  · exact GoMap.get_set_ne _ _ h

theorem get_update_self (properties : GoMap String String) (key new : String) :
    GoMap.get (if GoMap.get properties key = some new then properties
      else GoMap.set properties key new) key = some new := by
  split
  · assumption
  · exact GoMap.get_set_self _ _ _

/-- A pass whose reply fails to decode returns the error and changes nothing. -/
theorem run_error (run : Cmd → Option String) (iface : Interface) (v : LinkDescription)
    (e : Error) (hd : decodeScan v = .error e) :
    runScriptsIfChanged run iface (.ok v)
      = some { iface := iface, launched := [], failed := [], err := some e } := by
  unfold runScriptsIfChanged
  simp only [decodeLink_eq, hd]

/-- A pass whose reply decodes, on an interface whose scripts all have a configuration:
it does not panic, returns no error, stores the three canonical strings and runs the
accumulated environments in the order of the ordered map. -/
theorem run_ok (run : Cmd → Option String) (iface : Interface) (v : LinkDescription)
    (ipv6 ipv4 pd : String) (hc : ∀ sc ∈ iface.scripts, sc.Config ≠ none)
    (hd : decodeScan v = .ok (ipv6, ipv4, pd)) :
    runScriptsIfChanged run iface (.ok v)
      = some { iface := { iface with properties := passProperties iface.properties ipv6 ipv4 pd },
               launched := (dispatch run (accumulate (passEvents iface ipv6 ipv4 pd) [])).1,
               failed := (dispatch run (accumulate (passEvents iface ipv6 ipv4 pd) [])).2,
               err := none } := by
  unfold runScriptsIfChanged
  simp only [decodeLink_eq, hd]
  obtain ⟨envs1, h1, hr1⟩ := updateCategory_rep keyIPv6 ipv6 iface.scripts iface.properties hc
    (rep_zero (K := String) (V := List String))
  rw [h1]
  simp only
  obtain ⟨envs2, h2, hr2⟩ := updateCategory_rep keyIPv4 ipv4 iface.scripts
    (if GoMap.get iface.properties keyIPv6 = some ipv6 then iface.properties
      else GoMap.set iface.properties keyIPv6 ipv6) hc hr1
  rw [h2]
  simp only
  obtain ⟨envs3, h3, hr3⟩ := updateCategory_rep keyPD pd iface.scripts
    (if GoMap.get (if GoMap.get iface.properties keyIPv6 = some ipv6 then iface.properties
        else GoMap.set iface.properties keyIPv6 ipv6) keyIPv4 = some ipv4
      then (if GoMap.get iface.properties keyIPv6 = some ipv6 then iface.properties
        else GoMap.set iface.properties keyIPv6 ipv6)
      else GoMap.set (if GoMap.get iface.properties keyIPv6 = some ipv6 then iface.properties
        else GoMap.set iface.properties keyIPv6 ipv6) keyIPv4 ipv4) hc hr2
  rw [h3]
  simp only
  have e4 : categoryEvents keyIPv4 ipv4 iface.scripts
      (if GoMap.get iface.properties keyIPv6 = some ipv6 then iface.properties
        else GoMap.set iface.properties keyIPv6 ipv6)
      = categoryEvents keyIPv4 ipv4 iface.scripts iface.properties :=
    categoryEvents_congr _ _ _ (get_update_ne _ _ (by decide))
  have ePD : categoryEvents keyPD pd iface.scripts
      (if GoMap.get (if GoMap.get iface.properties keyIPv6 = some ipv6 then iface.properties
          else GoMap.set iface.properties keyIPv6 ipv6) keyIPv4 = some ipv4
        then (if GoMap.get iface.properties keyIPv6 = some ipv6 then iface.properties
          else GoMap.set iface.properties keyIPv6 ipv6)
        else GoMap.set (if GoMap.get iface.properties keyIPv6 = some ipv6 then iface.properties
          else GoMap.set iface.properties keyIPv6 ipv6) keyIPv4 ipv4)
      = categoryEvents keyPD pd iface.scripts iface.properties :=
    categoryEvents_congr _ _ _
      ((get_update_ne _ _ (by decide)).trans (get_update_ne _ _ (by decide)))
  rw [e4] at hr2
  rw [e4, ePD] at hr3
  rw [← accumulate_append, ← accumulate_append] at hr3
  rw [rep_All hr3]
  simp only [passEvents, passProperties, List.append_assoc]

/-! ### The text of environment entries -/

theorem entry_eq_entry {k k2 a b : String}
    (hk : k = keyIPv6 ∨ k = keyIPv4 ∨ k = keyPD) (hk2 : k2 = keyIPv6 ∨ k2 = keyIPv4 ∨ k2 = keyPD)
    (h : k ++ "=" ++ a = k2 ++ "=" ++ b) : k = k2 ∧ a = b := by
  have hd := congrArg String.data h
  simp only [String.data_append] at hd
  rcases hk with rfl | rfl | rfl <;> rcases hk2 with rfl | rfl | rfl <;>
    simp [keyIPv6, keyIPv4, keyPD] at hd <;>
    exact ⟨rfl, String.ext hd⟩

theorem entry_ne_old {k k2 a b : String}
    (hk : k = keyIPv6 ∨ k = keyIPv4 ∨ k = keyPD) (hk2 : k2 = keyIPv6 ∨ k2 = keyIPv4 ∨ k2 = keyPD) :
    k ++ "=" ++ a ≠ "OLD_" ++ k2 ++ "=" ++ b := by
  intro h
  have hd := congrArg String.data h
  simp only [String.data_append] at hd
  rcases hk with rfl | rfl | rfl <;> rcases hk2 with rfl | rfl | rfl <;>
    simp [keyIPv6, keyIPv4, keyPD] at hd

theorem old_eq_old {k k2 a b : String}
    (hk : k = keyIPv6 ∨ k = keyIPv4 ∨ k = keyPD) (hk2 : k2 = keyIPv6 ∨ k2 = keyIPv4 ∨ k2 = keyPD)
    (h : "OLD_" ++ k ++ "=" ++ a = "OLD_" ++ k2 ++ "=" ++ b) : k = k2 ∧ a = b := by
  have hd := congrArg String.data h
  simp only [String.data_append] at hd
  rcases hk with rfl | rfl | rfl <;> rcases hk2 with rfl | rfl | rfl <;>
    simp [keyIPv6, keyIPv4, keyPD] at hd <;>
    exact ⟨rfl, String.ext hd⟩

theorem mem_envEntries (key : String) (old : Option String) (new x : String) :
    x ∈ envEntries key old new ↔
      (∃ o, old = some o ∧ x = "OLD_" ++ key ++ "=" ++ o) ∨ x = key ++ "=" ++ new := by
  unfold envEntries
  cases old with
  | none => simp
  | some o => simp

/-! ### What is launched -/

theorem launched_paths (run : Cmd → Option String) (evs : List (String × List String)) :
    (dispatch run (accumulate evs [])).1.map Cmd.Path = firstSeen (evs.map Prod.fst) := by
  rw [dispatch_fst, List.map_map, ← keys_accumulate]
  rfl

theorem mem_launched_iff (run : Cmd → Option String) (evs : List (String × List String))
    (c : Cmd) :
    c ∈ (dispatch run (accumulate evs [])).1 ↔
      c.Args = [c.Path] ∧ c.Path ∈ evs.map Prod.fst ∧
        c.Env = ((evs.filter (fun ev => decide (ev.1 = c.Path))).map Prod.snd).flatten := by
  have hnd : (GoMap.keys (accumulate evs [])).Nodup := by
    rw [keys_accumulate]; exact firstSeen_nodup _
  rw [dispatch_fst, List.mem_map]
  constructor
  · rintro ⟨pe, hpe, rfl⟩
    obtain ⟨q, e⟩ := pe
    have hg := GoMap.get_of_mem hnd hpe
    rw [get_accumulate] at hg
    by_cases hq : q ∈ evs.map Prod.fst
    · simp only [hq, if_true, Option.some.injEq] at hg
      exact ⟨rfl, hq, hg.symm⟩
    · simp [hq] at hg
  · rintro ⟨ha, hp, he⟩
    refine ⟨(c.Path, c.Env), ?_, ?_⟩
    · apply GoMap.mem_of_get
      rw [get_accumulate, if_pos hp, he]
    · cases c
      simp only at ha
      simp [ha]

theorem mem_categoryEvents (key new : String) (scripts : List script)
    (properties : GoMap String String) (ev : String × List String) :
    ev ∈ categoryEvents key new scripts properties ↔
      GoMap.get properties key ≠ some new ∧
        ∃ sc ∈ scripts, watches sc key = true ∧
          ev = (sc.Path, envEntries key (GoMap.get properties key) new) := by
  unfold categoryEvents
  by_cases h : GoMap.get properties key = some new
  · simp [h]
  · simp only [h, if_false, List.mem_map, List.mem_filter, ne_eq, not_false_eq_true, true_and]
    constructor
    · rintro ⟨sc, ⟨hs, hw⟩, rfl⟩
      exact ⟨sc, hs, hw, rfl⟩
    · rintro ⟨sc, hs, hw, rfl⟩
      exact ⟨sc, ⟨hs, hw⟩, rfl⟩

theorem mem_passEvents (iface : Interface) (ipv6 ipv4 pd : String) (ev : String × List String) :
    ev ∈ passEvents iface ipv6 ipv4 pd ↔
      ∃ key new, (key, new) ∈ [(keyIPv6, ipv6), (keyIPv4, ipv4), (keyPD, pd)] ∧
        GoMap.get iface.properties key ≠ some new ∧
        ∃ sc ∈ iface.scripts, watches sc key = true ∧
          ev = (sc.Path, envEntries key (GoMap.get iface.properties key) new) := by
  unfold passEvents
  simp only [List.mem_append, mem_categoryEvents, List.mem_cons, List.mem_singleton,
    Prod.mk.injEq, List.not_mem_nil, or_false]
  constructor
  · rintro ((h | h) | h)
    · exact ⟨keyIPv6, ipv6, Or.inl ⟨rfl, rfl⟩, h⟩
    · exact ⟨keyIPv4, ipv4, Or.inr (Or.inl ⟨rfl, rfl⟩), h⟩
    · exact ⟨keyPD, pd, Or.inr (Or.inr ⟨rfl, rfl⟩), h⟩
  · rintro ⟨key, new, (⟨rfl, rfl⟩ | ⟨rfl, rfl⟩ | ⟨rfl, rfl⟩), h⟩
    · exact Or.inl (Or.inl h)
    · exact Or.inl (Or.inr h)
    · exact Or.inr h

/-- An entry is in the environment of a launched command exactly when some step for
that path carries it. -/
theorem launched_entry_iff (run : Cmd → Option String) (evs : List (String × List String))
    (q x : String) :
    (∃ c ∈ (dispatch run (accumulate evs [])).1, c.Path = q ∧ x ∈ c.Env) ↔
      ∃ ev ∈ evs, ev.1 = q ∧ x ∈ ev.2 := by
  constructor
  · rintro ⟨c, hc, rfl, hx⟩
    obtain ⟨_, _, he⟩ := (mem_launched_iff run evs c).1 hc
    rw [he, List.mem_flatten] at hx
    obtain ⟨l, hl, hxl⟩ := hx
    obtain ⟨ev, hev, rfl⟩ := List.mem_map.1 hl
    rw [List.mem_filter] at hev
    exact ⟨ev, hev.1, by simpa using hev.2, hxl⟩
  · rintro ⟨ev, hev, rfl, hx⟩
    refine ⟨{ Path := ev.1, Args := [ev.1],
              Env := ((evs.filter (fun e => decide (e.1 = ev.1))).map Prod.snd).flatten }, ?_, rfl, ?_⟩
    · rw [mem_launched_iff]
      exact ⟨rfl, List.mem_map.2 ⟨ev, hev, rfl⟩, rfl⟩
    · simp only [List.mem_flatten, List.mem_map, List.mem_filter, decide_eq_true_eq]
      exact ⟨ev.2, ⟨ev, ⟨hev, rfl⟩, rfl⟩, hx⟩

theorem get_passProperties (properties : GoMap String String) (ipv6 ipv4 pd : String)
    (k s : String) (hk : (k, s) ∈ [(keyIPv6, ipv6), (keyIPv4, ipv4), (keyPD, pd)]) :
    GoMap.get (passProperties properties ipv6 ipv4 pd) k = some s := by
  unfold passProperties
  simp only [List.mem_cons, List.mem_singleton, Prod.mk.injEq, List.not_mem_nil, or_false] at hk
  rcases hk with ⟨rfl, rfl⟩ | ⟨rfl, rfl⟩ | ⟨rfl, rfl⟩
  · rw [get_update_ne _ _ (by decide), get_update_ne _ _ (by decide)]
    exact get_update_self _ _ _
  · rw [get_update_ne _ _ (by decide)]
    exact get_update_self _ _ _
  · exact get_update_self _ _ _

theorem get_passProperties_other (properties : GoMap String String) (ipv6 ipv4 pd : String)
    (k : String) (h6 : k ≠ keyIPv6) (h4 : k ≠ keyIPv4) (hp : k ≠ keyPD) :
    GoMap.get (passProperties properties ipv6 ipv4 pd) k = GoMap.get properties k := by
  unfold passProperties
  simp only
  rw [get_update_ne _ _ hp, get_update_ne _ _ h4, get_update_ne _ _ h6]

theorem decodeScan_of_decodeLink {v : LinkDescription} {r : Except Error (String × String × String)}
    (h : decodeLink v = some r) : decodeScan v = r := by
  rw [decodeLink_eq] at h
  exact Option.some.inj h

/-- C1. In a pass on a successfully decoded reply, a category `k` with canonical string
`s` is classified as changed exactly when `k` is absent from the stored properties or
stored with a value other than `s`: the pass returns without error with
`properties[k] = s`; every script watching `k` is run with the entry `k=s` if and only
if `k` was absent or stored with another value; and when the stored value equals `s`
no command gets any entry `k=...` or `OLD_k=...`.  (Every script of the applicable list
has a configuration, as in every registry built by `LoadInterfaces`.) -/
theorem C1_changed_iff_absent_or_different (run : Cmd → Option String) (iface : Interface)
    (v : LinkDescription) (ipv6 ipv4 pd : String)
    (hc : ∀ sc ∈ iface.scripts, sc.Config ≠ none)
    (hd : decodeLink v = some (.ok (ipv6, ipv4, pd)))
    (k s : String) (hk : (k, s) ∈ [(keyIPv6, ipv6), (keyIPv4, ipv4), (keyPD, pd)]) :
    ∃ p, runScriptsIfChanged run iface (.ok v) = some p ∧ p.err = none ∧
      GoMap.get p.iface.properties k = some s ∧
      (∀ sc ∈ iface.scripts, watches sc k = true →
        ((∃ c ∈ p.launched, c.Path = sc.Path ∧ (k ++ "=" ++ s) ∈ c.Env) ↔
          (GoMap.get iface.properties k = none ∨ GoMap.get iface.properties k ≠ some s))) ∧
      (GoMap.get iface.properties k = some s →
        ∀ c ∈ p.launched, ∀ x, (k ++ "=" ++ x) ∉ c.Env ∧ ("OLD_" ++ k ++ "=" ++ x) ∉ c.Env) := by
  have hrun := run_ok run iface v ipv6 ipv4 pd hc (decodeScan_of_decodeLink hd)
  have hkey : k = keyIPv6 ∨ k = keyIPv4 ∨ k = keyPD := by
    simp only [List.mem_cons, List.mem_singleton, Prod.mk.injEq, List.not_mem_nil, or_false] at hk
    rcases hk with ⟨h, _⟩ | ⟨h, _⟩ | ⟨h, _⟩
    · exact Or.inl h
    · exact Or.inr (Or.inl h)
    · exact Or.inr (Or.inr h)
  have hkey2 : ∀ key new, (key, new) ∈ [(keyIPv6, ipv6), (keyIPv4, ipv4), (keyPD, pd)] →
      key = keyIPv6 ∨ key = keyIPv4 ∨ key = keyPD := by
    intro key new h
    simp only [List.mem_cons, List.mem_singleton, Prod.mk.injEq, List.not_mem_nil, or_false] at h
    rcases h with ⟨h, _⟩ | ⟨h, _⟩ | ⟨h, _⟩
    · exact Or.inl h
    · exact Or.inr (Or.inl h)
    · exact Or.inr (Or.inr h)
  have hnew : ∀ new, (k, new) ∈ [(keyIPv6, ipv6), (keyIPv4, ipv4), (keyPD, pd)] → new = s := by
    intro new h
    have h1 := get_passProperties iface.properties ipv6 ipv4 pd k new h
    have h2 := get_passProperties iface.properties ipv6 ipv4 pd k s hk
    rw [h1] at h2
    exact Option.some.inj h2
  refine ⟨_, hrun, rfl, get_passProperties _ _ _ _ k s hk, ?_, ?_⟩
  · intro sc hsc hw
    simp only
    rw [launched_entry_iff]
    constructor
    · rintro ⟨ev, hev, _, hx⟩
      obtain ⟨key, new, hmem, hch, sc2, _, _, rfl⟩ := (mem_passEvents _ _ _ _ _).1 hev
      rcases (mem_envEntries _ _ _ _).1 hx with ⟨o, _, ho⟩ | hx2
      · exact absurd ho (entry_ne_old hkey (hkey2 key new hmem))
      · obtain ⟨rfl, rfl⟩ := entry_eq_entry hkey (hkey2 key new hmem) hx2
        exact Or.inr hch
    · intro hch
      have hch2 : GoMap.get iface.properties k ≠ some s := by
        rcases hch with h | h
        · rw [h]; simp
        · exact h
      refine ⟨(sc.Path, envEntries k (GoMap.get iface.properties k) s), ?_, rfl, ?_⟩
      · exact (mem_passEvents _ _ _ _ _).2 ⟨k, s, hk, hch2, sc, hsc, hw, rfl⟩
      · exact (mem_envEntries _ _ _ _).2 (Or.inr rfl)
  · intro hsame c hcl x
    simp only at hcl
    constructor
    · intro hx
      obtain ⟨ev, hev, _, hx2⟩ := (launched_entry_iff run _ c.Path _).1 ⟨c, hcl, rfl, hx⟩
      obtain ⟨key, new, hmem, hch, sc2, _, _, rfl⟩ := (mem_passEvents _ _ _ _ _).1 hev
      rcases (mem_envEntries _ _ _ _).1 hx2 with ⟨o, _, ho⟩ | hx3
      · exact absurd ho (entry_ne_old hkey (hkey2 key new hmem))
      · obtain ⟨rfl, _⟩ := entry_eq_entry hkey (hkey2 key new hmem) hx3
        rw [hnew new hmem] at hch
        exact hch hsame
    · intro hx
      obtain ⟨ev, hev, _, hx2⟩ := (launched_entry_iff run _ c.Path _).1 ⟨c, hcl, rfl, hx⟩
      obtain ⟨key, new, hmem, hch, sc2, _, _, rfl⟩ := (mem_passEvents _ _ _ _ _).1 hev
      rcases (mem_envEntries _ _ _ _).1 hx2 with ⟨o, _, ho⟩ | hx3
      · obtain ⟨rfl, _⟩ := old_eq_old hkey (hkey2 key new hmem) ho
        rw [hnew new hmem] at hch
        exact hch hsame
      · exact absurd hx3.symm (entry_ne_old (hkey2 key new hmem) hkey)

/-- C1, at a fresh interface state with a script watching IPV4_ADDRS. -/
theorem C1_changed_iff_absent_or_different_witness :
    (∀ sc ∈ (Sample.fresh [Sample.scriptC]).scripts, sc.Config ≠ none) ∧
    decodeLink Sample.reply
      = some (.ok ("2001:db8::1/64", "203.0.113.5/24", "2001:db8:1::/48")) ∧
    ∃ p, runScriptsIfChanged Sample.allSucceed (Sample.fresh [Sample.scriptC]) (.ok Sample.reply)
        = some p ∧ p.err = none ∧
      GoMap.get p.iface.properties keyIPv4 = some "203.0.113.5/24" := by
  refine ⟨by decide, by rfl, ?_⟩
  obtain ⟨p, h1, h2, h3, _⟩ := C1_changed_iff_absent_or_different Sample.allSucceed
    (Sample.fresh [Sample.scriptC]) Sample.reply "2001:db8::1/64" "203.0.113.5/24"
    "2001:db8:1::/48" (by decide) (by rfl) keyIPv4 "203.0.113.5/24" (by decide)
  exact ⟨p, h1, h2, h3⟩

theorem watches_congr {a b : script} (h : a.Config = b.Config) (key : String) :
    watches a key = watches b key := by
  unfold watches
  rw [h]

theorem mem_launched_paths_iff (run : Cmd → Option String) (evs : List (String × List String))
    (q : String) :
    (∃ c ∈ (dispatch run (accumulate evs [])).1, c.Path = q) ↔ q ∈ evs.map Prod.fst := by
  rw [← mem_firstSeen, ← launched_paths run evs, List.mem_map]

theorem envEntries_text (key : String) (old : Option String) (new : String) :
    (match old with
      | some o => ["OLD_" ++ key ++ "=" ++ o]
      | none => []) ++ [key ++ "=" ++ new] = envEntries key old new := by
  cases old <;> rfl

/-- C2. In a pass on a successfully decoded reply, a path is run if and only if it is
the path of a script of the applicable list that watches at least one category that
changed in this pass.  When the scripts of one path share one configuration (as in
every registry built by `LoadInterfaces`, which keeps one descriptor per path), a
script of the applicable list is run if and only if it watches at least one changed
category; in particular, when the list is script `A` watching IPV6_ADDRS only and
script `B` watching PD_ADDRS only, and only PD_ADDRS changed, exactly `B` is run, with
the entry `PD_ADDRS=<new>` preceded by `OLD_PD_ADDRS=<old>` when a value was stored,
and `A` is not run.  (Every script of the applicable list has a configuration.) -/
theorem C2_dispatched_iff_watches_changed (run : Cmd → Option String) (iface : Interface)
    (v : LinkDescription) (ipv6 ipv4 pd : String)
    (hc : ∀ sc ∈ iface.scripts, sc.Config ≠ none)
    (hd : decodeLink v = some (.ok (ipv6, ipv4, pd))) :
    ∃ p, runScriptsIfChanged run iface (.ok v) = some p ∧ p.err = none ∧
      (∀ q, (∃ c ∈ p.launched, c.Path = q) ↔
        ∃ sc ∈ iface.scripts, sc.Path = q ∧
          ∃ k s, (k, s) ∈ [(keyIPv6, ipv6), (keyIPv4, ipv4), (keyPD, pd)] ∧
            (GoMap.get iface.properties k = none ∨ GoMap.get iface.properties k ≠ some s) ∧
            watches sc k = true) ∧
      ((∀ a ∈ iface.scripts, ∀ b ∈ iface.scripts, a.Path = b.Path → a.Config = b.Config) →
        (∀ sc ∈ iface.scripts,
          (∃ c ∈ p.launched, c.Path = sc.Path) ↔
            ∃ k s, (k, s) ∈ [(keyIPv6, ipv6), (keyIPv4, ipv4), (keyPD, pd)] ∧
              (GoMap.get iface.properties k = none ∨ GoMap.get iface.properties k ≠ some s) ∧
              watches sc k = true) ∧
        (∀ A B : script, iface.scripts = [A, B] →
          (∀ k, watches A k = true ↔ k = keyIPv6) → (∀ k, watches B k = true ↔ k = keyPD) →
          GoMap.get iface.properties keyIPv6 = some ipv6 →
          GoMap.get iface.properties keyIPv4 = some ipv4 →
          GoMap.get iface.properties keyPD ≠ some pd →
          p.launched = [{ Path := B.Path, Args := [B.Path],
                          Env := (match GoMap.get iface.properties keyPD with
                                  | some old => ["OLD_PD_ADDRS=" ++ old]
                                  | none => []) ++ ["PD_ADDRS=" ++ pd] }] ∧
          ∀ c ∈ p.launched, c.Path ≠ A.Path)) := by
  have hrun := run_ok run iface v ipv6 ipv4 pd hc (decodeScan_of_decodeLink hd)
  have hne : ∀ (k s : String),
      (GoMap.get iface.properties k = none ∨ GoMap.get iface.properties k ≠ some s) →
      GoMap.get iface.properties k ≠ some s := by
    intro k s hch
    rcases hch with h | h
    · rw [h]; simp
    · exact h
  refine ⟨_, hrun, rfl, ?_, ?_⟩
  · intro q
    simp only
    rw [mem_launched_paths_iff, List.mem_map]
    constructor
    · rintro ⟨ev, hev, hp⟩
      obtain ⟨key, new, hmem, hch, sc2, hsc2, hw, rfl⟩ := (mem_passEvents _ _ _ _ _).1 hev
      exact ⟨sc2, hsc2, hp, key, new, hmem, Or.inr hch, hw⟩
    · rintro ⟨sc, hsc, hp, key, new, hmem, hch, hw⟩
      exact ⟨_, (mem_passEvents _ _ _ _ _).2 ⟨key, new, hmem, hne key new hch, sc, hsc, hw, rfl⟩,
        hp⟩
  intro hsame
  refine ⟨?_, ?_⟩
  · intro sc hsc
    simp only
    rw [mem_launched_paths_iff, List.mem_map]
    constructor
    · rintro ⟨ev, hev, hp⟩
      obtain ⟨key, new, hmem, hch, sc2, hsc2, hw, rfl⟩ := (mem_passEvents _ _ _ _ _).1 hev
      refine ⟨key, new, hmem, Or.inr hch, ?_⟩
      rw [← watches_congr (hsame sc2 hsc2 sc hsc hp) key]
      exact hw
    · rintro ⟨key, new, hmem, hch, hw⟩
      exact ⟨_, (mem_passEvents _ _ _ _ _).2 ⟨key, new, hmem, hne key new hch, sc, hsc, hw, rfl⟩,
        rfl⟩
  · intro A B hAB hA hB h6 h4 hpd
    have hApd : watches A keyPD = false := by
      cases h : watches A keyPD with
      | false => rfl
      | true => exact absurd ((hA keyPD).1 h) (by decide)
    have hBpd : watches B keyPD = true := (hB keyPD).2 rfl
    have hevs : passEvents iface ipv6 ipv4 pd
        = [(B.Path, envEntries keyPD (GoMap.get iface.properties keyPD) pd)] := by
      unfold passEvents categoryEvents
      simp only [h6, h4, hpd, if_true, if_false, List.nil_append, hAB]
      simp [List.filter_cons, hApd, hBpd]
    have hlaunch : (dispatch run (accumulate (passEvents iface ipv6 ipv4 pd) [])).1
        = [{ Path := B.Path, Args := [B.Path],
             Env := (match GoMap.get iface.properties keyPD with
                     | some old => ["OLD_PD_ADDRS=" ++ old]
                     | none => []) ++ ["PD_ADDRS=" ++ pd] }] := by
      rw [hevs, dispatch_fst]
      have henv : envEntries keyPD (GoMap.get iface.properties keyPD) pd
          = (match GoMap.get iface.properties keyPD with
              | some old => ["OLD_PD_ADDRS=" ++ old]
              | none => []) ++ ["PD_ADDRS=" ++ pd] := by
        cases GoMap.get iface.properties keyPD <;> rfl
      rw [henv]
      rfl
    refine ⟨hlaunch, ?_⟩
    intro c hcl
    simp only at hcl
    rw [hlaunch] at hcl
    simp only [List.mem_singleton] at hcl
    subst hcl
    simp only
    intro hBA
    have hmemA : A ∈ iface.scripts := by rw [hAB]; simp
    have hmemB : B ∈ iface.scripts := by rw [hAB]; simp
    have := watches_congr (hsame B hmemB A hmemA hBA) keyPD
    rw [hApd, hBpd] at this
    cases this

/-- C2, at scripts `A` (IPV6_ADDRS) and `B` (PD_ADDRS) when only the delegated prefix
changed. -/
theorem C2_dispatched_iff_watches_changed_witness :
    (∀ sc ∈ (Sample.tracked [Sample.scriptA, Sample.scriptB]).scripts, sc.Config ≠ none) ∧
    decodeLink Sample.reply
      = some (.ok ("2001:db8::1/64", "203.0.113.5/24", "2001:db8:1::/48")) ∧
    (∀ a ∈ (Sample.tracked [Sample.scriptA, Sample.scriptB]).scripts,
      ∀ b ∈ (Sample.tracked [Sample.scriptA, Sample.scriptB]).scripts,
        a.Path = b.Path → a.Config = b.Config) ∧
    ∃ p, runScriptsIfChanged Sample.allSucceed
        (Sample.tracked [Sample.scriptA, Sample.scriptB]) (.ok Sample.reply) = some p ∧
      p.launched = [{ Path := "/etc/ipmon/b", Args := ["/etc/ipmon/b"],
                      Env := ["OLD_PD_ADDRS=2001:db8:ffff::/48", "PD_ADDRS=2001:db8:1::/48"] }] := by
  refine ⟨by decide, by rfl, by decide, ?_⟩
  obtain ⟨p, h1, _, _, h4⟩ := C2_dispatched_iff_watches_changed Sample.allSucceed
    (Sample.tracked [Sample.scriptA, Sample.scriptB]) Sample.reply "2001:db8::1/64"
    "203.0.113.5/24" "2001:db8:1::/48" (by decide) (by rfl)
  have h5 := (h4 (by decide)).2
  refine ⟨p, h1, ?_⟩
  have h6 := (h5 Sample.scriptA Sample.scriptB rfl ?_ ?_ (by decide) (by decide) (by decide)).1
  · rw [h6]; decide
  · intro k
    simp only [watches, Sample.scriptA, set.Set.Contains, List.mem_singleton, decide_eq_true_eq]
    rfl
  · intro k
    simp only [watches, Sample.scriptB, set.Set.Contains, List.mem_singleton, decide_eq_true_eq]
    rfl

theorem filter_path_of_nodup {scripts : List script} (hnd : (scripts.map script.Path).Nodup)
    {sc : script} (hsc : sc ∈ scripts) :
    scripts.filter (fun b => decide (b.Path = sc.Path)) = [sc] := by
  induction scripts with
  | nil => simp at hsc
  | cons a rest ih =>
    rw [List.map_cons, List.nodup_cons] at hnd
    rcases List.mem_cons.1 hsc with h | h
    · subst h
      have hrest : rest.filter (fun b => decide (b.Path = sc.Path)) = [] := by
        rw [List.filter_eq_nil_iff]
        intro b hb
        simp only [decide_eq_true_eq]
        intro e
        exact hnd.1 (List.mem_map.2 ⟨b, hb, e⟩)
      simp [List.filter_cons, hrest]
    · have hne : ¬ a.Path = sc.Path := by
        intro e
        exact hnd.1 (List.mem_map.2 ⟨sc, h, e.symm⟩)
      simp [List.filter_cons, hne, ih hnd.2 h]

/-- With pairwise distinct paths, one category contributes to the environment of a
script its entries once, if it changed and the script watches it. -/
theorem filter_categoryEvents (key new : String) (scripts : List script)
    (properties : GoMap String String) (hnd : (scripts.map script.Path).Nodup)
    {sc : script} (hsc : sc ∈ scripts) :
    ((categoryEvents key new scripts properties).filter
        (fun ev => decide (ev.1 = sc.Path))).map Prod.snd
      = if (decide (GoMap.get properties key ≠ some new) && watches sc key) = true
        then [envEntries key (GoMap.get properties key) new] else [] := by
  unfold categoryEvents
  by_cases h : GoMap.get properties key = some new
  · simp [h]
  · simp only [h, if_false, ne_eq, not_false_eq_true, decide_True, Bool.true_and]
    rw [List.filter_map, List.filter_filter]
    have hcomm : (scripts.filter (fun a =>
          ((fun ev : String × List String => decide (ev.1 = sc.Path)) ∘
            fun s : script => (s.Path, envEntries key (GoMap.get properties key) new)) a
            && watches a key))
        = (scripts.filter (fun b => decide (b.Path = sc.Path))).filter
            (fun a => watches a key) := by
      rw [List.filter_filter]
      congr 1
      funext a
      simp [Bool.and_comm]
    rw [hcomm, filter_path_of_nodup hnd hsc]
    cases hw : watches sc key <;> simp [List.filter_cons, hw]

/-- C3. When the applicable scripts have pairwise distinct paths, the environment of
every command run in a pass on a successfully decoded reply is that of a script of the
list, and it is the concatenation, over IPV6_ADDRS, IPV4_ADDRS, PD_ADDRS in this order,
restricted to the categories that changed and that the script watches, of the entry
`OLD_<CATEGORY>=<old>` (present exactly when a value was stored before the pass)
followed by `<CATEGORY>=<new>`; nothing else is in it.  The command has no
arguments besides its own path.  (Every script of the applicable list has a
configuration, as in every registry built by `LoadInterfaces`.) -/
theorem C3_environment_sequence (run : Cmd → Option String) (iface : Interface)
    (v : LinkDescription) (ipv6 ipv4 pd : String)
    (hc : ∀ sc ∈ iface.scripts, sc.Config ≠ none)
    (hd : decodeLink v = some (.ok (ipv6, ipv4, pd)))
    (hnd : (iface.scripts.map script.Path).Nodup) :
    ∃ p, runScriptsIfChanged run iface (.ok v) = some p ∧ p.err = none ∧
      ∀ c ∈ p.launched, c.Args = [c.Path] ∧ ∃ sc ∈ iface.scripts, sc.Path = c.Path ∧
        c.Env = (([(keyIPv6, ipv6), (keyIPv4, ipv4), (keyPD, pd)].filter
            (fun ks => decide (GoMap.get iface.properties ks.1 ≠ some ks.2)
              && watches sc ks.1)).map
            (fun ks =>
              (match GoMap.get iface.properties ks.1 with
                | some old => ["OLD_" ++ ks.1 ++ "=" ++ old]
                | none => []) ++ [ks.1 ++ "=" ++ ks.2])).flatten := by
  have hrun := run_ok run iface v ipv6 ipv4 pd hc (decodeScan_of_decodeLink hd)
  refine ⟨_, hrun, rfl, ?_⟩
  intro c hcl
  simp only at hcl
  obtain ⟨hargs, hpath, henv⟩ := (mem_launched_iff run _ c).1 hcl
  obtain ⟨ev, hev, hp⟩ := List.mem_map.1 hpath
  obtain ⟨key, new, _, _, sc, hsc, _, rfl⟩ := (mem_passEvents _ _ _ _ _).1 hev
  simp only at hp
  refine ⟨hargs, sc, hsc, hp, ?_⟩
  rw [henv, ← hp]
  unfold passEvents
  simp only [List.filter_append, List.map_append, List.flatten_append,
    filter_categoryEvents _ _ _ _ hnd hsc]
  simp only [List.filter_cons, List.filter_nil]
  split_ifs <;>
    simp only [List.map_cons, List.map_nil, List.flatten_cons, List.flatten_nil,
      List.append_nil, List.nil_append] <;>
    cases GoMap.get iface.properties keyIPv6 <;>
    cases GoMap.get iface.properties keyIPv4 <;>
    cases GoMap.get iface.properties keyPD <;> rfl

/-- C3, at two scripts on a fresh interface state. -/
theorem C3_environment_sequence_witness :
    (∀ sc ∈ (Sample.fresh [Sample.scriptW, Sample.scriptB]).scripts, sc.Config ≠ none) ∧
    decodeLink Sample.reply
      = some (.ok ("2001:db8::1/64", "203.0.113.5/24", "2001:db8:1::/48")) ∧
    ((Sample.fresh [Sample.scriptW, Sample.scriptB]).scripts.map script.Path).Nodup ∧
    ∃ p, runScriptsIfChanged Sample.allSucceed
        (Sample.fresh [Sample.scriptW, Sample.scriptB]) (.ok Sample.reply) = some p ∧
      p.launched.map Cmd.Env
        = [["IPV6_ADDRS=2001:db8::1/64", "IPV4_ADDRS=203.0.113.5/24"],
           ["PD_ADDRS=2001:db8:1::/48"]] := by
  refine ⟨by decide, by rfl, by decide, ?_⟩
  obtain ⟨p, h1, _, _⟩ := C3_environment_sequence Sample.allSucceed
    (Sample.fresh [Sample.scriptW, Sample.scriptB]) Sample.reply "2001:db8::1/64"
    "203.0.113.5/24" "2001:db8:1::/48" (by decide) (by rfl) (by decide)
  refine ⟨p, h1, ?_⟩
  have h2 : runScriptsIfChanged Sample.allSucceed
      (Sample.fresh [Sample.scriptW, Sample.scriptB]) (.ok Sample.reply)
      = some { iface := { raw := Sample.eth0,
                          properties := [("IPV6_ADDRS", "2001:db8::1/64"),
                            ("IPV4_ADDRS", "203.0.113.5/24"), ("PD_ADDRS", "2001:db8:1::/48")],
                          scripts := [Sample.scriptW, Sample.scriptB] },
               launched := [{ Path := "/etc/ipmon/w", Args := ["/etc/ipmon/w"],
                              Env := ["IPV6_ADDRS=2001:db8::1/64", "IPV4_ADDRS=203.0.113.5/24"] },
                            { Path := "/etc/ipmon/b", Args := ["/etc/ipmon/b"],
                              Env := ["PD_ADDRS=2001:db8:1::/48"] }],
               failed := [], err := none } := by decide
  rw [h2] at h1
  cases h1
  rfl

/-- A pass that returns an error has a reply that fails to decode. -/
theorem err_of_run {run : Cmd → Option String} {iface : Interface} {v : LinkDescription}
    {p : Pass} {e : Error} (h : runScriptsIfChanged run iface (.ok v) = some p)
    (he : p.err = some e) : decodeScan v = .error e := by
  unfold runScriptsIfChanged at h
  simp only [decodeLink_eq] at h
  cases hs : decodeScan v with
  | error e1 =>
    rw [hs] at h
    simp only [Option.some.injEq] at h
    subst h
    simp only [Option.some.injEq] at he
    rw [he]
  | ok r =>
    obtain ⟨a, b, c⟩ := r
    rw [hs] at h
    simp only at h
    split at h
    · cases h
    · split at h
      · cases h
      · split at h
        · cases h
        · split at h
          · cases h
          · simp only [Option.some.injEq] at h
            subst h
            cases he

theorem addressScan_bad_length (xs : List AddressEntry)
    (h : ∃ a ∈ xs, a.Address.length ≠ 4 ∧ a.Address.length ≠ 16) :
    ∃ e, addressScan xs = .error e := by
  induction xs with
  | nil => simp at h
  | cons x rest ih =>
    unfold addressScan
    cases hA : netip.AddrFromSlice x.Address with
    | none => exact ⟨_, rfl⟩
    | some addr =>
      have hrest : ∃ a ∈ rest, a.Address.length ≠ 4 ∧ a.Address.length ≠ 16 := by
        obtain ⟨a, ha, hl⟩ := h
        rcases List.mem_cons.1 ha with rfl | ha2
        · unfold netip.AddrFromSlice at hA
          simp [hl.1, hl.2] at hA
        · exact ⟨a, ha2, hl⟩
      obtain ⟨e, he⟩ := ih hrest
      simp only
      split
      · exact ⟨e, he⟩
      · split
        · exact ⟨_, rfl⟩
        · rw [he]
          exact ⟨e, rfl⟩

/-- C4. Whenever `runScriptsIfChanged` returns an error, the interface state after the
call (its properties map in particular) is the one before the call, and no command was
run.  A reply that fails to parse, or one whose `Addresses` hold, anywhere, an entry of
a length other than 4 and 16, makes the function return such an error. -/
theorem C4_error_leaves_state (run : Cmd → Option String) (iface : Interface) :
    (∀ (reply : Except String LinkDescription) (p : Pass) (e : Error),
      runScriptsIfChanged run iface reply = some p → p.err = some e →
        p.iface.properties = iface.properties ∧ p.iface = iface ∧ p.launched = []
          ∧ p.failed = []) ∧
    (∀ msg, ∃ p e, runScriptsIfChanged run iface (.error msg) = some p ∧ p.err = some e) ∧
    (∀ v : LinkDescription,
      (∃ a ∈ v.Addresses, a.Address.length ≠ 4 ∧ a.Address.length ≠ 16) →
        ∃ p e, runScriptsIfChanged run iface (.ok v) = some p ∧ p.err = some e) := by
  refine ⟨?_, ?_, ?_⟩
  · intro reply p e h he
    cases reply with
    | error msg =>
      simp only [runScriptsIfChanged, Option.some.injEq] at h
      subst h
      exact ⟨rfl, rfl, rfl, rfl⟩
    | ok v =>
      have hs := err_of_run h he
      rw [run_error run iface v e hs] at h
      simp only [Option.some.injEq] at h
      subst h
      exact ⟨rfl, rfl, rfl, rfl⟩
  · intro msg
    exact ⟨_, Error.json msg, rfl, rfl⟩
  · intro v hbad
    obtain ⟨e, he⟩ := addressScan_bad_length v.Addresses hbad
    have hs : decodeScan v = .error e := by
      unfold decodeScan
      rw [he]
    exact ⟨_, e, run_error run iface v e hs, rfl⟩

/-- C4, at a reply whose malformed address follows a valid one. -/
theorem C4_error_leaves_state_witness :
    ∃ p, runScriptsIfChanged Sample.allSucceed (Sample.tracked [Sample.scriptC])
        (.ok Sample.replyBadLength) = some p ∧
      p.err = some (Error.invalidIP [203, 0, 113]) ∧
      p.iface.properties = (Sample.tracked [Sample.scriptC]).properties ∧ p.launched = [] := by
  have h : runScriptsIfChanged Sample.allSucceed (Sample.tracked [Sample.scriptC])
      (.ok Sample.replyBadLength)
      = some { iface := Sample.tracked [Sample.scriptC], launched := [], failed := [],
               err := some (Error.invalidIP [203, 0, 113]) } := by decide
  have h2 := (C4_error_leaves_state Sample.allSucceed (Sample.tracked [Sample.scriptC])).1
    (.ok Sample.replyBadLength) _ (Error.invalidIP [203, 0, 113]) h rfl
  exact ⟨_, h, rfl, h2.1, h2.2.2.1⟩

theorem addrFromSlice_eq_none_iff (b : List Byte) :
    netip.AddrFromSlice b = none ↔ badLength b = true := by
  unfold netip.AddrFromSlice badLength
  by_cases h4 : b.length = 4
  · simp [h4]
  · by_cases h16 : b.length = 16
    · simp [h16]
    · simp [h4, h16]

theorem addrFromSlice_cases {b : List Byte} {addr : netip.Addr}
    (h : netip.AddrFromSlice b = some addr) :
    (addr = netip.Addr.z4 b ∧ b.length = 4) ∨ (addr = netip.Addr.z6 b ∧ b.length = 16) := by
  unfold netip.AddrFromSlice at h
  by_cases h4 : b.length = 4
  · rw [if_pos h4] at h
    exact Or.inl ⟨(Option.some.inj h).symm, h4⟩
  · rw [if_neg h4] at h
    by_cases h16 : b.length = 16
    · rw [if_pos h16] at h
      exact Or.inr ⟨(Option.some.inj h).symm, h16⟩
    · rw [if_neg h16] at h
      cases h

theorem bits_prefixFrom (addr : netip.Addr) (n : Int) (hz : addr ≠ netip.Addr.z0) :
    (netip.PrefixFrom addr n).Bits = -1 ↔ (n < 0 ∨ n > (addr.BitLen : Int)) := by
  unfold netip.PrefixFrom netip.Prefix.Bits
  by_cases hr : 0 ≤ n ∧ n ≤ (addr.BitLen : Int)
  · rw [if_pos ⟨hz, hr⟩]
    simp only
    constructor
    · intro hb
      have h1 : (0 : Int) ≤ ((n.toNat + 1 : Nat) : Int) - 1 := by push_cast; omega
      omega
    · intro hb
      omega
  · rw [if_neg (fun hh => hr hh.2)]
    simp only
    constructor
    · intro _
      by_contra hcon
      push_neg at hcon
      exact hr ⟨hcon.1, hcon.2⟩
    · intro _
      simp

theorem bits_eq_neg_one_iff {b : List Byte} {addr : netip.Addr}
    (h : netip.AddrFromSlice b = some addr) (n : Int) :
    (netip.PrefixFrom addr n).Bits = -1 ↔ outOfRange b n = true := by
  unfold outOfRange
  rcases addrFromSlice_cases h with ⟨rfl, hl⟩ | ⟨rfl, hl⟩
  · rw [bits_prefixFrom _ _ (by simp)]
    simp only [netip.Addr.BitLen, hl, decide_eq_true_eq]
    constructor
    · rintro (h1 | h1)
      · exact Or.inl h1
      · exact Or.inr (Or.inl ⟨trivial, by simpa using h1⟩)
    · rintro (h1 | ⟨_, h1⟩ | ⟨h2, _⟩)
      · exact Or.inl h1
      · exact Or.inr (by simpa using h1)
      · omega
  · rw [bits_prefixFrom _ _ (by simp)]
    simp only [netip.Addr.BitLen, hl, decide_eq_true_eq]
    constructor
    · rintro (h1 | h1)
      · exact Or.inl h1
      · exact Or.inr (Or.inr ⟨trivial, by simpa using h1⟩)
    · rintro (h1 | ⟨h2, _⟩ | ⟨_, h1⟩)
      · exact Or.inl h1
      · omega
      · exact Or.inr (by simpa using h1)

theorem addressScan_error_iff (xs : List AddressEntry) :
    (∃ e, addressScan xs = .error e) ↔
      ∃ a ∈ xs, badLength a.Address = true ∨
        (skippedAddress a.Address = false ∧ outOfRange a.Address a.PrefixLength = true) := by
  induction xs with
  | nil => simp [addressScan]
  | cons x rest ih =>
    simp only [List.mem_cons, exists_eq_or_imp]
    rw [← ih, addressScan]
    cases hA : netip.AddrFromSlice x.Address with
    | none =>
      have hb := (addrFromSlice_eq_none_iff x.Address).1 hA
      simp [hb]
    | some addr =>
      have hb : badLength x.Address = false := by
        cases h : badLength x.Address with
        | false => rfl
        | true => rw [(addrFromSlice_eq_none_iff x.Address).2 h] at hA; cases hA
      have hskip : skippedAddress x.Address = (addr.IsPrivate || !addr.IsGlobalUnicast) := by
        unfold skippedAddress
        rw [hA]
      have hbits := bits_eq_neg_one_iff hA x.PrefixLength
      simp only [hb, Bool.false_eq_true, false_or, hskip]
      cases hF : (addr.IsPrivate || !addr.IsGlobalUnicast) with
      | true => simp
      | false =>
        simp only [Bool.false_eq_true, if_false, true_and]
        by_cases hB : (netip.PrefixFrom addr x.PrefixLength).Bits = -1
        · simp [hB, hbits.1 hB]
        · have ho : outOfRange x.Address x.PrefixLength = false := by
            cases h : outOfRange x.Address x.PrefixLength with
            | false => rfl
            | true => exact absurd (hbits.2 h) hB
          simp only [hB, if_false, ho, Bool.false_eq_true, false_or]
          cases hs : addressScan rest with
          | error e => simp
          | ok p =>
            obtain ⟨a, b⟩ := p
            simp only
            split <;> simp

theorem prefixScan_error_iff (xs : List PrefixEntry) :
    (∃ e, prefixScan xs = .error e) ↔
      ∃ q ∈ xs, badLength q.Prefix = true ∨ outOfRange q.Prefix q.PrefixLength = true := by
  induction xs with
  | nil => simp [prefixScan]
  | cons x rest ih =>
    simp only [List.mem_cons, exists_eq_or_imp]
    rw [← ih, prefixScan]
    cases hA : netip.AddrFromSlice x.Prefix with
    | none =>
      have hb := (addrFromSlice_eq_none_iff x.Prefix).1 hA
      simp [hb]
    | some addr =>
      have hb : badLength x.Prefix = false := by
        cases h : badLength x.Prefix with
        | false => rfl
        | true => rw [(addrFromSlice_eq_none_iff x.Prefix).2 h] at hA; cases hA
      have hbits := bits_eq_neg_one_iff hA x.PrefixLength
      simp only [hb, Bool.false_eq_true, false_or]
      by_cases hB : (netip.PrefixFrom addr x.PrefixLength).Bits = -1
      · simp [hB, hbits.1 hB]
      · have ho : outOfRange x.Prefix x.PrefixLength = false := by
          cases h : outOfRange x.Prefix x.PrefixLength with
          | false => rfl
          | true => exact absurd (hbits.2 h) hB
        simp only [hB, if_false, ho, Bool.false_eq_true, false_or]
        cases hs : prefixScan rest with
        | error e => simp
        | ok p => simp

theorem decodeScan_error_iff (v : LinkDescription) :
    (∃ e, decodeScan v = .error e) ↔
      (∃ e, addressScan v.Addresses = .error e) ∨
        (∃ e, prefixScan v.DHCPv6Client.Prefixes = .error e) := by
  unfold decodeScan
  cases ha : addressScan v.Addresses with
  | error e => simp
  | ok p =>
    obtain ⟨a, b⟩ := p
    cases hp : prefixScan v.DHCPv6Client.Prefixes with
    | error e => simp
    | ok q => simp

/-- C5, as stated, fails: an address in 10/8 with the prefix length 99 is skipped
before its prefix length is examined, and the pass returns no error. -/
theorem C5_private_out_of_range_no_error :
    (∃ a ∈ Sample.replyPrivateBadPrefix.Addresses,
      a.Address.length = 4 ∧ a.PrefixLength > 32 ∧ skippedAddress a.Address = true) ∧
    runScriptsIfChanged Sample.allSucceed (Sample.fresh [Sample.scriptC])
        (.ok Sample.replyPrivateBadPrefix)
      = some { iface := { raw := Sample.eth0,
                          properties := [("IPV6_ADDRS", ""), ("IPV4_ADDRS", ""), ("PD_ADDRS", "")],
                          scripts := [Sample.scriptC] },
               launched := [{ Path := "/etc/ipmon/c", Args := ["/etc/ipmon/c"],
                              Env := ["IPV4_ADDRS="] }],
               failed := [], err := none } := by
  decide

/-- C5, amended. `runScriptsIfChanged` returns an error on a decoded reply if and only
if the reply holds, anywhere, an `Addresses` or `Prefixes` entry whose byte slice has a
length other than 4 and 16, or a `Prefixes` entry whose prefix length is out of range,
or an `Addresses` entry whose prefix length is out of range and whose address is
neither private-range nor non-global-unicast (such an address is skipped before its
prefix length is looked at). -/
theorem C5_error_iff_malformed (run : Cmd → Option String) (iface : Interface)
    (v : LinkDescription) :
    (∃ p e, runScriptsIfChanged run iface (.ok v) = some p ∧ p.err = some e) ↔
      (∃ a ∈ v.Addresses, badLength a.Address = true ∨
        (skippedAddress a.Address = false ∧ outOfRange a.Address a.PrefixLength = true)) ∨
      (∃ q ∈ v.DHCPv6Client.Prefixes,
        badLength q.Prefix = true ∨ outOfRange q.Prefix q.PrefixLength = true) := by
  rw [← addressScan_error_iff, ← prefixScan_error_iff, ← decodeScan_error_iff]
  constructor
  · rintro ⟨p, e, h, he⟩
    exact ⟨e, err_of_run h he⟩
  · rintro ⟨e, he⟩
    exact ⟨_, e, run_error run iface v e he, rfl⟩

/-- C6 fails on the code.  With a registry whose only script is registered for every
interface, `getByPath` for the link `eth0` returns no interface state and no error,
and stores none: the wildcard script is not applied.  With a script registered for
`eth0` as well, the state is created and the wildcard script follows the named one. -/
theorem C6_wildcard_needs_named_entry :
    getByPath Sample.registryWildcardOnly (.ok [Sample.eth0]) Sample.eth0.Path
      = (Sample.registryWildcardOnly, none, none) ∧
    (getByPath Sample.registryNamedAndWildcard (.ok [Sample.eth0]) Sample.eth0.Path).2.1
      = some { raw := Sample.eth0, properties := [],
               scripts := [Sample.scriptA, Sample.scriptW] } := by
  decide

theorem linkLoop_iff (l : List (String × Variant)) :
    linkLoop l = true ↔ ∃ v, ("IPv4AddressState", v) ∈ l ∨ ("IPv6AddressState", v) ∈ l := by
  induction l with
  | nil => simp [linkLoop]
  | cons pv rest ih =>
    obtain ⟨prop, value⟩ := pv
    unfold linkLoop
    by_cases h : prop = "IPv4AddressState" ∨ prop = "IPv6AddressState"
    · rw [if_pos h]
      simp only [true_iff]
      rcases h with rfl | rfl
      · exact ⟨value, Or.inl (List.mem_cons_self _ _)⟩
      · exact ⟨value, Or.inr (List.mem_cons_self _ _)⟩
    · rw [if_neg h, ih]
      push_neg at h
      constructor
      · rintro ⟨v, hv | hv⟩
        · exact ⟨v, Or.inl (List.mem_cons_of_mem _ hv)⟩
        · exact ⟨v, Or.inr (List.mem_cons_of_mem _ hv)⟩
      · rintro ⟨v, hv | hv⟩
        · rcases List.mem_cons.1 hv with he | he
          · exact absurd (congrArg Prod.fst he).symm h.1
          · exact ⟨v, Or.inl he⟩
        · rcases List.mem_cons.1 hv with he | he
          · exact absurd (congrArg Prod.fst he).symm h.2
          · exact ⟨v, Or.inr he⟩

theorem dhcpLoop_iff (l : List (String × Variant)) :
    dhcpLoop l = true ↔
      ∃ s, ("State", ({ value := Any.str s } : Variant)) ∈ l ∧ (s = "bound" ∨ s = "stopped") := by
  induction l with
  | nil => simp [dhcpLoop]
  | cons pv rest ih =>
    obtain ⟨prop, value⟩ := pv
    have hrest : (∃ s, ("State", ({ value := Any.str s } : Variant)) ∈ rest
          ∧ (s = "bound" ∨ s = "stopped")) →
        ∃ s, ("State", ({ value := Any.str s } : Variant)) ∈ (prop, value) :: rest
          ∧ (s = "bound" ∨ s = "stopped") := by
      rintro ⟨s, hs, hv⟩
      exact ⟨s, List.mem_cons_of_mem _ hs, hv⟩
    have hback : ∀ s, ("State", ({ value := Any.str s } : Variant)) ∈ (prop, value) :: rest →
        (s = "bound" ∨ s = "stopped") →
        ¬ (prop = "State" ∧ ∃ t, value.value = Any.str t ∧ (t = "bound" ∨ t = "stopped")) →
        ∃ s, ("State", ({ value := Any.str s } : Variant)) ∈ rest
          ∧ (s = "bound" ∨ s = "stopped") := by
      intro s hs hv hn
      rcases List.mem_cons.1 hs with he | he
      · exfalso
        apply hn
        have h1 := congrArg Prod.fst he
        have h2 := congrArg Prod.snd he
        simp only at h1 h2
        exact ⟨h1.symm, s, by rw [← h2], hv⟩
      · exact ⟨s, he, hv⟩
    unfold dhcpLoop
    by_cases h : prop = "State"
    · rw [if_pos h]
      obtain ⟨val⟩ := value
      cases val with
      | str s =>
        simp only
        by_cases hs : s = "bound" ∨ s = "stopped"
        · rw [if_pos hs]
          simp only [true_iff]
          exact ⟨s, by rw [h]; exact List.mem_cons_self _ _, hs⟩
        · rw [if_neg hs, ih]
          constructor
          · exact hrest
          · rintro ⟨t, ht, hv⟩
            apply hback t ht hv
            rintro ⟨_, u, hu, huv⟩
            simp only [Any.str.injEq] at hu
            subst hu
            exact hs huv
      | bool b =>
        simp only
        rw [ih]
        exact ⟨hrest, fun ⟨t, ht, hv⟩ => hback t ht hv (by rintro ⟨_, u, hu, _⟩; cases hu)⟩
      | int n =>
        simp only
        rw [ih]
        exact ⟨hrest, fun ⟨t, ht, hv⟩ => hback t ht hv (by rintro ⟨_, u, hu, _⟩; cases hu)⟩
      | strs xs =>
        simp only
        rw [ih]
        exact ⟨hrest, fun ⟨t, ht, hv⟩ => hback t ht hv (by rintro ⟨_, u, hu, _⟩; cases hu)⟩
      | other tag =>
        simp only
        rw [ih]
        exact ⟨hrest, fun ⟨t, ht, hv⟩ => hback t ht hv (by rintro ⟨_, u, hu, _⟩; cases hu)⟩
    · rw [if_neg h, ih]
      exact ⟨hrest, fun ⟨t, ht, hv⟩ => hback t ht hv (fun hh => h hh.1)⟩

theorem ipChanged_fst (pc : propertiesChanged) :
    (ipChanged pc).1 =
      if pc.Interface = "org.freedesktop.network1.Link" then linkLoop pc.Changes
      else if pc.Interface = "org.freedesktop.network1.DHCPv6Client" then dhcpLoop pc.Changes
      else false := by
  unfold ipChanged
  split
  · split <;> simp_all
  · split
    · split <;> simp_all
    · rfl

theorem ipChanged_snd (pc : propertiesChanged) : (ipChanged pc).2 = none := by
  unfold ipChanged
  split
  · split <;> rfl
  · split
    · split <;> rfl
    · rfl

theorem ipChanged_true_iff (pc : propertiesChanged) :
    (ipChanged pc).1 = true ↔
      (pc.Interface = "org.freedesktop.network1.Link" ∧
        ∃ v, ("IPv4AddressState", v) ∈ pc.Changes ∨ ("IPv6AddressState", v) ∈ pc.Changes) ∨
      (pc.Interface = "org.freedesktop.network1.DHCPv6Client" ∧
        ∃ s, ("State", ({ value := Any.str s } : Variant)) ∈ pc.Changes ∧
          (s = "bound" ∨ s = "stopped")) := by
  rw [ipChanged_fst]
  by_cases h1 : pc.Interface = "org.freedesktop.network1.Link"
  · rw [if_pos h1, linkLoop_iff]
    have h2 : ¬ pc.Interface = "org.freedesktop.network1.DHCPv6Client" := by
      rw [h1]; decide
    simp [h1]
  · rw [if_neg h1]
    by_cases h2 : pc.Interface = "org.freedesktop.network1.DHCPv6Client"
    · rw [if_pos h2, dhcpLoop_iff]
      simp [h1, h2]
    · rw [if_neg h2]
      simp [h1, h2]

/-- C7. `ipChanged` returns `true` if and only if the notification is from the interface
"org.freedesktop.network1.Link" and its changes have a key `IPv4AddressState` or
`IPv6AddressState` (with any value), or it is from
"org.freedesktop.network1.DHCPv6Client" and its changes map `State` to a string equal
to "bound" or to "stopped".  The returned error is always nil, and the result depends
neither on the order in which the changes are iterated nor on the invalidated
properties.  A `State` change to "bound" triggers, one to "routable" does not, and no
other interface ever triggers. -/
theorem C7_ipChanged_relevance (pc : propertiesChanged) :
    ((ipChanged pc).1 = true ↔
      (pc.Interface = "org.freedesktop.network1.Link" ∧
        ∃ v, ("IPv4AddressState", v) ∈ pc.Changes ∨ ("IPv6AddressState", v) ∈ pc.Changes) ∨
      (pc.Interface = "org.freedesktop.network1.DHCPv6Client" ∧
        ∃ s, ("State", ({ value := Any.str s } : Variant)) ∈ pc.Changes ∧
          (s = "bound" ∨ s = "stopped"))) ∧
    (ipChanged pc).2 = none ∧
    (∀ pc2 : propertiesChanged, pc2.Interface = pc.Interface →
      List.Perm pc2.Changes pc.Changes → ipChanged pc2 = ipChanged pc) ∧
    (∀ inv, ipChanged { Interface := "org.freedesktop.network1.DHCPv6Client",
                        Changes := [("State", { value := Any.str "bound" })],
                        InvalidatedProperties := inv } = (true, none)) ∧
    (∀ inv, ipChanged { Interface := "org.freedesktop.network1.DHCPv6Client",
                        Changes := [("State", { value := Any.str "routable" })],
                        InvalidatedProperties := inv } = (false, none)) ∧
    (pc.Interface ≠ "org.freedesktop.network1.Link" →
      pc.Interface ≠ "org.freedesktop.network1.DHCPv6Client" → ipChanged pc = (false, none)) := by
  refine ⟨ipChanged_true_iff pc, ipChanged_snd pc, ?_, ?_, ?_, ?_⟩
  · intro pc2 hi hp
    have h1 : (ipChanged pc2).1 = (ipChanged pc).1 := by
      rw [Bool.eq_iff_iff, ipChanged_true_iff, ipChanged_true_iff, hi]
      simp only [hp.mem_iff]
    have h2 : (ipChanged pc2).2 = (ipChanged pc).2 := by
      rw [ipChanged_snd, ipChanged_snd]
    exact Prod.ext h1 h2
  · intro inv; rfl
  · intro inv; rfl
  · intro h1 h2
    unfold ipChanged
    rw [if_neg h1, if_neg h2]

/-- C7, at a notification of the link interface whose changes are listed in two
orders. -/
theorem C7_ipChanged_relevance_witness :
    ipChanged { Interface := "org.freedesktop.network1.Link",
                Changes := [("OperationalState", { value := Any.str "routable" }),
                            ("IPv6AddressState", { value := Any.str "routable" })],
                InvalidatedProperties := [] }
      = ipChanged { Interface := "org.freedesktop.network1.Link",
                    Changes := [("IPv6AddressState", { value := Any.str "routable" }),
                                ("OperationalState", { value := Any.str "routable" })],
                    InvalidatedProperties := ["x"] } :=
  (C7_ipChanged_relevance _).2.2.1 _ rfl (List.Perm.swap _ _ _)

/-- C8. Any finite sequence of `Set(k, v)` calls on the zero-value map succeeds, and
`All` then ends and yields each distinct key exactly once, in the order of the keys'
first insertion, each paired with the value of the last `Set` call for that key.  One
more `Set` returns `true` exactly when its key was not present; when the key was
present the order of the keys is unchanged, otherwise the key comes last; either way
the key now holds the new value. -/
theorem C8_ordered_map_insertion_order {K V : Type} [DecidableEq K] (calls : List (K × V)) :
    ∃ m bs, Map.setMany (Map.zero : Map K V) calls = some (m, bs) ∧
      ∃ all, m.All = some all ∧
        (∀ fuel, all.length ≤ fuel → m.AllFuel fuel = some all) ∧
        m.Len = all.length ∧
        all.map Prod.fst = firstSeen (calls.map Prod.fst) ∧
        (all.map Prod.fst).Nodup ∧
        (∀ k, k ∈ all.map Prod.fst ↔ k ∈ calls.map Prod.fst) ∧
        (∀ k v, (k, v) ∈ all ↔ GoMap.get calls.reverse k = some v) ∧
        (∀ k v, ∃ m1 all1, m.Set k v = some (m1, decide (k ∉ all.map Prod.fst)) ∧
          m1.All = some all1 ∧
          all1.map Prod.fst
            = (if k ∈ all.map Prod.fst then all.map Prod.fst else all.map Prod.fst ++ [k]) ∧
          GoMap.get all1 k = some v ∧
          ∀ k2, k2 ≠ k → GoMap.get all1 k2 = GoMap.get all k2) := by
  obtain ⟨m, bs, hset, hr⟩ := rep_setMany (rep_zero (K := K) (V := V)) calls
  have hkeys : GoMap.keys (calls.foldl (fun acc (c : K × V) => GoMap.set acc c.1 c.2) [])
      = firstSeen (calls.map Prod.fst) :=
    GoMap.keys_foldl_set (fun _ (c : K × V) => c.2) calls
  have hnd : (GoMap.keys (calls.foldl (fun acc (c : K × V) => GoMap.set acc c.1 c.2) [])).Nodup := by
    rw [hkeys]; exact firstSeen_nodup _
  refine ⟨m, bs, hset, _, rep_All hr, fun fuel hf => rep_AllFuel hr fuel hf, rep_Len hr,
    hkeys, hnd, ?_, ?_, ?_⟩
  · intro k
    have := hkeys
    unfold GoMap.keys at this
    rw [this, mem_firstSeen]
  · intro k v
    rw [← GoMap.get_foldl_set]
    exact ⟨fun h => GoMap.get_of_mem hnd h, fun h => GoMap.mem_of_get h⟩
  · intro k v
    obtain ⟨m1, h1, hr1⟩ := rep_Set hr k v
    refine ⟨m1, _, h1, rep_All hr1, GoMap.keys_set _ k v, GoMap.get_set_self _ k v, ?_⟩
    intro k2 hk2
    exact GoMap.get_set_ne _ v hk2

/-- C8, at three calls, the third of which overwrites the first key. -/
theorem C8_ordered_map_insertion_order_witness :
    ∃ m bs, Map.setMany (Map.zero : Map String Nat) [("a", 1), ("b", 2), ("a", 3)]
        = some (m, bs) ∧ m.All = some [("a", 3), ("b", 2)] ∧ bs = [true, true, false] := by
  obtain ⟨m, bs, h1, all, h2, _, _, _, _, _, _, _⟩ :=
    C8_ordered_map_insertion_order [("a", 1), ("b", 2), ("a", 3)]
  have h3 : Map.setMany (Map.zero : Map String Nat) [("a", 1), ("b", 2), ("a", 3)]
      = some ({ heap := [{ next := some 1, prev := none, key := "a", value := 3 },
                         { next := none, prev := some 0, key := "b", value := 2 }],
                m := some [("a", 0), ("b", 1)], head := some 0, tail := some 1 },
              [true, true, false]) := by decide
  rw [h3] at h1
  simp only [Option.some.injEq, Prod.mk.injEq] at h1
  obtain ⟨rfl, rfl⟩ := h1
  exact ⟨_, _, h3, by decide, rfl⟩

/-- C9. Adding the strings of any list `L`, in order, to an empty ordered set succeeds,
and the canonical string of the set is the space-join of `L` with every occurrence
after the first of each string removed, first-seen order preserved.  The joined
elements are pairwise distinct, they are exactly the strings of `L`, in the order in
which `L` lists them, and starting from the already deduplicated list gives the same
canonical string. -/
theorem C9_canonical_string (L : List String) :
    ∃ s, ordered.Set.addMany (Map.zero : ordered.Set String) L = some s ∧
      s.All = some (firstSeen L) ∧
      canonical s = some (String.intercalate " " (firstSeen L)) ∧
      (firstSeen L).Nodup ∧
      (∀ x, x ∈ firstSeen L ↔ x ∈ L) ∧
      (firstSeen L).Sublist L ∧
      (∃ s2, ordered.Set.addMany (Map.zero : ordered.Set String) (firstSeen L) = some s2 ∧
        canonical s2 = canonical s) := by
  obtain ⟨s, hs, hr⟩ := addMany_rep (rep_zero (K := String) (V := Unit)) L
  obtain ⟨s2, hs2, hr2⟩ := addMany_rep (rep_zero (K := String) (V := Unit)) (firstSeen L)
  have hall : s.All = some (firstSeen L) := by
    unfold ordered.Set.All
    rw [rep_All hr, ← keys_addAll]
    rfl
  refine ⟨s, hs, hall, ?_, firstSeen_nodup L, mem_firstSeen L, firstSeen_sublist L,
    s2, hs2, ?_⟩
  · rw [canonical_rep hr, keys_addAll]
  · rw [canonical_rep hr, canonical_rep hr2, keys_addAll, keys_addAll, firstSeen_idem]

/-- C9, at a list with a repeated string. -/
theorem C9_canonical_string_witness :
    ∃ s, ordered.Set.addMany (Map.zero : ordered.Set String)
        ["2001:db8::1/64", "2001:db8::2/64", "2001:db8::1/64"] = some s ∧
      canonical s = some "2001:db8::1/64 2001:db8::2/64" := by
  obtain ⟨s, h1, _, h3, _⟩ :=
    C9_canonical_string ["2001:db8::1/64", "2001:db8::2/64", "2001:db8::1/64"]
  refine ⟨s, h1, ?_⟩
  rw [h3]
  decide

theorem categoryEvents_paths (iface : Interface) (key new : String) :
    (categoryEvents key new iface.scripts iface.properties).map Prod.fst
      = changedWatchers iface key new := by
  unfold categoryEvents changedWatchers
  split
  · rfl
  · rw [List.map_map]
    rfl

theorem changedWatchers_sublist (iface : Interface) (key new : String) :
    (changedWatchers iface key new).Sublist (iface.scripts.map script.Path) := by
  unfold changedWatchers
  split
  · exact List.nil_sublist _
  · exact (List.filter_sublist _).map _

/-- C10, as stated, fails: with the applicable list `c` (watching IPV4_ADDRS), `a`
(watching IPV6_ADDRS) and both categories changed, both scripts have a pending
environment, and `a` is run before `c`. -/
theorem C10_not_discovery_order :
    (Sample.fresh [Sample.scriptC, Sample.scriptA]).scripts.map script.Path
      = ["/etc/ipmon/c", "/etc/ipmon/a"] ∧
    (runScriptsIfChanged Sample.allSucceed (Sample.fresh [Sample.scriptC, Sample.scriptA])
        (.ok Sample.reply)).map (fun p => p.launched)
      = some [{ Path := "/etc/ipmon/a", Args := ["/etc/ipmon/a"],
                Env := ["IPV6_ADDRS=2001:db8::1/64"] },
              { Path := "/etc/ipmon/c", Args := ["/etc/ipmon/c"],
                Env := ["IPV4_ADDRS=203.0.113.5/24"] }] ∧
    ¬ List.Sublist ["/etc/ipmon/a", "/etc/ipmon/c"] ["/etc/ipmon/c", "/etc/ipmon/a"] := by
  decide

/-- C10, amended. The paths run in a pass on a successfully decoded reply are ordered
by category first: they are the paths of the scripts watching IPV6_ADDRS if it
changed, then of those watching IPV4_ADDRS if it changed, then of those watching
PD_ADDRS if it changed, each group in the order of the applicable list and every path
kept at its first occurrence only.  No path is run twice, and when at most one category
changed the paths are run in the order of the applicable list.  (Every script of the
applicable list has a configuration, as in every registry built by `LoadInterfaces`.) -/
theorem C10_dispatch_order (run : Cmd → Option String) (iface : Interface)
    (v : LinkDescription) (ipv6 ipv4 pd : String)
    (hc : ∀ sc ∈ iface.scripts, sc.Config ≠ none)
    (hd : decodeLink v = some (.ok (ipv6, ipv4, pd))) :
    ∃ p, runScriptsIfChanged run iface (.ok v) = some p ∧ p.err = none ∧
      p.launched.map Cmd.Path
        = firstSeen (changedWatchers iface keyIPv6 ipv6 ++ changedWatchers iface keyIPv4 ipv4
            ++ changedWatchers iface keyPD pd) ∧
      (p.launched.map Cmd.Path).Nodup ∧
      (∀ k s, (k, s) ∈ [(keyIPv6, ipv6), (keyIPv4, ipv4), (keyPD, pd)] →
        (∀ k2 s2, (k2, s2) ∈ [(keyIPv6, ipv6), (keyIPv4, ipv4), (keyPD, pd)] → k2 ≠ k →
          GoMap.get iface.properties k2 = some s2) →
        (p.launched.map Cmd.Path).Sublist (iface.scripts.map script.Path)) := by
  have hrun := run_ok run iface v ipv6 ipv4 pd hc (decodeScan_of_decodeLink hd)
  have hpaths : (dispatch run (accumulate (passEvents iface ipv6 ipv4 pd) [])).1.map Cmd.Path
      = firstSeen (changedWatchers iface keyIPv6 ipv6 ++ changedWatchers iface keyIPv4 ipv4
          ++ changedWatchers iface keyPD pd) := by
    rw [launched_paths]
    unfold passEvents
    rw [List.map_append, List.map_append, categoryEvents_paths, categoryEvents_paths,
      categoryEvents_paths]
  refine ⟨_, hrun, rfl, hpaths, ?_, ?_⟩
  · simp only
    rw [hpaths]
    exact firstSeen_nodup _
  · intro k s hk hothers
    simp only
    rw [hpaths]
    refine (firstSeen_sublist _).trans ?_
    have h6 : k ≠ keyIPv6 → changedWatchers iface keyIPv6 ipv6 = [] := by
      intro hne
      unfold changedWatchers
      rw [if_pos (hothers keyIPv6 ipv6 (by simp) (Ne.symm hne))]
    have h4 : k ≠ keyIPv4 → changedWatchers iface keyIPv4 ipv4 = [] := by
      intro hne
      unfold changedWatchers
      rw [if_pos (hothers keyIPv4 ipv4 (by simp) (Ne.symm hne))]
    have hp : k ≠ keyPD → changedWatchers iface keyPD pd = [] := by
      intro hne
      unfold changedWatchers
      rw [if_pos (hothers keyPD pd (by simp) (Ne.symm hne))]
    simp only [List.mem_cons, List.mem_singleton, Prod.mk.injEq, List.not_mem_nil, or_false] at hk
    rcases hk with ⟨rfl, _⟩ | ⟨rfl, _⟩ | ⟨rfl, _⟩
    · rw [h4 (by decide), hp (by decide), List.append_nil, List.append_nil]
      exact changedWatchers_sublist _ _ _
    · rw [h6 (by decide), hp (by decide), List.nil_append, List.append_nil]
      exact changedWatchers_sublist _ _ _
    · rw [h6 (by decide), h4 (by decide), List.nil_append, List.nil_append]
      exact changedWatchers_sublist _ _ _

/-- C10 amended, at the applicable list `c`, `a` with both of their categories
changed. -/
theorem C10_dispatch_order_witness :
    (∀ sc ∈ (Sample.fresh [Sample.scriptC, Sample.scriptA]).scripts, sc.Config ≠ none) ∧
    decodeLink Sample.reply
      = some (.ok ("2001:db8::1/64", "203.0.113.5/24", "2001:db8:1::/48")) ∧
    ∃ p, runScriptsIfChanged Sample.allSucceed (Sample.fresh [Sample.scriptC, Sample.scriptA])
        (.ok Sample.reply) = some p ∧
      p.launched.map Cmd.Path = ["/etc/ipmon/a", "/etc/ipmon/c"] := by
  refine ⟨by decide, by rfl, ?_⟩
  obtain ⟨p, h1, _, h3, _⟩ := C10_dispatch_order Sample.allSucceed
    (Sample.fresh [Sample.scriptC, Sample.scriptA]) Sample.reply "2001:db8::1/64"
    "203.0.113.5/24" "2001:db8:1::/48" (by decide) (by rfl)
  refine ⟨p, h1, ?_⟩
  rw [h3]
  decide

theorem dispatch_snd (run : Cmd → Option String) (all : List (String × List String)) :
    (dispatch run all).2 = (dispatch run all).1.filter (fun c => (run c).isSome) := by
  induction all with
  | nil => rfl
  | cons pe rest ih =>
    obtain ⟨p, e⟩ := pe
    simp only [dispatch]
    cases h : run { Path := (CommandContext p).Path, Args := (CommandContext p).Args,
                    Env := (CommandContext p).Env ++ e } with
    | none => simp [List.filter_cons, h, ih]
    | some msg => simp [List.filter_cons, h, ih]

/-- C13. Whatever the outcomes of the executions (success, non-zero exit, timeout,
launch failure), a pass on a successfully decoded reply runs every pending script
exactly once, in the order of the pending batch, and returns no error; the stored
properties are the newly observed canonical strings.  The commands run and the state
after the pass are the same for every assignment of outcomes; only the list of logged
failures depends on it.  (Every script of the applicable list has a configuration.) -/
theorem C13_batch_runs_to_end (run : Cmd → Option String) (iface : Interface)
    (v : LinkDescription) (ipv6 ipv4 pd : String)
    (hc : ∀ sc ∈ iface.scripts, sc.Config ≠ none)
    (hd : decodeLink v = some (.ok (ipv6, ipv4, pd))) :
    ∃ p, runScriptsIfChanged run iface (.ok v) = some p ∧ p.err = none ∧
      p.launched = (accumulate (passEvents iface ipv6 ipv4 pd) []).map
        (fun pe => ({ Path := pe.1, Args := [pe.1], Env := pe.2 } : Cmd)) ∧
      (p.launched.map Cmd.Path).Nodup ∧
      p.failed = p.launched.filter (fun c => (run c).isSome) ∧
      (∀ k s, (k, s) ∈ [(keyIPv6, ipv6), (keyIPv4, ipv4), (keyPD, pd)] →
        GoMap.get p.iface.properties k = some s) ∧
      (∀ run2 : Cmd → Option String,
        ∃ p2, runScriptsIfChanged run2 iface (.ok v) = some p2 ∧ p2.err = none ∧
          p2.launched = p.launched ∧ p2.iface = p.iface) := by
  have hs := decodeScan_of_decodeLink hd
  have hrun := run_ok run iface v ipv6 ipv4 pd hc hs
  refine ⟨_, hrun, rfl, dispatch_fst run _, ?_, dispatch_snd run _, ?_, ?_⟩
  · simp only
    rw [launched_paths]
    exact firstSeen_nodup _
  · intro k s hk
    exact get_passProperties _ _ _ _ k s hk
  · intro run2
    refine ⟨_, run_ok run2 iface v ipv6 ipv4 pd hc hs, rfl, ?_, rfl⟩
    simp only
    rw [dispatch_fst, dispatch_fst]

/-- C13, at two scripts of which the first fails. -/
theorem C13_batch_runs_to_end_witness :
    (∀ sc ∈ (Sample.fresh [Sample.scriptA, Sample.scriptC]).scripts, sc.Config ≠ none) ∧
    decodeLink Sample.reply
      = some (.ok ("2001:db8::1/64", "203.0.113.5/24", "2001:db8:1::/48")) ∧
    ∃ p, runScriptsIfChanged
        (fun c => if c.Path = "/etc/ipmon/a" then some "exit status 1" else none)
        (Sample.fresh [Sample.scriptA, Sample.scriptC]) (.ok Sample.reply) = some p ∧
      p.err = none ∧ p.launched.map Cmd.Path = ["/etc/ipmon/a", "/etc/ipmon/c"] ∧
      p.failed.map Cmd.Path = ["/etc/ipmon/a"] := by
  refine ⟨by decide, by rfl, ?_⟩
  obtain ⟨p, h1, h2, h3, _, h5, _⟩ := C13_batch_runs_to_end
    (fun c => if c.Path = "/etc/ipmon/a" then some "exit status 1" else none)
    (Sample.fresh [Sample.scriptA, Sample.scriptC]) Sample.reply "2001:db8::1/64"
    "203.0.113.5/24" "2001:db8:1::/48" (by decide) (by rfl)
  refine ⟨p, h1, h2, ?_, ?_⟩
  · rw [h3]; decide
  · rw [h5, h3]; decide

/-- C18. `parsePropertiesChanged` returns an error if and only if the body does not
consist of exactly three elements that are, in order, a string, a map from string to
variant, and a list of strings; when it returns no error the fields `Interface`,
`Changes` and `InvalidatedProperties` of the result are those three elements. -/
theorem C18_parse_shape (body : List BodyValue) :
    ((parsePropertiesChanged body).2 ≠ none ↔
      ¬ ∃ iface changes ips, body = [BodyValue.string iface, BodyValue.variantMap changes,
        BodyValue.stringSlice ips]) ∧
    (∀ iface changes ips,
      body = [BodyValue.string iface, BodyValue.variantMap changes, BodyValue.stringSlice ips] →
        parsePropertiesChanged body
          = ({ Interface := iface, Changes := changes, InvalidatedProperties := ips }, none)) ∧
    ((parsePropertiesChanged body).2 = none →
      body = [BodyValue.string (parsePropertiesChanged body).1.Interface,
              BodyValue.variantMap (parsePropertiesChanged body).1.Changes,
              BodyValue.stringSlice (parsePropertiesChanged body).1.InvalidatedProperties]) := by
  have hok : ∀ iface changes ips,
      body = [BodyValue.string iface, BodyValue.variantMap changes, BodyValue.stringSlice ips] →
        parsePropertiesChanged body
          = ({ Interface := iface, Changes := changes, InvalidatedProperties := ips }, none) := by
    intro iface changes ips h
    subst h
    rfl
  have hshape : (parsePropertiesChanged body).2 = none →
      body = [BodyValue.string (parsePropertiesChanged body).1.Interface,
              BodyValue.variantMap (parsePropertiesChanged body).1.Changes,
              BodyValue.stringSlice (parsePropertiesChanged body).1.InvalidatedProperties] := by
    intro h
    match body, h with
    | [], h => simp [parsePropertiesChanged] at h
    | [_], h => simp [parsePropertiesChanged] at h
    | [_, _], h => simp [parsePropertiesChanged] at h
    | _ :: _ :: _ :: _ :: _, h => simp [parsePropertiesChanged] at h
    | [a, b, c], h =>
      cases a <;> cases b <;> cases c <;> first
        | rfl
        | (simp [parsePropertiesChanged] at h)
  refine ⟨?_, hok, hshape⟩
  constructor
  · rintro hne ⟨iface, changes, ips, h⟩
    rw [hok iface changes ips h] at hne
    exact hne rfl
  · intro hno heq
    exact hno ⟨_, _, _, hshape heq⟩

/-- C18, at a body of three elements of the right types. -/
theorem C18_parse_shape_witness :
    (parsePropertiesChanged Sample.signalV4.Body).2 = none ∧
    (parsePropertiesChanged Sample.signalV4.Body).1.Interface
      = "org.freedesktop.network1.Link" :=
  ⟨congrArg Prod.snd ((C18_parse_shape Sample.signalV4.Body).2.1 _ _ _ rfl),
   congrArg (fun r => r.1.Interface) ((C18_parse_shape Sample.signalV4.Body).2.1 _ _ _ rfl)⟩

theorem launched_env_ne_nil (run : Cmd → Option String) (iface : Interface)
    (ipv6 ipv4 pd : String) {c : Cmd}
    (h : c ∈ (dispatch run (accumulate (passEvents iface ipv6 ipv4 pd) [])).1) : c.Env ≠ [] := by
  obtain ⟨_, hpath, henv⟩ := (mem_launched_iff run _ c).1 h
  obtain ⟨ev, hev, hp⟩ := List.mem_map.1 hpath
  obtain ⟨key, new, _, _, sc, _, _, rfl⟩ := (mem_passEvents _ _ _ _ _).1 hev
  have hx : (key ++ "=" ++ new) ∈ c.Env := by
    rw [henv, List.mem_flatten]
    refine ⟨envEntries key (GoMap.get iface.properties key) new, ?_,
      (mem_envEntries _ _ _ _).2 (Or.inr rfl)⟩
    exact List.mem_map.2 ⟨_, List.mem_filter.2 ⟨hev, by simpa using hp⟩, rfl⟩
  intro hnil
  rw [hnil] at hx
  simp at hx

/-- C12 fails on the code.  Every command run in a pass has a non-empty `Env`, made by
appending the assembled entries to the nil `Env` of a new command, so the environment
handed to the executable is made of the assembled entries alone, whatever the
environment inherited by the process: no inherited variable reaches the script. -/
theorem C12_inherited_environment_dropped (run : Cmd → Option String) (iface : Interface)
    (v : LinkDescription) (ipv6 ipv4 pd : String)
    (hc : ∀ sc ∈ iface.scripts, sc.Config ≠ none)
    (hd : decodeLink v = some (.ok (ipv6, ipv4, pd))) :
    ∃ p, runScriptsIfChanged run iface (.ok v) = some p ∧
      ∀ c ∈ p.launched, c.Env ≠ [] ∧
        ∀ inherited : List String, c.environ inherited = dedupEnv c.Env := by
  have hrun := run_ok run iface v ipv6 ipv4 pd hc (decodeScan_of_decodeLink hd)
  refine ⟨_, hrun, ?_⟩
  intro c hcl
  simp only at hcl
  have hne := launched_env_ne_nil run iface ipv6 ipv4 pd hcl
  refine ⟨hne, fun inherited => ?_⟩
  unfold Cmd.environ
  rw [if_neg hne]

/-- C12, at one script and the inherited environment PATH=/usr/bin, HOME=/root: the
script gets IPV4_ADDRS only. -/
theorem C12_inherited_environment_dropped_witness :
    (∀ sc ∈ (Sample.fresh [Sample.scriptC]).scripts, sc.Config ≠ none) ∧
    decodeLink Sample.replyV4 = some (.ok ("", "203.0.113.5/24", "")) ∧
    (runScriptsIfChanged Sample.allSucceed (Sample.fresh [Sample.scriptC])
        (.ok Sample.replyV4)).map
        (fun p => p.launched.map (fun c => c.environ ["PATH=/usr/bin", "HOME=/root"]))
      = some [(["IPV4_ADDRS=203.0.113.5/24"], false)] ∧
    ["PATH=/usr/bin", "HOME=/root"] ++ ["IPV4_ADDRS=203.0.113.5/24"]
      ≠ ["IPV4_ADDRS=203.0.113.5/24"] := by
  refine ⟨by decide, by rfl, ?_, by decide⟩
  obtain ⟨p, h1, h2⟩ := C12_inherited_environment_dropped Sample.allSucceed
    (Sample.fresh [Sample.scriptC]) Sample.replyV4 "" "203.0.113.5/24" "" (by decide) (by rfl)
  have h3 : runScriptsIfChanged Sample.allSucceed (Sample.fresh [Sample.scriptC])
      (.ok Sample.replyV4)
      = some { iface := { raw := Sample.eth0,
                          properties := [("IPV6_ADDRS", ""), ("IPV4_ADDRS", "203.0.113.5/24"),
                            ("PD_ADDRS", "")],
                          scripts := [Sample.scriptC] },
               launched := [{ Path := "/etc/ipmon/c", Args := ["/etc/ipmon/c"],
                              Env := ["IPV4_ADDRS=203.0.113.5/24"] }],
               failed := [], err := none } := by decide
  rw [h3] at h1 ⊢
  cases h1
  have h4 := (h2 _ (List.mem_singleton.2 rfl)).2 ["PATH=/usr/bin", "HOME=/root"]
  simp only [Option.map_some', List.map_cons, List.map_nil, h4]
  decide

theorem addressScan_ok (xs : List AddressEntry) (v6 v4 : List String)
    (h : addressScan xs = .ok (v6, v4)) :
    v6 = (xs.filter (fun a => !skippedAddress a.Address && decide (a.Address.length = 16))).map
        (fun a => cidr a.Address a.PrefixLength) ∧
    v4 = (xs.filter (fun a => !skippedAddress a.Address && decide (a.Address.length = 4))).map
        (fun a => cidr a.Address a.PrefixLength) := by
  induction xs generalizing v6 v4 with
  | nil =>
    simp only [addressScan, Except.ok.injEq, Prod.mk.injEq] at h
    obtain ⟨rfl, rfl⟩ := h
    exact ⟨rfl, rfl⟩
  | cons x rest ih =>
    rw [addressScan] at h
    cases hA : netip.AddrFromSlice x.Address with
    | none => rw [hA] at h; simp at h
    | some addr =>
      rw [hA] at h
      simp only at h
      have hskip : skippedAddress x.Address = (addr.IsPrivate || !addr.IsGlobalUnicast) := by
        unfold skippedAddress
        rw [hA]
      have hcidr : cidr x.Address x.PrefixLength
          = (netip.PrefixFrom addr x.PrefixLength).String := by
        unfold cidr
        rw [hA]
      cases hF : (addr.IsPrivate || !addr.IsGlobalUnicast) with
      | true =>
        rw [hF] at h hskip
        simp only [if_true] at h
        simp only [List.filter_cons, hskip, Bool.not_true, Bool.false_and, Bool.false_eq_true,
          if_false]
        exact ih v6 v4 h
      | false =>
        rw [hF] at h hskip
        simp only [Bool.false_eq_true, if_false] at h
        by_cases hB : (netip.PrefixFrom addr x.PrefixLength).Bits = -1
        · rw [if_pos hB] at h
          simp at h
        · rw [if_neg hB] at h
          cases hs : addressScan rest with
          | error e => rw [hs] at h; simp at h
          | ok p =>
            obtain ⟨w6, w4⟩ := p
            rw [hs] at h
            simp only at h
            obtain ⟨ih6, ih4⟩ := ih w6 w4 hs
            rcases addrFromSlice_cases hA with ⟨rfl, hl⟩ | ⟨rfl, hl⟩
            · simp only [netip.Addr.Is6, Bool.false_eq_true, if_false, Except.ok.injEq,
                Prod.mk.injEq] at h
              obtain ⟨rfl, rfl⟩ := h
              simp only [List.filter_cons, hskip, hl, Bool.not_false, Bool.true_and]
              simp [hcidr, ← ih6, ← ih4]
            · simp only [netip.Addr.Is6, if_true, Except.ok.injEq, Prod.mk.injEq] at h
              obtain ⟨rfl, rfl⟩ := h
              simp only [List.filter_cons, hskip, hl, Bool.not_false, Bool.true_and]
              simp [hcidr, ← ih6, ← ih4]

theorem prefixScan_ok (xs : List PrefixEntry) (pds : List String)
    (h : prefixScan xs = .ok pds) :
    pds = xs.map (fun q => cidr q.Prefix q.PrefixLength) := by
  induction xs generalizing pds with
  | nil =>
    simp only [prefixScan, Except.ok.injEq] at h
    subst h
    rfl
  | cons x rest ih =>
    rw [prefixScan] at h
    cases hA : netip.AddrFromSlice x.Prefix with
    | none => rw [hA] at h; simp at h
    | some addr =>
      rw [hA] at h
      simp only at h
      have hcidr : cidr x.Prefix x.PrefixLength
          = (netip.PrefixFrom addr x.PrefixLength).String := by
        unfold cidr
        rw [hA]
      by_cases hB : (netip.PrefixFrom addr x.PrefixLength).Bits = -1
      · rw [if_pos hB] at h
        simp at h
      · rw [if_neg hB] at h
        cases hs : prefixScan rest with
        | error e => rw [hs] at h; simp at h
        | ok p =>
          rw [hs] at h
          simp only [Except.ok.injEq] at h
          subst h
          simp [hcidr, ← ih p hs]

/-- C16. For a successfully decoded reply, IPV6_ADDRS is the space-join, without
repetitions and in order, of the CIDR forms of exactly those `Addresses` entries of
sixteen bytes that are not skipped, and IPV4_ADDRS likewise for the entries of four
bytes; an entry is skipped when its address is private-range or not global unicast.
PD_ADDRS is the space-join of the CIDR forms of all `Prefixes` entries, with no such
filtering.  Addresses in 10/8, 172.16/12, 192.168/16, fc00::/7, the unspecified,
loopback, multicast, link-local and IPv4 broadcast addresses are skipped, 203.0.113.5
and 2001:db8::1 are not, and a delegated prefix inside fc00::/7 does appear in
PD_ADDRS. -/
theorem C16_address_filter (v : LinkDescription) (ipv6 ipv4 pd : String)
    (hd : decodeLink v = some (.ok (ipv6, ipv4, pd))) :
    ipv6 = String.intercalate " " (firstSeen ((v.Addresses.filter
        (fun a => !skippedAddress a.Address && decide (a.Address.length = 16))).map
        (fun a => cidr a.Address a.PrefixLength))) ∧
    ipv4 = String.intercalate " " (firstSeen ((v.Addresses.filter
        (fun a => !skippedAddress a.Address && decide (a.Address.length = 4))).map
        (fun a => cidr a.Address a.PrefixLength))) ∧
    pd = String.intercalate " " (firstSeen (v.DHCPv6Client.Prefixes.map
        (fun q => cidr q.Prefix q.PrefixLength))) ∧
    (∀ b ∈ ([[10, 1, 2, 3], [172, 16, 0, 1], [172, 31, 255, 254], [192, 168, 1, 1],
             [0, 0, 0, 0], [127, 0, 0, 1], [224, 0, 0, 1], [169, 254, 1, 1],
             [255, 255, 255, 255],
             [0xfc, 0, 0, 0, 0, 0, 0, 0, 0, 0, 0, 0, 0, 0, 0, 1],
             [0xfd, 0x12, 0, 0, 0, 0, 0, 0, 0, 0, 0, 0, 0, 0, 0, 1],
             [0, 0, 0, 0, 0, 0, 0, 0, 0, 0, 0, 0, 0, 0, 0, 0],
             [0, 0, 0, 0, 0, 0, 0, 0, 0, 0, 0, 0, 0, 0, 0, 1],
             [0xff, 0x02, 0, 0, 0, 0, 0, 0, 0, 0, 0, 0, 0, 0, 0, 1],
             [0xfe, 0x80, 0, 0, 0, 0, 0, 0, 0, 0, 0, 0, 0, 0, 0, 1]] : List (List Byte)),
      skippedAddress b = true) ∧
    skippedAddress [203, 0, 113, 5] = false ∧ skippedAddress Sample.addr6 = false ∧
    decodeLink { Addresses := [{ Address := [0xfd, 0x12, 0, 0, 0, 0, 0, 0, 0, 0, 0, 0, 0, 0, 0, 1],
                                 PrefixLength := 64 }],
                 DHCPv6Client := { Prefixes :=
                   [{ Prefix := [0xfd, 0x12, 0, 0, 0, 0, 0, 0, 0, 0, 0, 0, 0, 0, 0, 0],
                      PrefixLength := 48 }] } }
      = some (.ok ("", "", "fd12::/48")) := by
  have hs := decodeScan_of_decodeLink hd
  unfold decodeScan at hs
  refine ⟨?_, ?_, ?_, by decide, by decide, by decide, by rfl⟩ <;>
  · cases ha : addressScan v.Addresses with
    | error e => rw [ha] at hs; simp at hs
    | ok p =>
      obtain ⟨v6, v4⟩ := p
      rw [ha] at hs
      simp only at hs
      cases hp : prefixScan v.DHCPv6Client.Prefixes with
      | error e => rw [hp] at hs; simp at hs
      | ok pds =>
        rw [hp] at hs
        simp only [Except.ok.injEq, Prod.mk.injEq] at hs
        obtain ⟨h6, h4, hpd⟩ := hs
        obtain ⟨e6, e4⟩ := addressScan_ok _ _ _ ha
        have epd := prefixScan_ok _ _ hp
        first
          | (rw [← h6, e6])
          | (rw [← h4, e4])
          | (rw [← hpd, epd])

/-- C16, at a reply with a global and a private address of each family. -/
theorem C16_address_filter_witness :
    decodeLink Sample.replyMixed
      = some (.ok ("2001:db8::1/64", "203.0.113.5/24", "2001:db8:1::/48")) ∧
    "203.0.113.5/24" = String.intercalate " " (firstSeen ((Sample.replyMixed.Addresses.filter
        (fun a => !skippedAddress a.Address && decide (a.Address.length = 4))).map
        (fun a => cidr a.Address a.PrefixLength))) :=
  ⟨by rfl, (C16_address_filter Sample.replyMixed _ _ _ (by rfl)).2.1⟩

theorem loadRaw_scripts (ifaces : Interfaces) (reply : Except String (List rawInterface)) :
    (loadRaw ifaces reply).1.scripts = ifaces.scripts ∧ (loadRaw ifaces reply).1.m = ifaces.m := by
  cases reply <;> exact ⟨rfl, rfl⟩

/-- C17, as stated, fails: for a path that is in the link cache neither before nor after
the refresh, `getByPath` returns an error, which `Listen` logs. -/
theorem C17_unresolved_path_is_an_error :
    GoMap.get Sample.registryNoCache.rawByPath Sample.wlan0.Path = none ∧
    GoMap.get (loadRaw Sample.registryNoCache (.ok [Sample.eth0])).1.rawByPath Sample.wlan0.Path
      = none ∧
    (getByPath Sample.registryNoCache (.ok [Sample.eth0]) Sample.wlan0.Path).2
      = (none, some (Error.notFound "/org/freedesktop/network1/link/_33")) ∧
    (handleSignal { Sample.worldV4 with listLinks := .ok [Sample.eth0] } Sample.registryNoCache
        { Sample.signalV4 with Path := Sample.wlan0.Path }).map (fun r => r.2)
      = some ([], some (Error.notFound "/org/freedesktop/network1/link/_33")) := by
  decide

/-- C17, amended. For a path under which no interface state is stored yet: when the path
is in the link cache neither before nor after one refresh of the whole cache,
`getByPath` returns no interface state and the error "unable to find interface with
path: <path>"; when the path resolves to a link that has no applicable scripts, the
registry index having an entry neither under the name of the link nor under the wildcard
name "", it returns no interface state and no error.  In both cases no entry is added to
the map of interface states.  A link for which only wildcard scripts are registered is
not covered. -/
theorem C17_getByPath_without_state (ifaces : Interfaces)
    (listLinks : Except String (List rawInterface)) (path : String)
    (hm : GoMap.get ifaces.m path = none) :
    (GoMap.get ifaces.rawByPath path = none →
      GoMap.get (loadRaw ifaces listLinks).1.rawByPath path = none →
      getByPath ifaces listLinks path
        = ((loadRaw ifaces listLinks).1, none, some (Error.notFound path))) ∧
    (∀ raw, GoMap.get ifaces.rawByPath path = some raw →
      GoMap.get ifaces.scripts raw.Name = none →
      GoMap.get ifaces.scripts "" = none →
      getByPath ifaces listLinks path = (ifaces, none, none)) ∧
    (∀ raw, GoMap.get ifaces.rawByPath path = none →
      GoMap.get (loadRaw ifaces listLinks).1.rawByPath path = some raw →
      GoMap.get ifaces.scripts raw.Name = none →
      GoMap.get ifaces.scripts "" = none →
      getByPath ifaces listLinks path = ((loadRaw ifaces listLinks).1, none, none)) ∧
    (loadRaw ifaces listLinks).1.m = ifaces.m := by
  refine ⟨?_, ?_, ?_, (loadRaw_scripts ifaces listLinks).2⟩
  · intro h1 h2
    unfold getByPath
    simp only [hm, h1, h2]
  · intro raw h1 h2 _
    unfold getByPath
    simp only [hm, h1, h2]
  · intro raw h1 h2 h3 _
    unfold getByPath
    simp only [hm, h1, h2, (loadRaw_scripts ifaces listLinks).1, h3]

/-- C17 amended, at a path that the refreshed cache does not hold, and at the path of a
link `wlan0` that the refreshed cache holds while scripts are registered for `eth0`
only. -/
theorem C17_getByPath_without_state_witness :
    GoMap.get Sample.registryNoCache.m Sample.wlan0.Path = none ∧
    getByPath Sample.registryNoCache (.ok [Sample.eth0]) Sample.wlan0.Path
      = ((loadRaw Sample.registryNoCache (.ok [Sample.eth0])).1, none,
          some (Error.notFound Sample.wlan0.Path)) ∧
    getByPath Sample.registryNoCache (.ok [Sample.eth0, Sample.wlan0]) Sample.wlan0.Path
      = ((loadRaw Sample.registryNoCache (.ok [Sample.eth0, Sample.wlan0])).1, none, none) :=
  ⟨by decide,
    (C17_getByPath_without_state Sample.registryNoCache (.ok [Sample.eth0])
      Sample.wlan0.Path (by decide)).1 (by decide) (by decide),
    (C17_getByPath_without_state Sample.registryNoCache (.ok [Sample.eth0, Sample.wlan0])
      Sample.wlan0.Path (by decide)).2.2.1 Sample.wlan0 (by decide) (by decide) (by decide)
      (by decide)⟩

/-- The entries of one launched command are those of the steps for its path. -/
theorem mem_env_iff (run : Cmd → Option String) (evs : List (String × List String))
    {c : Cmd} (hc : c ∈ (dispatch run (accumulate evs [])).1) (x : String) :
    x ∈ c.Env ↔ ∃ ev ∈ evs, ev.1 = c.Path ∧ x ∈ ev.2 := by
  obtain ⟨_, _, henv⟩ := (mem_launched_iff run evs c).1 hc
  rw [henv]
  simp only [List.mem_flatten, List.mem_map, List.mem_filter, decide_eq_true_eq]
  constructor
  · rintro ⟨l, ⟨ev, ⟨hev, hp⟩, rfl⟩, hx⟩
    exact ⟨ev, hev, hp, hx⟩
  · rintro ⟨ev, hev, hp, hx⟩
    exact ⟨ev.2, ⟨ev, ⟨hev, hp⟩, rfl⟩, hx⟩

theorem key_of_mem_categories {ipv6 ipv4 pd k s : String}
    (h : (k, s) ∈ [(keyIPv6, ipv6), (keyIPv4, ipv4), (keyPD, pd)]) :
    k = keyIPv6 ∨ k = keyIPv4 ∨ k = keyPD := by
  simp only [List.mem_cons, List.mem_singleton, Prod.mk.injEq, List.not_mem_nil, or_false] at h
  rcases h with ⟨h, _⟩ | ⟨h, _⟩ | ⟨h, _⟩
  · exact Or.inl h
  · exact Or.inr (Or.inl h)
  · exact Or.inr (Or.inr h)

theorem exists_category (ipv6 ipv4 pd : String) {k : String}
    (h : k = keyIPv6 ∨ k = keyIPv4 ∨ k = keyPD) :
    ∃ s, (k, s) ∈ [(keyIPv6, ipv6), (keyIPv4, ipv4), (keyPD, pd)] := by
  rcases h with rfl | rfl | rfl
  · exact ⟨ipv6, by simp⟩
  · exact ⟨ipv4, by simp⟩
  · exact ⟨pd, by simp⟩

/-- C19. After every successful pass the properties map holds the three keys
IPV6_ADDRS, IPV4_ADDRS and PD_ADDRS, each with the canonical string computed from the
reply (the empty string for a reply without entries).  Hence a successful pass on a
fresh interface state runs every applicable script that watches a category, with the
entry `k=s` of each category it watches and nothing else, in particular no `OLD_`
entry; and in any later successful pass every command that gets the entry `k=...` of
a changed category also gets `OLD_k=<stored>`, the stored string possibly being
empty.  (Every script of the applicable list has a configuration.) -/
theorem C19_all_keys_stored (run : Cmd → Option String) (iface : Interface)
    (v : LinkDescription) (ipv6 ipv4 pd : String)
    (hc : ∀ sc ∈ iface.scripts, sc.Config ≠ none)
    (hd : decodeLink v = some (.ok (ipv6, ipv4, pd))) :
    ∃ p, runScriptsIfChanged run iface (.ok v) = some p ∧ p.err = none ∧
      (∀ k s, (k, s) ∈ [(keyIPv6, ipv6), (keyIPv4, ipv4), (keyPD, pd)] →
        GoMap.get p.iface.properties k = some s) ∧
      decodeLink Sample.replyEmpty = some (.ok ("", "", "")) ∧
      (iface.properties = [] →
        (∀ sc ∈ iface.scripts, ∀ k s, (k, s) ∈ [(keyIPv6, ipv6), (keyIPv4, ipv4), (keyPD, pd)] →
          watches sc k = true → ∃ c ∈ p.launched, c.Path = sc.Path ∧ (k ++ "=" ++ s) ∈ c.Env) ∧
        (∀ c ∈ p.launched, ∀ x ∈ c.Env,
          ∃ k s, (k, s) ∈ [(keyIPv6, ipv6), (keyIPv4, ipv4), (keyPD, pd)] ∧ x = k ++ "=" ++ s ∧
            ∃ sc ∈ iface.scripts, sc.Path = c.Path ∧ watches sc k = true) ∧
        (∀ c ∈ p.launched, ∀ k old, (k = keyIPv6 ∨ k = keyIPv4 ∨ k = keyPD) →
          ("OLD_" ++ k ++ "=" ++ old) ∉ c.Env)) ∧
      (∀ (run2 : Cmd → Option String) (v2 : LinkDescription) (ipv6b ipv4b pdb : String),
        decodeLink v2 = some (.ok (ipv6b, ipv4b, pdb)) →
        ∃ p2, runScriptsIfChanged run2 p.iface (.ok v2) = some p2 ∧ p2.err = none ∧
          ∀ c ∈ p2.launched, ∀ k s2,
            (k, s2) ∈ [(keyIPv6, ipv6b), (keyIPv4, ipv4b), (keyPD, pdb)] →
            (k ++ "=" ++ s2) ∈ c.Env →
            ∃ s1, (k, s1) ∈ [(keyIPv6, ipv6), (keyIPv4, ipv4), (keyPD, pd)] ∧
              ("OLD_" ++ k ++ "=" ++ s1) ∈ c.Env) := by
  have hrun := run_ok run iface v ipv6 ipv4 pd hc (decodeScan_of_decodeLink hd)
  refine ⟨_, hrun, rfl, fun k s hk => get_passProperties _ _ _ _ k s hk, by rfl, ?_, ?_⟩
  · intro hfresh
    have hnone : ∀ k, GoMap.get iface.properties k = none := by
      intro k; rw [hfresh]; rfl
    refine ⟨?_, ?_, ?_⟩
    · intro sc hsc k s hk hw
      simp only
      rw [launched_entry_iff]
      refine ⟨(sc.Path, envEntries k (GoMap.get iface.properties k) s), ?_, rfl,
        (mem_envEntries _ _ _ _).2 (Or.inr rfl)⟩
      exact (mem_passEvents _ _ _ _ _).2 ⟨k, s, hk, by rw [hnone]; simp, sc, hsc, hw, rfl⟩
    · intro c hcl x hx
      simp only at hcl
      obtain ⟨ev, hev, hp, hx2⟩ := (mem_env_iff run _ hcl x).1 hx
      obtain ⟨key, new, hmem, _, sc, hsc, hw, rfl⟩ := (mem_passEvents _ _ _ _ _).1 hev
      rw [hnone] at hx2
      simp only at hx2
      rcases (mem_envEntries _ _ _ _).1 hx2 with ⟨o, ho, _⟩ | hx3
      · cases ho
      · exact ⟨key, new, hmem, hx3, sc, hsc, hp, hw⟩
    · intro c hcl k old hk hx
      simp only at hcl
      obtain ⟨ev, hev, hp, hx2⟩ := (mem_env_iff run _ hcl _).1 hx
      obtain ⟨key, new, hmem, _, sc, hsc, hw, rfl⟩ := (mem_passEvents _ _ _ _ _).1 hev
      rw [hnone] at hx2
      simp only at hx2
      rcases (mem_envEntries _ _ _ _).1 hx2 with ⟨o, ho, _⟩ | hx3
      · cases ho
      · exact entry_ne_old (key_of_mem_categories hmem) hk hx3.symm
  · intro run2 v2 ipv6b ipv4b pdb hd2
    have hrun2 := run_ok run2
      { iface with properties := passProperties iface.properties ipv6 ipv4 pd } v2 ipv6b ipv4b pdb
      hc (decodeScan_of_decodeLink hd2)
    refine ⟨_, hrun2, rfl, ?_⟩
    intro c hcl k s2 hk hx
    simp only at hcl
    obtain ⟨ev, hev, hp, hx2⟩ := (mem_env_iff run2 _ hcl _).1 hx
    obtain ⟨key, new, hmem, _, sc, hsc, hw, rfl⟩ := (mem_passEvents _ _ _ _ _).1 hev
    have hkey := key_of_mem_categories hk
    rcases (mem_envEntries _ _ _ _).1 hx2 with ⟨o, _, ho⟩ | hx3
    · exact absurd ho (entry_ne_old hkey (key_of_mem_categories hmem))
    · obtain ⟨rfl, rfl⟩ := entry_eq_entry hkey (key_of_mem_categories hmem) hx3
      obtain ⟨s1, hs1⟩ := exists_category ipv6 ipv4 pd hkey
      refine ⟨s1, hs1, ?_⟩
      rw [mem_env_iff run2 _ hcl]
      refine ⟨_, hev, hp, ?_⟩
      simp only
      rw [get_passProperties _ _ _ _ k s1 hs1]
      exact (mem_envEntries _ _ _ _).2 (Or.inl ⟨s1, rfl, rfl⟩)

/-- C19, at a fresh interface state and a reply without entries. -/
theorem C19_all_keys_stored_witness :
    (∀ sc ∈ (Sample.fresh [Sample.scriptC]).scripts, sc.Config ≠ none) ∧
    decodeLink Sample.replyEmpty = some (.ok ("", "", "")) ∧
    ∃ p, runScriptsIfChanged Sample.allSucceed (Sample.fresh [Sample.scriptC])
        (.ok Sample.replyEmpty) = some p ∧
      GoMap.get p.iface.properties keyIPv6 = some "" ∧
      GoMap.get p.iface.properties keyIPv4 = some "" ∧
      GoMap.get p.iface.properties keyPD = some "" := by
  refine ⟨by decide, by rfl, ?_⟩
  obtain ⟨p, h1, _, h3, _⟩ := C19_all_keys_stored Sample.allSucceed
    (Sample.fresh [Sample.scriptC]) Sample.replyEmpty "" "" "" (by decide) (by rfl)
  exact ⟨p, h1, h3 _ _ (by simp), h3 _ _ (by simp), h3 _ _ (by simp)⟩

theorem filter_categoryEvents_count (key new : String) (scripts : List script)
    (properties : GoMap String String) (q : String) :
    ((categoryEvents key new scripts properties).filter
        (fun ev => decide (ev.1 = q))).map Prod.snd
      = if GoMap.get properties key = some new then []
        else List.replicate
          (scripts.filter (fun sc => watches sc key && decide (sc.Path = q))).length
          (envEntries key (GoMap.get properties key) new) := by
  unfold categoryEvents
  by_cases h : GoMap.get properties key = some new
  · simp [h]
  · simp only [h, if_false]
    rw [List.filter_map, List.map_map, List.filter_filter]
    have hfun : (Prod.snd ∘ fun sc : script =>
        (sc.Path, envEntries key (GoMap.get properties key) new))
        = fun _ => envEntries key (GoMap.get properties key) new := rfl
    rw [hfun, List.map_const']
    congr 2
    apply List.filter_congr
    intro sc _
    simp [Bool.and_comm]

/-- C20. The paths run in one pass on a successfully decoded reply are pairwise
distinct, also when a script occurs several times in the applicable list: such a
script is run once, and its environment holds, for each changed category in the order
IPV6_ADDRS, IPV4_ADDRS, PD_ADDRS, the entries of the category once for every occurrence
in the list of a script of that path that watches the category.  (Every script of the
applicable list has a configuration.) -/
theorem C20_one_launch_per_path (run : Cmd → Option String) (iface : Interface)
    (v : LinkDescription) (ipv6 ipv4 pd : String)
    (hc : ∀ sc ∈ iface.scripts, sc.Config ≠ none)
    (hd : decodeLink v = some (.ok (ipv6, ipv4, pd))) :
    ∃ p, runScriptsIfChanged run iface (.ok v) = some p ∧ p.err = none ∧
      (p.launched.map Cmd.Path).Nodup ∧
      ∀ c ∈ p.launched,
        c.Env = ([(keyIPv6, ipv6), (keyIPv4, ipv4), (keyPD, pd)].map (fun ks =>
          if GoMap.get iface.properties ks.1 = some ks.2 then []
          else (List.replicate
            (iface.scripts.filter
              (fun sc => watches sc ks.1 && decide (sc.Path = c.Path))).length
            (envEntries ks.1 (GoMap.get iface.properties ks.1) ks.2)).flatten)).flatten := by
  have hrun := run_ok run iface v ipv6 ipv4 pd hc (decodeScan_of_decodeLink hd)
  refine ⟨_, hrun, rfl, ?_, ?_⟩
  · simp only
    rw [launched_paths]
    exact firstSeen_nodup _
  · intro c hcl
    simp only at hcl
    obtain ⟨_, _, henv⟩ := (mem_launched_iff run _ c).1 hcl
    rw [henv]
    unfold passEvents
    simp only [List.filter_append, List.map_append, List.flatten_append,
      filter_categoryEvents_count, List.map_cons, List.map_nil, List.flatten_cons,
      List.flatten_nil, List.append_nil]
    split_ifs <;> simp

/-- C20, at a script whose configuration lists `eth0` and the wildcard: `getByPath` puts
it twice into the applicable list, and the pass runs it once with the entry twice. -/
theorem C20_one_launch_per_path_witness :
    (getByPath { rawByPath := [], rawByName := [], m := [],
                 scripts := [("eth0", [Sample.descriptorA]), ("", [Sample.descriptorA])] }
        (.ok [Sample.eth0]) Sample.eth0.Path).2.1
      = some (Sample.fresh [Sample.descriptorA, Sample.descriptorA]) ∧
    (∀ sc ∈ (Sample.fresh [Sample.descriptorA, Sample.descriptorA]).scripts, sc.Config ≠ none) ∧
    decodeLink Sample.replyV4 = some (.ok ("", "203.0.113.5/24", "")) ∧
    ∃ p, runScriptsIfChanged Sample.allSucceed
        (Sample.fresh [Sample.descriptorA, Sample.descriptorA]) (.ok Sample.replyV4) = some p ∧
      p.launched = [{ Path := "/etc/ipmon/a", Args := ["/etc/ipmon/a"],
                      Env := ["IPV4_ADDRS=203.0.113.5/24", "IPV4_ADDRS=203.0.113.5/24"] }] := by
  refine ⟨by decide, by decide, by rfl, ?_⟩
  obtain ⟨p, h1, _, _, _⟩ := C20_one_launch_per_path Sample.allSucceed
    (Sample.fresh [Sample.descriptorA, Sample.descriptorA]) Sample.replyV4 "" "203.0.113.5/24" ""
    (by decide) (by rfl)
  have h2 : runScriptsIfChanged Sample.allSucceed
      (Sample.fresh [Sample.descriptorA, Sample.descriptorA]) (.ok Sample.replyV4)
      = some { iface := { raw := Sample.eth0,
                          properties := [("IPV6_ADDRS", ""), ("IPV4_ADDRS", "203.0.113.5/24"),
                            ("PD_ADDRS", "")],
                          scripts := [Sample.descriptorA, Sample.descriptorA] },
               launched := [{ Path := "/etc/ipmon/a", Args := ["/etc/ipmon/a"],
                              Env := ["IPV4_ADDRS=203.0.113.5/24",
                                      "IPV4_ADDRS=203.0.113.5/24"] }],
               failed := [], err := none } := by decide
  rw [h2] at h1
  cases h1
  exact ⟨_, h2, rfl⟩

/-- The steps of a pass when the applicable list is one script that watches
IPV4_ADDRS only. -/
theorem passEvents_single_v4 (iface : Interface) (sc : script) (interfaces : List String)
    (hs : iface.scripts = [sc])
    (hcfg : sc.Config = some { Interfaces := interfaces, Properties := { m := ["IPV4_ADDRS"] } })
    (ipv6 ipv4 pd : String) :
    passEvents iface ipv6 ipv4 pd
      = if GoMap.get iface.properties keyIPv4 = some ipv4 then []
        else [(sc.Path, envEntries keyIPv4 (GoMap.get iface.properties keyIPv4) ipv4)] := by
  have h6 : watches sc keyIPv6 = false := by
    unfold watches; rw [hcfg]; rfl
  have h4 : watches sc keyIPv4 = true := by
    unfold watches; rw [hcfg]; rfl
  have hp : watches sc keyPD = false := by
    unfold watches; rw [hcfg]; rfl
  unfold passEvents categoryEvents
  rw [hs]
  simp only [List.filter_cons, List.filter_nil, h6, h4, hp, Bool.false_eq_true, if_false, if_true,
    List.map_nil, List.map_cons, ite_self, List.nil_append, List.append_nil]

/-- The pass on an interface state whose applicable list is one script that watches
IPV4_ADDRS only. -/
theorem run_single_v4 (run : Cmd → Option String) (iface : Interface) (sc : script)
    (interfaces : List String) (hs : iface.scripts = [sc])
    (hcfg : sc.Config = some { Interfaces := interfaces, Properties := { m := ["IPV4_ADDRS"] } })
    (v : LinkDescription) (ipv6 ipv4 pd : String)
    (hd : decodeScan v = .ok (ipv6, ipv4, pd))
    (hch : GoMap.get iface.properties keyIPv4 ≠ some ipv4) :
    ∃ p, runScriptsIfChanged run iface (.ok v) = some p ∧ p.err = none ∧
      p.iface = { iface with properties := passProperties iface.properties ipv6 ipv4 pd } ∧
      p.launched = [{ Path := sc.Path, Args := [sc.Path],
                      Env := envEntries keyIPv4 (GoMap.get iface.properties keyIPv4) ipv4 }] := by
  have hc : ∀ s ∈ iface.scripts, s.Config ≠ none := by
    intro s hmem
    rw [hs, List.mem_singleton] at hmem
    subst hmem
    rw [hcfg]
    simp
  refine ⟨_, run_ok run iface v ipv6 ipv4 pd hc hd, rfl, rfl, ?_⟩
  simp only
  rw [dispatch_fst, passEvents_single_v4 iface sc interfaces hs hcfg, if_neg hch]
  rfl

/-- C11, as stated, fails: after the startup pass on a reply without addresses has
run, the pass triggered by the notification runs the script once with the environment
OLD_IPV4_ADDRS= (an empty old value) followed by IPV4_ADDRS=203.0.113.5/24. -/
theorem C11_old_entry_is_present :
    Listen Sample.worldNoAddress Sample.registryEth0 [(Sample.worldV4, Sample.signalV4)]
      = some ({ rawByPath := [(Sample.eth0.Path, Sample.eth0)],
                rawByName := [("eth0", Sample.eth0)],
                m := [(Sample.eth0.Path,
                       { raw := Sample.eth0,
                         properties := [("IPV6_ADDRS", ""), ("IPV4_ADDRS", "203.0.113.5/24"),
                           ("PD_ADDRS", "")],
                         scripts := [Sample.scriptC] })],
                scripts := [("eth0", [Sample.scriptC])] },
              [{ Path := "/etc/ipmon/c", Args := ["/etc/ipmon/c"], Env := ["IPV4_ADDRS="] },
               { Path := "/etc/ipmon/c", Args := ["/etc/ipmon/c"],
                 Env := ["OLD_IPV4_ADDRS=", "IPV4_ADDRS=203.0.113.5/24"] }],
              [], none) ∧
    "OLD_IPV4_ADDRS=" ∈ ["OLD_IPV4_ADDRS=", "IPV4_ADDRS=203.0.113.5/24"] := by
  decide

theorem ipChanged_eq_true {pc : propertiesChanged}
    (hi : pc.Interface = "org.freedesktop.network1.Link")
    (hc : ∃ v, ("IPv4AddressState", v) ∈ pc.Changes ∨ ("IPv6AddressState", v) ∈ pc.Changes) :
    ipChanged pc = (true, none) := by
  apply Prod.ext
  · exact (ipChanged_true_iff pc).2 (Or.inl ⟨hi, hc⟩)
  · exact ipChanged_snd pc

/-- C11, amended. With one script watching IPV4_ADDRS on "eth0": the startup pass, on a
reply without addresses, runs the script with IPV4_ADDRS= and stores the empty string;
when a notification that `IPv4AddressState` changed then arrives while `DescribeLink`
reports 203.0.113.5/24, the pass it triggers runs the script exactly once, with the
environment OLD_IPV4_ADDRS= (the stored empty string) followed by
IPV4_ADDRS=203.0.113.5/24.  Nothing is logged and `Listen` returns no error. -/
theorem C11_end_to_end (sc : script) (raw : rawInterface) (w0 w1 : World)
    (changes : GoMap String Variant) (invalidated : List String)
    (hcfg : sc.Config = some { Interfaces := ["eth0"], Properties := { m := ["IPV4_ADDRS"] } })
    (hname : raw.Name = "eth0")
    (h0a : w0.addMatchSignal = none) (h0l : w0.listLinks = .ok [raw])
    (h0d : w0.describeLink raw.Index = .ok { Addresses := [], DHCPv6Client := { Prefixes := [] } })
    (h1d : w1.describeLink raw.Index
      = .ok { Addresses := [{ Address := [203, 0, 113, 5], PrefixLength := 24 }],
              DHCPv6Client := { Prefixes := [] } })
    (hchg : ∃ val, ("IPv4AddressState", val) ∈ changes) :
    Listen w0 { rawByPath := [], rawByName := [], m := [], scripts := [("eth0", [sc])] }
        [(w1, { Path := raw.Path,
                Body := [BodyValue.string "org.freedesktop.network1.Link",
                         BodyValue.variantMap changes, BodyValue.stringSlice invalidated] })]
      = some ({ rawByPath := [(raw.Path, raw)], rawByName := [("eth0", raw)],
                m := [(raw.Path,
                       { raw := raw,
                         properties := [("IPV6_ADDRS", ""), ("IPV4_ADDRS", "203.0.113.5/24"),
                           ("PD_ADDRS", "")],
                         scripts := [sc] })],
                scripts := [("eth0", [sc])] },
              [{ Path := sc.Path, Args := [sc.Path], Env := ["IPV4_ADDRS="] },
               { Path := sc.Path, Args := [sc.Path],
                 Env := ["OLD_IPV4_ADDRS=", "IPV4_ADDRS=203.0.113.5/24"] }],
              [], none) := by
  -- the startup pass
  obtain ⟨p0, hp0, he0, hi0, hl0⟩ := run_single_v4 w0.run
    { raw := raw, properties := [], scripts := [sc] } sc ["eth0"] rfl hcfg
    { Addresses := [], DHCPv6Client := { Prefixes := [] } } "" "" "" (by rfl)
    (by simp [GoMap.get])
  have hstart : listenStart w0
      { rawByPath := [], rawByName := [], m := [], scripts := [("eth0", [sc])] }
      = some ({ rawByPath := [(raw.Path, raw)], rawByName := [("eth0", raw)],
                m := [(raw.Path,
                       { raw := raw,
                         properties := [("IPV6_ADDRS", ""), ("IPV4_ADDRS", ""), ("PD_ADDRS", "")],
                         scripts := [sc] })],
                scripts := [("eth0", [sc])] },
              [{ Path := sc.Path, Args := [sc.Path], Env := ["IPV4_ADDRS="] }], none) := by
    unfold listenStart
    simp only [h0a, h0l, loadRaw, List.foldl_cons, List.foldl_nil, GoMap.set, GoMap.keys,
      List.map_cons, List.map_nil, hname]
    have hne : ¬ ("eth0" : String) = "" := by decide
    have hget : getByPath
        { rawByPath := [(raw.Path, raw)], rawByName := [("eth0", raw)], m := [],
          scripts := [("eth0", [sc])] } (.ok [raw]) raw.Path
        = ({ rawByPath := [(raw.Path, raw)], rawByName := [("eth0", raw)],
             m := [(raw.Path, { raw := raw, properties := [], scripts := [sc] })],
             scripts := [("eth0", [sc])] },
           some { raw := raw, properties := [], scripts := [sc] }, none) := by
      unfold getByPath
      have hm : GoMap.get ([] : GoMap String Interface) raw.Path = none := rfl
      have hn : GoMap.get ([] : GoMap String (List script)) "" = none := rfl
      simp only [hm, GoMap.get_cons, if_true, hname, hne, if_false, hn, GoMap.set]
    unfold startupLoop
    simp only [GoMap.get_cons, if_true, h0l, hget]
    unfold reevaluate
    simp only [h0d, hp0, he0, hi0, hl0, startupLoop, GoMap.set, List.append_nil]
    rfl
  -- the pass triggered by the notification
  obtain ⟨p1, hp1, he1, hi1, hl1⟩ := run_single_v4 w1.run
    { raw := raw,
      properties := [("IPV6_ADDRS", ""), ("IPV4_ADDRS", ""), ("PD_ADDRS", "")],
      scripts := [sc] } sc ["eth0"] rfl hcfg
    { Addresses := [{ Address := [203, 0, 113, 5], PrefixLength := 24 }],
      DHCPv6Client := { Prefixes := [] } } "" "203.0.113.5/24" "" (by rfl)
    (by show (some "" : Option String) ≠ some "203.0.113.5/24"; decide)
  obtain ⟨val, hval⟩ := hchg
  have hip : ipChanged (propertiesChanged.mk "org.freedesktop.network1.Link" changes invalidated)
      = (true, none) :=
    ipChanged_eq_true rfl ⟨val, Or.inl hval⟩
  have hsig : handleSignal w1
      { rawByPath := [(raw.Path, raw)], rawByName := [("eth0", raw)],
        m := [(raw.Path,
               { raw := raw,
                 properties := [("IPV6_ADDRS", ""), ("IPV4_ADDRS", ""), ("PD_ADDRS", "")],
                 scripts := [sc] })],
        scripts := [("eth0", [sc])] }
      { Path := raw.Path,
        Body := [BodyValue.string "org.freedesktop.network1.Link",
                 BodyValue.variantMap changes, BodyValue.stringSlice invalidated] }
      = some ({ rawByPath := [(raw.Path, raw)], rawByName := [("eth0", raw)],
                m := [(raw.Path,
                       { raw := raw,
                         properties := [("IPV6_ADDRS", ""), ("IPV4_ADDRS", "203.0.113.5/24"),
                           ("PD_ADDRS", "")],
                         scripts := [sc] })],
                scripts := [("eth0", [sc])] },
              [{ Path := sc.Path, Args := [sc.Path],
                 Env := ["OLD_IPV4_ADDRS=", "IPV4_ADDRS=203.0.113.5/24"] }], none) := by
    unfold handleSignal
    have hparse : parsePropertiesChanged [BodyValue.string "org.freedesktop.network1.Link",
        BodyValue.variantMap changes, BodyValue.stringSlice invalidated]
        = (propertiesChanged.mk "org.freedesktop.network1.Link" changes invalidated, none) := rfl
    have hget : getByPath
        { rawByPath := [(raw.Path, raw)], rawByName := [("eth0", raw)],
          m := [(raw.Path,
                 { raw := raw,
                   properties := [("IPV6_ADDRS", ""), ("IPV4_ADDRS", ""), ("PD_ADDRS", "")],
                   scripts := [sc] })],
          scripts := [("eth0", [sc])] } w1.listLinks raw.Path
        = ({ rawByPath := [(raw.Path, raw)], rawByName := [("eth0", raw)],
             m := [(raw.Path,
                    { raw := raw,
                      properties := [("IPV6_ADDRS", ""), ("IPV4_ADDRS", ""), ("PD_ADDRS", "")],
                      scripts := [sc] })],
             scripts := [("eth0", [sc])] },
           some { raw := raw,
                  properties := [("IPV6_ADDRS", ""), ("IPV4_ADDRS", ""), ("PD_ADDRS", "")],
                  scripts := [sc] }, none) := by
      unfold getByPath
      simp only [GoMap.get_cons, if_true]
    simp only [hparse, hip, hget]
    unfold reevaluate
    simp only [h1d, hp1, he1, hi1, hl1, GoMap.set, if_true]
    rfl
  unfold Listen
  simp only [hstart, signalLoop, hsig, List.append_nil, List.nil_append]
  rfl

/-- C11 amended, at the sample script and worlds. -/
theorem C11_end_to_end_witness :
    ∃ ifaces, Listen Sample.worldNoAddress Sample.registryEth0
        [(Sample.worldV4, Sample.signalV4)]
      = some (ifaces,
              [{ Path := "/etc/ipmon/c", Args := ["/etc/ipmon/c"], Env := ["IPV4_ADDRS="] },
               { Path := "/etc/ipmon/c", Args := ["/etc/ipmon/c"],
                 Env := ["OLD_IPV4_ADDRS=", "IPV4_ADDRS=203.0.113.5/24"] }],
              [], none) :=
  ⟨_, C11_end_to_end Sample.scriptC Sample.eth0 Sample.worldNoAddress Sample.worldV4
    [("IPv4AddressState", { value := Any.str "routable" })] [] rfl rfl rfl rfl rfl rfl
    ⟨_, List.mem_singleton.2 rfl⟩⟩

/-- C14 fails on the code.  `LoadInterfaces` tests `scripts.Len() == 0` on the map of
half descriptors, before the halves are paired: a directory holding only an executable
without configuration, only a configuration without executable, or only a pair with an
empty interface list yields a registry without any association and no error.  Only a
directory without any executable and any valid configuration makes it fail. -/
theorem C14_empty_registry_without_error :
    LoadInterfaces "/etc/ipmon" (.ok [Sample.executable "a"])
      = some (.ok { rawByPath := [], rawByName := [], m := [], scripts := [] }) ∧
    LoadInterfaces "/etc/ipmon" (.ok [Sample.configuration "a.json" ["eth0"] ["IPV4_ADDRS"]])
      = some (.ok { rawByPath := [], rawByName := [], m := [], scripts := [] }) ∧
    LoadInterfaces "/etc/ipmon"
        (.ok [Sample.executable "a", Sample.configuration "a.json" [] ["IPV4_ADDRS"]])
      = some (.ok { rawByPath := [], rawByName := [], m := [], scripts := [] }) ∧
    LoadInterfaces "/etc/ipmon" (.ok []) = some (.error Error.noInterface) := by
  refine ⟨by rfl, by rfl, by rfl, by rfl⟩

theorem GoMap.mem_set {K V : Type} [DecidableEq K] {m : GoMap K V} {k : K} {v : V} {x : K × V}
    (h : x ∈ GoMap.set m k v) : x = (k, v) ∨ x ∈ m := by
  induction m with
  | nil =>
    simp only [GoMap.set, List.mem_singleton] at h
    exact Or.inl h
  | cons p rest ih =>
    obtain ⟨k1, v1⟩ := p
    by_cases hk : k1 = k
    · simp only [GoMap.set, hk, if_true, List.mem_cons] at h
      rcases h with h | h
      · exact Or.inl h
      · exact Or.inr (List.mem_cons_of_mem _ h)
    · simp only [GoMap.set, hk, if_false, List.mem_cons] at h
      rcases h with h | h
      · exact Or.inr (h ▸ List.mem_cons_self _ _)
      · rcases ih h with h2 | h2
        · exact Or.inl h2
        · exact Or.inr (List.mem_cons_of_mem _ h2)

/-- The first loop of `LoadInterfaces` never panics on a well-formed map, and every
configuration it stores watches something and names the three keys only. -/
theorem scanLoop_rep (dir : String) (files : List DirEntry) :
    ∀ {scripts : ordered.Map String script} {l : List (String × script)}, Rep scripts l →
      (∀ kv ∈ l, ∀ c, kv.2.Config = some c → c.Properties.Len ≠ 0 ∧ validProperties c = true) →
      ∃ r, scanLoop dir files scripts = some r ∧
        ∀ scripts1, r = .ok scripts1 →
          ∃ l1, Rep scripts1 l1 ∧
            ∀ kv ∈ l1, ∀ c, kv.2.Config = some c →
              c.Properties.Len ≠ 0 ∧ validProperties c = true := by
  induction files with
  | nil =>
    intro scripts l hr hinv
    exact ⟨_, rfl, fun s hs => by cases hs; exact ⟨l, hr, hinv⟩⟩
  | cons file rest ih =>
    intro scripts l hr hinv
    unfold scanLoop
    cases hstat : file.Stat with
    | error e => exact ⟨_, rfl, fun s hs => by cases hs⟩
    | ok info =>
      simp only
      cases hreg : info.IsRegular with
      | false =>
        simp only [Bool.not_false, if_true]
        exact ih hr hinv
      | true =>
        simp only [Bool.not_true, Bool.false_eq_true, if_false]
        by_cases hx : info.Mode &&& 0o100 ≠ 0
        · rw [if_pos hx, rep_Get hr]
          simp only
          obtain ⟨s1, h1, hr1⟩ := rep_Set hr (joinPath dir file.Name)
            { (GoMap.get l (joinPath dir file.Name)).getD default with
              Path := joinPath dir file.Name }
          rw [h1]
          simp only
          apply ih hr1
          intro kv hkv c hc
          rcases GoMap.mem_set hkv with rfl | hmem
          · simp only at hc
            cases hg : GoMap.get l (joinPath dir file.Name) with
            | none =>
              rw [hg] at hc
              cases hc
            | some sc0 =>
              rw [hg] at hc
              exact hinv _ (GoMap.mem_of_get hg) c hc
          · exact hinv kv hmem c hc
        · rw [if_neg hx]
          cases hext : hasJsonExt file.Name with
          | false =>
            simp only [Bool.not_false, if_true]
            exact ih hr hinv
          | true =>
            simp only [Bool.not_true, Bool.false_eq_true, if_false]
            cases hjson : file.Json with
            | error e => exact ⟨_, rfl, fun s hs => by cases hs⟩
            | ok doc =>
              simp only
              by_cases hlen : (decodeConfig doc).Properties.Len = 0
              · rw [if_pos hlen]
                exact ih hr hinv
              · rw [if_neg hlen]
                cases hvalid : validProperties (decodeConfig doc) with
                | false =>
                  simp only [Bool.not_false, if_true]
                  exact ih hr hinv
                | true =>
                  simp only [Bool.not_true, Bool.false_eq_true, if_false]
                  rw [rep_Get hr]
                  simp only
                  obtain ⟨s1, h1, hr1⟩ := rep_Set hr (trimJson (joinPath dir file.Name))
                    { (GoMap.get l (trimJson (joinPath dir file.Name))).getD default with
                      Config := some (decodeConfig doc) }
                  rw [h1]
                  simp only
                  apply ih hr1
                  intro kv hkv c hc
                  rcases GoMap.mem_set hkv with rfl | hmem
                  · simp only [Option.some.injEq] at hc
                    subst hc
                    exact ⟨hlen, hvalid⟩
                  · exact hinv kv hmem c hc

theorem registerScript_inv (P : String → script → Prop) (sc : script) (names : List String)
    (hsc : ∀ n ∈ names, P n sc) :
    ∀ index : GoMap String (List script),
      (∀ kv ∈ index, ∀ s ∈ kv.2, P kv.1 s) →
      ∀ kv ∈ registerScript sc names index, ∀ s ∈ kv.2, P kv.1 s := by
  induction names with
  | nil =>
    intro index hinv
    exact hinv
  | cons n rest ih =>
    intro index hinv
    unfold registerScript
    apply ih (fun m hm => hsc m (List.mem_cons_of_mem _ hm))
    intro kv hkv s hs
    rcases GoMap.mem_set hkv with rfl | hmem
    · simp only [List.mem_append, List.mem_singleton] at hs
      rcases hs with hs | rfl
      · cases hg : GoMap.get index n with
        | none => rw [hg] at hs; simp at hs
        | some old =>
          rw [hg] at hs
          exact hinv _ (GoMap.mem_of_get hg) s hs
      · exact hsc n (List.mem_cons_self _ _)
    · exact hinv kv hmem s hs

theorem registerLoop_inv (all : List (String × script))
    (hall : ∀ kv ∈ all, ∀ c, kv.2.Config = some c →
      c.Properties.Len ≠ 0 ∧ validProperties c = true) :
    ∀ index : GoMap String (List script),
      (∀ kv ∈ index, ∀ s ∈ kv.2, s.Path ≠ "" ∧ ∃ c, s.Config = some c ∧
        c.Properties.Len ≠ 0 ∧ validProperties c = true ∧ kv.1 ∈ c.Interfaces) →
      ∀ kv ∈ registerLoop all index, ∀ s ∈ kv.2, s.Path ≠ "" ∧ ∃ c, s.Config = some c ∧
        c.Properties.Len ≠ 0 ∧ validProperties c = true ∧ kv.1 ∈ c.Interfaces := by
  induction all with
  | nil =>
    intro index hinv
    exact hinv
  | cons p rest ih =>
    intro index hinv
    obtain ⟨path, sc⟩ := p
    have hrest : ∀ kv ∈ rest, ∀ c, kv.2.Config = some c →
        c.Properties.Len ≠ 0 ∧ validProperties c = true :=
      fun kv hkv => hall kv (List.mem_cons_of_mem _ hkv)
    unfold registerLoop
    by_cases hp : sc.Path = ""
    · rw [if_pos hp]
      exact ih hrest index hinv
    · rw [if_neg hp]
      cases hcfg : sc.Config with
      | none => exact ih hrest index hinv
      | some config =>
        simp only
        by_cases hlen : config.Interfaces.length = 0
        · rw [if_pos hlen]
          exact ih hrest index hinv
        · rw [if_neg hlen]
          apply ih hrest
          have hv := hall (path, sc) (List.mem_cons_self _ _) config hcfg
          exact registerScript_inv
            (fun key s => s.Path ≠ "" ∧ ∃ c, s.Config = some c ∧
              c.Properties.Len ≠ 0 ∧ validProperties c = true ∧ key ∈ c.Interfaces)
            sc config.Interfaces (fun n hn => ⟨hp, config, hcfg, hv.1, hv.2, hn⟩) index hinv

/-- C15. `LoadInterfaces` never panics, and when it succeeds every script descriptor
stored under any key of the registry index has both halves: a non-empty `Path` and a
non-nil `Config` whose `Properties` set is non-empty and holds only IPV6_ADDRS,
IPV4_ADDRS or PD_ADDRS, and whose `Interfaces` list contains that key.  So a descriptor
missing a half, or whose configuration names another property, is stored under no
key. -/
theorem C15_registry_descriptors_complete (dir : String)
    (listing : Except String (List DirEntry)) :
    (∃ r, LoadInterfaces dir listing = some r) ∧
    ∀ ifaces, LoadInterfaces dir listing = some (.ok ifaces) →
      ∀ key scripts, (key, scripts) ∈ ifaces.scripts → ∀ sc ∈ scripts,
        sc.Path ≠ "" ∧ ∃ config, sc.Config = some config ∧
          config.Properties.Len ≠ 0 ∧
          (∀ val, config.Properties.Contains val = true →
            val = keyIPv6 ∨ val = keyIPv4 ∨ val = keyPD) ∧
          key ∈ config.Interfaces := by
  cases listing with
  | error e => exact ⟨⟨_, rfl⟩, fun ifaces h => by simp [LoadInterfaces] at h⟩
  | ok files =>
    obtain ⟨r, hscan, hr⟩ := scanLoop_rep dir files (rep_zero (K := String) (V := script))
      (by intro kv hkv; simp at hkv)
    unfold LoadInterfaces
    simp only [hscan]
    cases r with
    | error e => exact ⟨⟨_, rfl⟩, fun ifaces h => by simp at h⟩
    | ok scripts =>
      obtain ⟨l1, hrep, hinv⟩ := hr scripts rfl
      simp only [rep_All hrep]
      by_cases hlen : scripts.Len = 0
      · rw [if_pos hlen]
        exact ⟨⟨_, rfl⟩, fun ifaces h => by simp at h⟩
      · rw [if_neg hlen]
        refine ⟨⟨_, rfl⟩, ?_⟩
        intro ifaces h key scs hmem sc hsc
        simp only [Option.some.injEq, Except.ok.injEq] at h
        subst h
        simp only at hmem
        obtain ⟨hp, c, hc, hl, hv, hk⟩ := registerLoop_inv l1 hinv []
          (by intro kv hkv; simp at hkv) (key, scs) hmem sc hsc
        refine ⟨hp, c, hc, hl, ?_, hk⟩
        intro val hval
        unfold validProperties at hv
        rw [List.all_eq_true] at hv
        have := hv val (by simpa [set.Set.Contains] using hval)
        simpa using this

/-- C15, at a directory with one complete pair and three incomplete or invalid ones:
only the complete pair is stored. -/
theorem C15_registry_descriptors_complete_witness :
    LoadInterfaces "/etc/ipmon" (.ok Sample.directory)
      = some (.ok { rawByPath := [], rawByName := [], m := [],
                    scripts := [("eth0", [Sample.descriptorA]), ("", [Sample.descriptorA])] }) ∧
    Sample.descriptorA.Path ≠ "" ∧
    ∃ config, Sample.descriptorA.Config = some config ∧ "eth0" ∈ config.Interfaces := by
  have h : LoadInterfaces "/etc/ipmon" (.ok Sample.directory)
      = some (.ok { rawByPath := [], rawByName := [], m := [],
                    scripts := [("eth0", [Sample.descriptorA]), ("", [Sample.descriptorA])] }) := by
    rfl
  obtain ⟨hp, c, hc, _, _, hk⟩ := (C15_registry_descriptors_complete "/etc/ipmon"
    (.ok Sample.directory)).2 _ h "eth0" [Sample.descriptorA] (by simp) Sample.descriptorA
    (by simp)
  exact ⟨h, hp, c, hc, hk⟩
